import Mathlib

/-!
Pintos kernel threading core: lists, scheduler, priorities.

A shallow embedding of `lib/kernel/list.c` and `threads/thread.c`.

Lists.  An intrusive list `struct list` (two sentinels `head`, `tail`, interior nodes
linked by `prev`/`next`) is modelled by the Lean list of its interior nodes, in
`next` order.  A `struct list_elem *` into a list is modelled by the position of
that node: an index `i < l.length` is the interior node number `i`, and
`l.length` is the tail sentinel returned by `list_end`.  A half-open range
`[a, b)` of nodes is modelled by the segment of the list between both positions.
A cursor that walks a list while nodes are unlinked (`remove_with_lock`,
`thread_awake`) is modelled by the list split at the cursor: the nodes stepped
over and the nodes from the cursor on.

The comparator `list_less_func *less` with its `aux` argument is a function
`less : α → α → Bool`.

Threads.  A `struct thread *` is modelled by a thread identifier `Tid`; the kernel state
maps every identifier to the contents of its `struct thread`.  The thread lists
(`ready_list`, `sleep_list`, `destruction_req`, `donations`) hold identifiers, so
a comparator reads the priority a thread has at the moment of the comparison.
Every operation runs with interrupts disabled and is one atomic step of the
model; the assertions on the interrupt level and on the `magic` word are not
part of it.  A failed `ASSERT` or a reached `NOT_REACHED` (a kernel panic) or
the dereference of `NULL` is the result `none`.  `thread_launch` is the context switch: it makes `next` the
running thread.  The loops of `list_sort`, `donate_priority` and
`donate_priority_thread` take a `fuel` argument that bounds the number of
iterations, and yield `none` when it runs out; the theorems show how much fuel
gives the result.  The page allocator is outside the model: `thread_create`
takes the result of `palloc_get_page` as an argument.
-/

namespace Pintos

universe u

variable {α : Type u}

/-! ## `lib/kernel/list.c` -/

/-- Function `list_insert (before, elem)`: links `elem` in just before the node at
position `before` (which may be the tail sentinel, position `l.length`). -/
def list_insert (l : List α) (before : Nat) (elem : α) : List α :=
  l.take before ++ elem :: l.drop before

/-- The `for` loop of `list_insert_ordered`: starting with `e` at the first node
of the remaining list, it advances `e` while `less (elem, e)` is false, and
yields the number of nodes stepped over (the position where the loop stops,
relative to where it started). -/
def list_insert_ordered_scan (less : α → α → Bool) (elem : α) : List α → Nat
  | [] => 0
  | e :: rest => if less elem e then 0 else list_insert_ordered_scan less elem rest + 1

/-- Function `list_insert_ordered (list, elem, less, aux)`: scan from `list_begin`, then
`list_insert (e, elem)` at the node where the scan stopped. -/
def list_insert_ordered (l : List α) (elem : α) (less : α → α → Bool) : List α :=
  list_insert l (list_insert_ordered_scan less elem l) elem

/-- Function `is_sorted (a, b, less, aux)` on the range `[a, b)`: no node `a` of the range
other than the first has `less (a, list_prev (a))`. -/
def is_sorted (less : α → α → Bool) : List α → Bool
  | [] => true
  | [_] => true
  | p :: a :: rest => !less a p && is_sorted less (a :: rest)

/-- The `do … while` loop of `find_end_of_run` after its first step: `prev` is
the node just stepped over and the list is what follows it up to `b`.  The loop
goes on while the node under the cursor is not `less` than its predecessor.
The result is the part of the run stepped over and the rest of the range. -/
def find_end_of_run_loop (less : α → α → Bool) : α → List α → List α × List α
  | _, [] => ([], [])
  | prev, a :: rest =>
    if less a prev then ([], a :: rest)
    else ((find_end_of_run_loop less a rest).1.cons a, (find_end_of_run_loop less a rest).2)

/-- Function `find_end_of_run (a, b, less, aux)` on the non-empty range `[a, b)`: the
returned position splits the range into the run `[a, result)` and the remainder
`[result, b)`.  The source asserts `a != b`; the empty range is not a legal
argument and is mapped to the empty split. -/
def find_end_of_run (less : α → α → Bool) : List α → List α × List α
  | [] => ([], [])
  | a :: rest => ((find_end_of_run_loop less a rest).1.cons a, (find_end_of_run_loop less a rest).2)

/-- Function `inplace_merge (a0, a1b0, b1, less, aux)`: the arguments are the adjacent
ranges `A = [a0, a1b0)` and `B = [a1b0, b1)`; the result is the content of
`[old a0, b1)` when the loop ends.  Each iteration either steps `a0` over the
first node of `A` (when the first node of `B` is not `less` than it), or splices
the first node of `B` in front of `a0`; in both cases that node joins the part
of the range lying before `a0`. -/
def inplace_merge (less : α → α → Bool) : List α → List α → List α
  | [], B => B
  | a :: A, [] => a :: A
  | a :: A, b :: B =>
    if !less b a then a :: inplace_merge less A (b :: B)
    else b :: inplace_merge less (a :: A) B
termination_by A B => A.length + B.length

/-- One execution of the body of the `do … while` loop of `list_sort`, i.e. the
whole inner `for` loop, on the range `[a0, list_end)`.  The result is the new
content of that range and the number of iterations started (the increment of
`output_run_cnt`).  An iteration finds the run `[a0, a1b0)`; when `a1b0` is
`list_end` the loop breaks, otherwise it finds the next run `[a1b0, b1)`, merges
both in place and goes on from `b1`. -/
def list_sort_pass (less : α → α → Bool) (l : List α) : List α × Nat :=
  match l with
  | [] => ([], 0)
  | a0 :: rest =>
    match h1 : (find_end_of_run less (a0 :: rest)).2 with
    | [] => ((find_end_of_run less (a0 :: rest)).1, 1)
    | a1b0 :: rest1 =>
      ((inplace_merge less (find_end_of_run less (a0 :: rest)).1
          (find_end_of_run less (a1b0 :: rest1)).1
        ++ (list_sort_pass less (find_end_of_run less (a1b0 :: rest1)).2).1),
       (list_sort_pass less (find_end_of_run less (a1b0 :: rest1)).2).2 + 1)
termination_by l.length
decreasing_by
  have len : ∀ (t : List α) (p : α),
      (find_end_of_run_loop less p t).2.length ≤ t.length := by
    intro t
    induction t with
    | nil => intro _; simp [find_end_of_run_loop]
    | cons x t ih =>
      intro p
      unfold find_end_of_run_loop
      split
      · simp
      · exact Nat.le_succ_of_le (ih x)
  all_goals
    simp only [find_end_of_run] at h1 ⊢
    have e1 : (a1b0 :: rest1).length ≤ rest.length := by
      rw [← h1]
      exact len _ _
    have e2 := len rest1 a1b0
    simp only [List.length_cons] at e1 ⊢
    omega

/-- Function `list_sort (list, less, aux)`: the `do … while (output_run_cnt > 1)` loop,
with `fuel` bounding the number of passes.  The result is `none` when the fuel
runs out before a pass counts at most one run, and otherwise the final content
of the list, on which the source then asserts `is_sorted`. -/
def list_sort (less : α → α → Bool) : Nat → List α → Option (List α)
  | 0, _ => none
  | fuel + 1, l =>
    if (list_sort_pass less l).2 > 1 then list_sort less fuel (list_sort_pass less l).1
    else some (list_sort_pass less l).1

/-! ## `threads/thread.h`, `threads/synch.h` -/

/-- Identity of a `struct thread` (its page address). -/
abbrev Tid := Nat

/-- Identity of a `struct lock`. -/
abbrev LockId := Nat

/-- The `enum thread_status`. -/
inductive thread_status where
  | THREAD_RUNNING
  | THREAD_READY
  | THREAD_BLOCKED
  | THREAD_DYING
  deriving DecidableEq, Repr

open thread_status

/-- Lowest priority. -/
def PRI_MIN : Int := 0

/-- Default priority. -/
def PRI_DEFAULT : Int := 31

/-- Highest priority. -/
def PRI_MAX : Int := 63

/-- Modelled from the spec: the members `init_priority`, `wait_on_lock` and
`donations` (with the list handle `donations_elem`) are used by `thread.c` but
are not declared in the `struct thread` of `thread.h`; they are taken from the
data model of the specification (base priority, the lock the thread waits for,
the list of threads that donate to it).  The other members are those of
`thread.h`; `priority` and `init_priority` are C `int`s, `time_to_wakeup` an
`int64_t`.  The list handles `elem` and `donations_elem` are represented by the
membership of the thread identifier in the lists of the state. -/
structure thread where
  status : thread_status
  priority : Int
  time_to_wakeup : Int
  init_priority : Int
  wait_on_lock : Option LockId
  donations : List Tid
  deriving Repr

/-- The `struct lock` of `synch.h`, reduced to its `holder` (`none` is `NULL`). -/
structure lock where
  holder : Option Tid
  deriving Repr

/-- The kernel state owned by `thread.c`: the thread structures, the locks, the
static lists and pointers, and the thread whose stack the CPU runs on
(`running_thread ()`). -/
structure State where
  threads : Tid → thread
  locks : LockId → lock
  ready_list : List Tid
  sleep_list : List Tid
  destruction_req : List Tid
  idle_thread : Option Tid
  initial_thread : Option Tid
  running : Tid
  thread_ticks : Nat

/-- Assignment `t->status = st`. -/
def store_status (s : State) (t : Tid) (st : thread_status) : State :=
  { s with threads := fun u => if u = t then { s.threads t with status := st } else s.threads u }

/-- Assignment `t->priority = p`. -/
def store_priority (s : State) (t : Tid) (p : Int) : State :=
  { s with threads := fun u => if u = t then { s.threads t with priority := p } else s.threads u }

/-- Assignment `t->init_priority = p`. -/
def store_init_priority (s : State) (t : Tid) (p : Int) : State :=
  { s with
    threads := fun u => if u = t then { s.threads t with init_priority := p } else s.threads u }

/-! ## `threads/thread.c` -/

/-- The conversion of an `int` to the pointer type `struct thread *` that
`compare_thread_priority` performs when it stores a priority in a pointer
variable: on the 64-bit target the value is sign-extended to 64 bits, and the
result is read as an unsigned address. -/
def int_to_pointer (v : Int) : Nat := (v % 2 ^ 64).toNat

/-- Function `compare_thread_priority (a_, b_, aux)`: both priorities are stored in
variables of type `struct thread *` and the pointers are compared with `>`
(an unsigned comparison of the addresses). -/
def compare_thread_priority (s : State) (a_ b_ : Tid) : Bool :=
  decide (int_to_pointer (s.threads a_).priority > int_to_pointer (s.threads b_).priority)

/-- Function `thread_current ()`: the running thread, with the assertion that its status
is `THREAD_RUNNING`. -/
def thread_current (s : State) : Option Tid :=
  if (s.threads s.running).status = THREAD_RUNNING then some s.running else none

/-- Function `thread_unblock (t)`: asserts that `t` is blocked, inserts it into the ready
list in the order of `compare_thread_priority` and makes it ready. -/
def thread_unblock (s : State) (t : Tid) : Option State :=
  if (s.threads t).status = THREAD_BLOCKED then
    some (store_status
      { s with ready_list := list_insert_ordered s.ready_list t (compare_thread_priority s) }
      t THREAD_READY)
  else none

/-- Function `next_thread_to_run ()`: the idle thread when the ready list is empty,
otherwise the front of the ready list, which is popped.  The result is the
chosen thread (`none` for a `NULL` idle thread) and the state after the pop. -/
def next_thread_to_run (s : State) : Option Tid × State :=
  match s.ready_list with
  | [] => (s.idle_thread, s)
  | front :: rest => (some front, { s with ready_list := rest })

/-- Function `schedule ()`: chooses the next thread, asserts that the current thread is
no longer running and that `next` is a thread, marks `next` running, resets the
tick count and, when `curr != next`, queues a dying `curr` other than the
initial thread on `destruction_req` and switches to `next`. -/
def schedule (s : State) : Option State :=
  let curr := s.running
  match next_thread_to_run s with
  | (none, _) => none
  | (some next, s1) =>
    if (s1.threads curr).status = THREAD_RUNNING then none
    else
      let s2 := { store_status s1 next THREAD_RUNNING with thread_ticks := 0 }
      if curr ≠ next then
        let s3 :=
          if (s2.threads curr).status = THREAD_DYING ∧ some curr ≠ s2.initial_thread then
            { s2 with destruction_req := s2.destruction_req ++ [curr] }
          else s2
        some { s3 with running := next }
      else some s2

/-- Function `do_schedule (status)`: asserts that the current thread is running, frees
every thread on `destruction_req`, gives the current thread the status `status`
and calls `schedule`. -/
def do_schedule (s : State) (status : thread_status) : Option State :=
  match thread_current s with
  | none => none
  | some cur => schedule (store_status { s with destruction_req := [] } cur status)

/-- Function `thread_block ()`: the current thread becomes blocked and `schedule` runs. -/
def thread_block (s : State) : Option State :=
  match thread_current s with
  | none => none
  | some cur => schedule (store_status s cur THREAD_BLOCKED)

/-- Function `thread_exit ()`: `do_schedule (THREAD_DYING)` followed by
`NOT_REACHED ()`.  The call of `do_schedule` comes back to the caller only when
`schedule` has chosen the caller itself as the next thread, and `NOT_REACHED`
then panics: the result is `none`.  Otherwise the CPU has switched to the next
thread and the result is the state after the switch. -/
def thread_exit (s : State) : Option State :=
  match do_schedule s THREAD_DYING with
  | none => none
  | some s1 => if s1.running = s.running then none else some s1

/-- Function `thread_yield ()`: unless it is the idle thread, the current thread is
inserted into the ready list in priority order; then `do_schedule
(THREAD_READY)`. -/
def thread_yield (s : State) : Option State :=
  match thread_current s with
  | none => none
  | some curr =>
    do_schedule
      { s with ready_list :=
          if some curr ≠ s.idle_thread then
            list_insert_ordered s.ready_list curr (compare_thread_priority s)
          else s.ready_list }
      THREAD_READY

/-- The test of `thread_preemption ()`: the ready list is not empty and
`compare_thread_priority` of its first element and the current thread holds.
`none` when `thread_current ()` fails its assertion. -/
def thread_preemption_test (s : State) : Option Bool :=
  match s.ready_list with
  | [] => some false
  | top_priority_thread :: _ =>
    match thread_current s with
    | none => none
    | some cur => some (compare_thread_priority s top_priority_thread cur)

/-- Function `thread_preemption ()`: calls `thread_yield` when the test holds, and does
nothing otherwise. -/
def thread_preemption (s : State) : Option State :=
  match thread_preemption_test s with
  | none => none
  | some true => thread_yield s
  | some false => some s

/-- Function `refresh_priority ()`: the priority of the current thread is reset to its
`init_priority` and then raised to the priority of the front of its `donations`
list when that list is not empty and the front has a higher priority. -/
def refresh_priority (s : State) : Option State :=
  match thread_current s with
  | none => none
  | some cur =>
    let s1 := store_priority s cur (s.threads cur).init_priority
    match (s1.threads cur).donations with
    | [] => some s1
    | front :: _ =>
      if (s1.threads front).priority > (s1.threads cur).priority then
        some (store_priority s1 cur (s1.threads front).priority)
      else some s1

/-- The two stores of `thread_set_priority (new_priority)` followed by
`refresh_priority ()`, i.e. the function up to its call of `thread_preemption`. -/
def thread_set_priority_store (s : State) (new_priority : Int) : Option State :=
  match thread_current s with
  | none => none
  | some cur =>
    refresh_priority (store_init_priority (store_priority s cur new_priority) cur new_priority)

/-- Function `thread_set_priority (new_priority)`: stores the new priority in `priority`
and `init_priority`, calls `refresh_priority` and then `thread_preemption`. -/
def thread_set_priority (s : State) (new_priority : Int) : Option State :=
  match thread_set_priority_store s new_priority with
  | none => none
  | some s1 => thread_preemption s1

/-- Function `thread_get_priority ()`: the `priority` member of the current thread. -/
def thread_get_priority (s : State) : Option Int :=
  match thread_current s with
  | none => none
  | some cur => some (s.threads cur).priority

/-- Assignment `t->time_to_wakeup = ticks`. -/
def store_time_to_wakeup (s : State) (t : Tid) (ticks : Int) : State :=
  { s with
    threads := fun u =>
      if u = t then { s.threads t with time_to_wakeup := ticks } else s.threads u }

/-- Function `cmp_wakeup_tick (a, b, aux)`: the comparison `ta->time_to_wakeup <
tb->time_to_wakeup` of two `int64_t` members. -/
def cmp_wakeup_tick (s : State) (a b : Tid) : Bool :=
  decide ((s.threads a).time_to_wakeup < (s.threads b).time_to_wakeup)

/-- Function `thread_sleep (ticks)`: asserts that the current thread is not the idle
thread, stores `ticks` in its `time_to_wakeup`, inserts it into the sleep list in
the order of `cmp_wakeup_tick` and calls `thread_block`. -/
def thread_sleep (s : State) (ticks : Int) : Option State :=
  match thread_current s with
  | none => none
  | some cur_thread =>
    if some cur_thread = s.idle_thread then none
    else
      thread_block
        { store_time_to_wakeup s cur_thread ticks with
          sleep_list :=
            list_insert_ordered s.sleep_list cur_thread
              (cmp_wakeup_tick (store_time_to_wakeup s cur_thread ticks)) }

/-- The `while` loop of `thread_awake (ticks)`.  The cursor `e` starts at
`list_begin (&sleep_list)` and every node it passes is removed, so `e` is always
the first node of the sleep list: the list argument is the sleep list from `e`
on.  A thread whose `time_to_wakeup` is at most `ticks` is removed with
`list_remove` and handed to `thread_unblock`; the loop breaks at the first other
thread, and ends at `list_end`. -/
def thread_awake_loop (ticks : Int) : List Tid → State → Option State
  | [], s => some s
  | t :: next, s =>
    if (s.threads t).time_to_wakeup ≤ ticks then
      match thread_unblock { s with sleep_list := next } t with
      | none => none
      | some s1 => thread_awake_loop ticks next s1
    else some s

/-- Function `thread_awake (ticks)`: the loop from the beginning of the sleep list. -/
def thread_awake (s : State) (ticks : Int) : Option State :=
  thread_awake_loop ticks s.sleep_list s

/-- Function `list_remove (elem)`, seen from the cursor: the argument is the list from
`elem` on, the result is the list from the returned `elem->next` on, and `elem`
is no longer linked. -/
def list_remove : List α → List α
  | [] => []
  | _ :: next => next

/-- The `while` loop of `remove_with_lock (lock)` over the donations list of the
current thread: `before` holds the nodes the cursor has stepped over with
`list_next`, the second list the nodes from the cursor to `list_tail`.  A donor
whose `wait_on_lock` is `lock` is unlinked with `list_remove`, any other donor
is stepped over.  The result is the list when the cursor is at the tail. -/
def remove_with_lock_loop (s : State) (lock : Option LockId) : List Tid → List Tid → List Tid
  | before, [] => before
  | before, curr_donation_thread :: next =>
    if (s.threads curr_donation_thread).wait_on_lock = lock then
      remove_with_lock_loop s lock before (list_remove (curr_donation_thread :: next))
    else remove_with_lock_loop s lock (before ++ [curr_donation_thread]) next

/-- Function `remove_with_lock (lock)`: runs the loop over the donations list of the
current thread, from `list_begin`.  The pointer `lock` may be `NULL` (`none`). -/
def remove_with_lock (s : State) (lock : Option LockId) : Option State :=
  match thread_current s with
  | none => none
  | some cur =>
    some { s with
      threads := fun u =>
        if u = cur then
          { s.threads cur with
            donations := remove_with_lock_loop s lock [] (s.threads cur).donations }
        else s.threads u }

/-- The `while (holder != NULL)` loop of `donate_priority ()`, with the local
variables `count` and `holder`; `fuel` bounds the number of iterations and the
result is `none` when it runs out.  An iteration stores the priority of the
current thread in `holder->priority`, increments `count`, breaks when `count >
8` or the holder waits for no lock, and otherwise goes on with the holder of the
lock the holder waits for. -/
def donate_priority_loop : Nat → Nat → Option Tid → State → Option State
  | _, _, none, s => some s
  | 0, _, some _, _ => none
  | fuel + 1, count, some holder, s =>
    match thread_current s with
    | none => none
    | some cur =>
      let s1 := store_priority s holder (s.threads cur).priority
      if count + 1 > 8 then some s1
      else
        match (s1.threads holder).wait_on_lock with
        | none => some s1
        | some l => donate_priority_loop fuel (count + 1) (s1.locks l).holder s1

/-- Function `donate_priority ()`: starts the loop at the holder of the lock the
current thread waits for, with `count = 0`.  A current thread that waits for no
lock makes the function dereference `NULL`, which is the result `none`. -/
def donate_priority (fuel : Nat) (s : State) : Option State :=
  match thread_current s with
  | none => none
  | some cur =>
    match (s.threads cur).wait_on_lock with
    | none => none
    | some l => donate_priority_loop fuel 0 (s.locks l).holder s

/-- The `while` loop of `donate_priority_thread (t)`, with the local variable
`depth` and the parameter `t`, which the loop moves along the chain; `fuel`
bounds the number of evaluations of the loop condition and the result is `none`
when it runs out.  An iteration takes the holder of the lock `t` waits for,
breaks when there is none, raises the priority of the holder to that of `t`
when it is lower, and goes on with `t = holder` and `depth + 1`. -/
def donate_priority_thread_loop : Nat → Nat → Tid → State → Option State
  | 0, _, _, _ => none
  | fuel + 1, depth, t, s =>
    match (s.threads t).wait_on_lock with
    | none => some s
    | some l =>
      if depth < 8 then
        match (s.locks l).holder with
        | none => some s
        | some holder =>
          donate_priority_thread_loop fuel (depth + 1) holder
            (if (s.threads holder).priority < (s.threads t).priority then
              store_priority s holder (s.threads t).priority
             else s)
      else some s

/-- Function `donate_priority_thread (t)`: the loop with `depth = 0`. -/
def donate_priority_thread (fuel : Nat) (s : State) (t : Tid) : Option State :=
  donate_priority_thread_loop fuel 0 t s

/-- The number of times the body of the `while` loop of `donate_priority_thread
(t)` is entered, counted as `donate_priority_thread_loop` runs the loop: every
entry reads one holder, `depth` is the number of entries that went on to the
next evaluation of the loop condition, and an entry that finds no holder leaves
the loop with `break`. -/
def donate_priority_thread_iterations : Nat → Nat → Tid → State → Option Nat
  | 0, _, _, _ => none
  | fuel + 1, depth, t, s =>
    match (s.threads t).wait_on_lock with
    | none => some depth
    | some l =>
      if depth < 8 then
        match (s.locks l).holder with
        | none => some (depth + 1)
        | some holder =>
          donate_priority_thread_iterations fuel (depth + 1) holder
            (if (s.threads holder).priority < (s.threads t).priority then
              store_priority s holder (s.threads t).priority
             else s)
      else some depth

/-- Function `init_thread (t, name, priority)`: asserts that `priority` lies between
`PRI_MIN` and `PRI_MAX`, clears the structure with `memset` and stores the
status `THREAD_BLOCKED`, the priority in `priority` and in `init_priority`, a
`NULL` `wait_on_lock` and an empty `donations` list.  The name, the stack
pointer and `magic` are not represented. -/
def init_thread (s : State) (t : Tid) (priority : Int) : Option State :=
  if PRI_MIN ≤ priority ∧ priority ≤ PRI_MAX then
    some { s with
      threads := fun u =>
        if u = t then
          { status := THREAD_BLOCKED, priority := priority, time_to_wakeup := 0,
            init_priority := priority, wait_on_lock := none, donations := [] }
        else s.threads u }
  else none

/-- Function `thread_create (name, priority, function, aux)`: `page` is the result of
`palloc_get_page` (`none` is `NULL`).  Without a page the function returns
`TID_ERROR`, the first component `none`, and leaves the state as it is.
Otherwise it calls `init_thread`, `thread_unblock` and `thread_preemption` on
the new thread and returns its identifier.  The interrupt frame of the new
thread and the counter of `allocate_tid`, with its lock `tid_lock`, are not
represented: the new thread is identified by its page. -/
def thread_create (s : State) (page : Option Tid) (priority : Int) :
    Option (Option Tid × State) :=
  match page with
  | none => some (none, s)
  | some t =>
    match init_thread s t priority with
    | none => none
    | some s1 =>
      match thread_unblock s1 t with
      | none => none
      | some s2 =>
        match thread_preemption s2 with
        | none => none
        | some s3 => some (some t, s3)

/-! ## Predicates of the specification -/

/-- A comparator is a strict weak order: irreflexive, transitive, and with a
transitive incomparability relation. -/
structure StrictWeakOrder (less : α → α → Bool) : Prop where
  irrefl : ∀ a, less a a = false
  trans : ∀ a b c, less a b = true → less b c = true → less a c = true
  incomp_trans : ∀ a b c, less a b = false → less b a = false →
    less b c = false → less c b = false → less a c = false ∧ less c a = false

/-- Two elements are equivalent under `less` when neither is less than the
other. -/
def equivalent (less : α → α → Bool) (a b : α) : Bool :=
  !less a b && !less b a

/-- Number of descents of a list: the nodes that are `less` than their
predecessor.  A non-empty list has one more run than it has descents. -/
def descents (less : α → α → Bool) : List α → Nat
  | [] => 0
  | [_] => 0
  | p :: a :: rest => (if less a p then 1 else 0) + descents less (a :: rest)

/-- A list of threads is ordered by current priority, highest first. -/
def priority_ordered (s : State) (l : List Tid) : Prop :=
  l.Pairwise (fun a b => (s.threads a).priority ≥ (s.threads b).priority)

/-- The priority of thread `t` lies in `[PRI_MIN, PRI_MAX]`. -/
def priority_in_range (s : State) (t : Tid) : Prop :=
  PRI_MIN ≤ (s.threads t).priority ∧ (s.threads t).priority ≤ PRI_MAX

instance priority_ordered_decidable (s : State) (l : List Tid) :
    Decidable (priority_ordered s l) := by
  unfold priority_ordered
  infer_instance

instance priority_in_range_decidable (s : State) (t : Tid) :
    Decidable (priority_in_range s t) := by
  unfold priority_in_range
  infer_instance

/-- Two thread structures agree on every member other than `status`. -/
def same_but_status (a b : thread) : Prop :=
  a.priority = b.priority ∧ a.init_priority = b.init_priority ∧
  a.donations = b.donations ∧ a.wait_on_lock = b.wait_on_lock ∧
  a.time_to_wakeup = b.time_to_wakeup

/-- The outcome of a scheduling step entered in state `s` and left in state
`s1`: the former front of the ready list is running and popped, and no thread
left in the ready list has a higher priority than it; with an empty ready list
the idle thread is running. -/
def runs_front_of_ready (s s1 : State) : Prop :=
  match s.ready_list with
  | front :: rest =>
    (s1.threads front).status = THREAD_RUNNING ∧ s1.running = front ∧ s1.ready_list = rest ∧
      ∀ t ∈ s1.ready_list, (s1.threads t).priority ≤ (s1.threads s1.running).priority
  | [] =>
    ∃ idle, s.idle_thread = some idle ∧ (s1.threads idle).status = THREAD_RUNNING ∧
      s1.running = idle ∧ s1.ready_list = []

/-- Two thread structures agree on every member other than `priority`. -/
def same_but_priority (a b : thread) : Prop :=
  a.status = b.status ∧ a.init_priority = b.init_priority ∧
  a.donations = b.donations ∧ a.wait_on_lock = b.wait_on_lock ∧
  a.time_to_wakeup = b.time_to_wakeup

/-- Two states differ at most in the priorities of their threads. -/
def same_but_priorities (s1 s : State) : Prop :=
  (∀ u, same_but_priority (s1.threads u) (s.threads u)) ∧
  s1.locks = s.locks ∧ s1.ready_list = s.ready_list ∧ s1.sleep_list = s.sleep_list ∧
  s1.destruction_req = s.destruction_req ∧ s1.idle_thread = s.idle_thread ∧
  s1.initial_thread = s.initial_thread ∧ s1.running = s.running ∧
  s1.thread_ticks = s.thread_ticks

/-- A list of threads is ordered by `time_to_wakeup`, smallest first. -/
def wakeup_ordered (s : State) (l : List Tid) : Prop :=
  l.Pairwise (fun a b => (s.threads a).time_to_wakeup ≤ (s.threads b).time_to_wakeup)

instance wakeup_ordered_decidable (s : State) (l : List Tid) :
    Decidable (wakeup_ordered s l) := by
  unfold wakeup_ordered
  infer_instance

/-- The thread reached from `t` by one link `wait_on_lock->holder`: the holder
of the lock `t` waits for, if `t` waits for a lock and that lock has a holder. -/
def lock_holder (s : State) (t : Tid) : Option Tid :=
  match (s.threads t).wait_on_lock with
  | none => none
  | some l => (s.locks l).holder

/-- The thread reached from `t` by following `k` links `wait_on_lock->holder`;
`none` when the chain stops earlier, at a thread that waits for no lock or at a
lock without holder. -/
def nth_holder (s : State) (t : Tid) : Nat → Option Tid
  | 0 => some t
  | k + 1 =>
    match lock_holder s t with
    | none => none
    | some h => nth_holder s h k

/-- Exactly one thread has the status `THREAD_RUNNING`, and it is the thread the
CPU runs. -/
def one_running (s : State) : Prop :=
  (∃! u, (s.threads u).status = THREAD_RUNNING) ∧
  (s.threads s.running).status = THREAD_RUNNING

/-- The threads on the ready list are exactly the threads with the status
`THREAD_READY`. -/
def ready_list_is_ready_set (s : State) : Prop :=
  ∀ u, u ∈ s.ready_list ↔ (s.threads u).status = THREAD_READY

/-- Every thread has its `priority` and its `init_priority` in `[PRI_MIN,
PRI_MAX]`. -/
def priorities_in_range (s : State) : Prop :=
  ∀ t, (PRI_MIN ≤ (s.threads t).priority ∧ (s.threads t).priority ≤ PRI_MAX) ∧
    (PRI_MIN ≤ (s.threads t).init_priority ∧ (s.threads t).init_priority ≤ PRI_MAX)

/-- The wait chain of `t` visits no thread twice within `n` links: a thread
reached from `t` by `j ≤ n` links is not the thread reached by `i < j` links. -/
def chain_distinct (s : State) (t : Tid) (n : Nat) : Prop :=
  ∀ j, j ≤ n → ∀ i, i < j → nth_holder s t j = none ∨ nth_holder s t i ≠ nth_holder s t j

instance chain_distinct_decidable (s : State) (t : Tid) (n : Nat) :
    Decidable (chain_distinct s t n) := by
  unfold chain_distinct
  infer_instance

/-- An integer is the value of a C `int` of 32 bits. -/
def is_int32 (v : Int) : Prop := -(2 ^ 31) ≤ v ∧ v < 2 ^ 31

instance is_int32_decidable (v : Int) : Decidable (is_int32 v) := by
  unfold is_int32
  infer_instance

/-! ## Example inputs -/

/-- The comparator `<` on natural numbers. -/
def nat_less : Nat → Nat → Bool := fun a b => decide (a < b)

/-- The comparator on pairs `(key, tag)` that compares the keys only. -/
def key_less : Nat × Nat → Nat × Nat → Bool := fun a b => decide (a.1 < b.1)

/-- A thread structure with status `st` and priority `p` (also its base
priority), that waits for no lock and has no donors. -/
def example_thread (st : thread_status) (p : Int) : thread :=
  { status := st, priority := p, time_to_wakeup := 0, init_priority := p,
    wait_on_lock := none, donations := [] }

/-- A state with priorities in range: thread `0` runs at priority 31 and is the
initial thread, threads `1` (priority 33) and `2` (priority 31) are ready, thread
`3` is the idle thread, blocked at priority 0, and thread `4` is blocked at
priority 32. -/
def example_state : State :=
  { threads := fun t =>
      match t with
      | 0 => example_thread THREAD_RUNNING 31
      | 1 => example_thread THREAD_READY 33
      | 2 => example_thread THREAD_READY 31
      | 3 => example_thread THREAD_BLOCKED 0
      | _ => example_thread THREAD_BLOCKED 32
    locks := fun _ => { holder := none }
    ready_list := [1, 2]
    sleep_list := []
    destruction_req := []
    idle_thread := some 3
    initial_thread := some 0
    running := 0
    thread_ticks := 0 }

/-- A state with a negative priority: thread `0` runs at priority 31, thread `1`
is ready at priority 5, thread `3` is the idle thread, and thread `2` is blocked
with priority `-1`, the value it gave itself with `thread_set_priority (-1)`
before it blocked. -/
def negative_priority_state : State :=
  { threads := fun t =>
      match t with
      | 0 => example_thread THREAD_RUNNING 31
      | 1 => example_thread THREAD_READY 5
      | 3 => example_thread THREAD_BLOCKED 0
      | _ => example_thread THREAD_BLOCKED (-1)
    locks := fun _ => { holder := none }
    ready_list := [1]
    sleep_list := []
    destruction_req := []
    idle_thread := some 3
    initial_thread := some 0
    running := 0
    thread_ticks := 0 }

/-- A state whose running thread `0` (base priority 31) has the donors `2`
(priority 40) and `1` (priority 32) on its `donations` list, highest first. -/
def ordered_donations_state : State :=
  { threads := fun t =>
      match t with
      | 0 => { example_thread THREAD_RUNNING 31 with donations := [2, 1] }
      | 1 => { example_thread THREAD_BLOCKED 32 with wait_on_lock := some 0 }
      | _ => { example_thread THREAD_BLOCKED 40 with wait_on_lock := some 1 }
    locks := fun _ => { holder := some 0 }
    ready_list := []
    sleep_list := []
    destruction_req := []
    idle_thread := none
    initial_thread := some 0
    running := 0
    thread_ticks := 0 }

/-- A state whose running thread `0` (base priority 31) has the donors `1`
(priority 32) and `2` (priority 40) on its `donations` list, in this order: the
priority of donor `2` was raised by a nested donation after it was inserted. -/
def unordered_donations_state : State :=
  { threads := fun t =>
      match t with
      | 0 => { example_thread THREAD_RUNNING 31 with donations := [1, 2] }
      | 1 => { example_thread THREAD_BLOCKED 32 with wait_on_lock := some 0 }
      | _ => { example_thread THREAD_BLOCKED 40 with wait_on_lock := some 1 }
    locks := fun _ => { holder := some 0 }
    ready_list := []
    sleep_list := []
    destruction_req := []
    idle_thread := none
    initial_thread := some 0
    running := 0
    thread_ticks := 0 }

/-- The state of scenario S5: the running thread `0` (base priority 31, current
priority 33) holds the locks `X = 0` and `Y = 1`; its donors are `Q = 2`
(priority 33, waiting for `Y`) and `P = 1` (priority 32, waiting for `X`), in
this order on its donations list. -/
def multiple_donations_state : State :=
  { threads := fun t =>
      match t with
      | 0 => { example_thread THREAD_RUNNING 33 with init_priority := 31, donations := [2, 1] }
      | 1 => { example_thread THREAD_BLOCKED 32 with wait_on_lock := some 0 }
      | 2 => { example_thread THREAD_BLOCKED 33 with wait_on_lock := some 1 }
      | _ => example_thread THREAD_BLOCKED 0
    locks := fun l => { holder := if l < 2 then some 0 else none }
    ready_list := []
    sleep_list := []
    destruction_req := []
    idle_thread := some 3
    initial_thread := some 0
    running := 0
    thread_ticks := 0 }

/-- The state of scenario S4 when `H` donates: `L = 0` (base priority 31, raised
to 32 by `M`) holds the lock `A = 0` and is ready; `M = 1` (priority 32) holds
the lock `B = 1` and waits for `A`; the running thread `H = 2` (priority 33)
waits for `B`. -/
def nested_donation_state : State :=
  { threads := fun t =>
      match t with
      | 0 => { example_thread THREAD_READY 32 with init_priority := 31, donations := [1] }
      | 1 => { example_thread THREAD_BLOCKED 32 with
                wait_on_lock := some 0, donations := [2] }
      | 2 => { example_thread THREAD_RUNNING 33 with wait_on_lock := some 1 }
      | _ => example_thread THREAD_BLOCKED 0
    locks := fun l => { holder := if l = 0 then some 0 else if l = 1 then some 1 else none }
    ready_list := [0]
    sleep_list := []
    destruction_req := []
    idle_thread := some 3
    initial_thread := some 0
    running := 2
    thread_ticks := 0 }

/-- A state in which the holder has the higher priority: thread `1` (priority
40) holds the lock `0` and sleeps; the running thread `0` (priority 31) waits
for the lock `0`. -/
def higher_holder_state : State :=
  { threads := fun t =>
      match t with
      | 0 => { example_thread THREAD_RUNNING 31 with wait_on_lock := some 0 }
      | 1 => { example_thread THREAD_BLOCKED 40 with donations := [0] }
      | _ => example_thread THREAD_BLOCKED 0
    locks := fun l => { holder := if l = 0 then some 1 else none }
    ready_list := []
    sleep_list := [1]
    destruction_req := []
    idle_thread := some 3
    initial_thread := some 0
    running := 0
    thread_ticks := 0 }

/-- A wait chain of ten holders: for `k ≤ 9` thread `k` waits for the lock `k`,
which thread `k + 1` holds; thread `10` waits for no lock.  The running thread
`0` has priority 40, every other thread priority 10. -/
def long_chain_state : State :=
  { threads := fun t =>
      if t = 0 then { example_thread THREAD_RUNNING 40 with wait_on_lock := some 0 }
      else
        { example_thread THREAD_BLOCKED 10 with
          wait_on_lock := if t < 10 then some t else none }
    locks := fun l => { holder := if l < 10 then some (l + 1) else none }
    ready_list := []
    sleep_list := []
    destruction_req := []
    idle_thread := some 11
    initial_thread := some 0
    running := 0
    thread_ticks := 0 }

/-- A state with sleepers: thread `0` runs at priority 31, threads `1` (priority
33) and `2` (priority 31) are ready, thread `3` is the idle thread, and the
sleep list holds the blocked threads `4` (priority 32, deadline 10), `5`
(priority 35, deadline 10) and `6` (priority 20, deadline 30). -/
def sleepers_state : State :=
  { threads := fun t =>
      match t with
      | 0 => example_thread THREAD_RUNNING 31
      | 1 => example_thread THREAD_READY 33
      | 2 => example_thread THREAD_READY 31
      | 3 => example_thread THREAD_BLOCKED 0
      | 4 => { example_thread THREAD_BLOCKED 32 with time_to_wakeup := 10 }
      | 5 => { example_thread THREAD_BLOCKED 35 with time_to_wakeup := 10 }
      | 6 => { example_thread THREAD_BLOCKED 20 with time_to_wakeup := 30 }
      | _ => example_thread THREAD_BLOCKED 32
    locks := fun _ => { holder := none }
    ready_list := [1, 2]
    sleep_list := [4, 5, 6]
    destruction_req := []
    idle_thread := some 3
    initial_thread := some 0
    running := 0
    thread_ticks := 0 }

/-- The state `negative_priority_state` with its thread `2` (priority `-1`)
asleep: it set its priority with `thread_set_priority (-1)` and then called
`thread_sleep (0)`. -/
def negative_sleeper_state : State :=
  { negative_priority_state with sleep_list := [2] }

/-- A state in which the idle thread `3` runs while thread `1` is ready, as
after a timer tick that woke thread `1` during the `hlt` of the idle loop. -/
def idle_running_state : State :=
  { threads := fun t =>
      match t with
      | 1 => example_thread THREAD_READY 33
      | 3 => example_thread THREAD_RUNNING 0
      | _ => example_thread THREAD_BLOCKED 31
    locks := fun _ => { holder := none }
    ready_list := [1]
    sleep_list := []
    destruction_req := []
    idle_thread := some 3
    initial_thread := some 0
    running := 3
    thread_ticks := 0 }

/-- A state whose running thread has a negative priority: thread `0` runs at
priority `-1`, the value it gave itself with `thread_set_priority (-1)`; the
ready list is empty, thread `3` is the idle thread, and every other thread
structure is blocked at priority 5. -/
def negative_running_state : State :=
  { threads := fun t =>
      match t with
      | 0 => example_thread THREAD_RUNNING (-1)
      | 3 => example_thread THREAD_BLOCKED 0
      | _ => example_thread THREAD_BLOCKED 5
    locks := fun _ => { holder := none }
    ready_list := []
    sleep_list := []
    destruction_req := []
    idle_thread := some 3
    initial_thread := some 0
    running := 0
    thread_ticks := 0 }

/-- The state `negative_running_state` with thread `1` (priority 5) ready and on
the ready list. -/
def negative_yield_state : State :=
  { negative_running_state with
    threads := fun t =>
      if t = 1 then example_thread THREAD_READY 5 else negative_running_state.threads t
    ready_list := [1] }

/-- The state of scenario S1 before `main` creates `A`: thread `0`, the initial
thread, runs at priority 31, the ready list is empty, thread `3` is the idle
thread, and every other thread structure is blocked at priority 0. -/
def main_state : State :=
  { threads := fun t =>
      match t with
      | 0 => example_thread THREAD_RUNNING 31
      | _ => example_thread THREAD_BLOCKED 0
    locks := fun _ => { holder := none }
    ready_list := []
    sleep_list := []
    destruction_req := []
    idle_thread := some 3
    initial_thread := some 0
    running := 0
    thread_ticks := 0 }

/-- A state with a ready lock holder: thread `0` (priority 31) holds the lock
`0` and is ready, behind thread `1` (priority 35) on the ready list; the running
thread `2` (priority 40) waits for the lock `0`.  Thread `3` is the idle
thread. -/
def ready_holder_state : State :=
  { threads := fun t =>
      match t with
      | 0 => example_thread THREAD_READY 31
      | 1 => example_thread THREAD_READY 35
      | 2 => { example_thread THREAD_RUNNING 40 with wait_on_lock := some 0 }
      | _ => example_thread THREAD_BLOCKED 0
    locks := fun l => { holder := if l = 0 then some 0 else none }
    ready_list := [1, 0]
    sleep_list := []
    destruction_req := []
    idle_thread := some 3
    initial_thread := some 0
    running := 2
    thread_ticks := 0 }

/-- A state with a blocked lock holder: thread `0` (priority 31) holds the lock
`0` and sleeps; the running thread `2` (priority 40) waits for the lock `0`; the
threads `1` (priority 35) and `4` (priority 20) are ready.  Thread `3` is the
idle thread. -/
def blocked_holder_state : State :=
  { threads := fun t =>
      match t with
      | 0 => example_thread THREAD_BLOCKED 31
      | 1 => example_thread THREAD_READY 35
      | 2 => { example_thread THREAD_RUNNING 40 with wait_on_lock := some 0 }
      | 4 => example_thread THREAD_READY 20
      | _ => example_thread THREAD_BLOCKED 0
    locks := fun l => { holder := if l = 0 then some 0 else none }
    ready_list := [1, 4]
    sleep_list := [0]
    destruction_req := []
    idle_thread := some 3
    initial_thread := some 0
    running := 2
    thread_ticks := 0 }

/-- A wait chain whose second holder is below the first: the running thread `0`
(priority 10) waits for the lock `0`, which thread `1` (priority 30) holds;
thread `1` waits for the lock `1`, which thread `2` (priority 25) holds.  Thread
`2` is at 25 after a `refresh_priority` that read the front of a donations list
on which thread `1` was not first. -/
def uneven_chain_state : State :=
  { threads := fun t =>
      match t with
      | 0 => { example_thread THREAD_RUNNING 10 with wait_on_lock := some 0 }
      | 1 => { example_thread THREAD_BLOCKED 30 with wait_on_lock := some 1 }
      | 2 => { example_thread THREAD_BLOCKED 25 with init_priority := 20 }
      | _ => example_thread THREAD_BLOCKED 0
    locks := fun l => { holder := if l = 0 then some 1 else if l = 1 then some 2 else none }
    ready_list := []
    sleep_list := []
    destruction_req := []
    idle_thread := some 3
    initial_thread := some 0
    running := 0
    thread_ticks := 0 }

/-- A deadlock: the running thread `0` (priority 10) holds the lock `1` and
waits for the lock `0`; thread `1` (priority 30) holds the lock `0` and waits
for the lock `1`. -/
def deadlock_state : State :=
  { threads := fun t =>
      match t with
      | 0 => { example_thread THREAD_RUNNING 10 with wait_on_lock := some 0 }
      | 1 => { example_thread THREAD_BLOCKED 30 with wait_on_lock := some 1 }
      | _ => example_thread THREAD_BLOCKED 0
    locks := fun l => { holder := if l = 0 then some 1 else if l = 1 then some 0 else none }
    ready_list := []
    sleep_list := []
    destruction_req := []
    idle_thread := some 3
    initial_thread := some 2
    running := 0
    thread_ticks := 0 }

/-- The state `example_state` after thread `4` has exited: thread `4` is dying
and waits on `destruction_req` for its page to be freed. -/
def pending_destruction_state : State :=
  { example_state with
    threads := fun t =>
      if t = 4 then example_thread THREAD_DYING 32 else example_state.threads t
    destruction_req := [4] }

/-- A deadlock of eight threads: for `k < 8` thread `k` waits for the lock `k`,
which thread `k + 1` holds, and thread `7` waits for the lock `7`, which thread
`0` holds.  The running thread `0` and the threads `1` to `6` have the priority
10, thread `7` the priority 50. -/
def cycle_state : State :=
  { threads := fun t =>
      if t = 0 then { example_thread THREAD_RUNNING 10 with wait_on_lock := some 0 }
      else if t < 7 then { example_thread THREAD_BLOCKED 10 with wait_on_lock := some t }
      else if t = 7 then { example_thread THREAD_BLOCKED 50 with wait_on_lock := some 7 }
      else example_thread THREAD_BLOCKED 0
    locks := fun l => { holder := if l < 7 then some (l + 1) else if l = 7 then some 0 else none }
    ready_list := []
    sleep_list := []
    destruction_req := []
    idle_thread := some 9
    initial_thread := some 8
    running := 0
    thread_ticks := 0 }

/-! ## Ordered insertion -/

/-- The scan of `list_insert_ordered` stops after the longest prefix on which
`less (elem, e)` is false. -/
theorem list_insert_ordered_scan_eq (less : α → α → Bool) (elem : α) (l : List α) :
    list_insert_ordered_scan less elem l = (l.takeWhile (fun e => !less elem e)).length := by
  induction l with
  | nil => rfl
  | cons e rest ih =>
    by_cases h : less elem e = true
    · simp [list_insert_ordered_scan, List.takeWhile, h]
    · simp [list_insert_ordered_scan, List.takeWhile, h, ih]

/-- Recursive description of `list_insert_ordered`. -/
theorem list_insert_ordered_cons (less : α → α → Bool) (elem e : α) (rest : List α) :
    list_insert_ordered (e :: rest) elem less =
      if less elem e then elem :: e :: rest else e :: list_insert_ordered rest elem less := by
  by_cases h : less elem e = true
  · simp [list_insert_ordered, list_insert, list_insert_ordered_scan, h]
  · simp [list_insert_ordered, list_insert, list_insert_ordered_scan, h]

/-- The function `list_insert_ordered` puts `elem` between the `takeWhile` and the
`dropWhile` of the test `less (elem, e) = false`. -/
theorem list_insert_ordered_eq (less : α → α → Bool) (elem : α) (l : List α) :
    list_insert_ordered l elem less =
      l.takeWhile (fun e => !less elem e) ++ elem :: l.dropWhile (fun e => !less elem e) := by
  induction l with
  | nil => rfl
  | cons e rest ih =>
    rw [list_insert_ordered_cons]
    by_cases h : less elem e = true
    · simp [List.takeWhile, List.dropWhile, h]
    · simp [List.takeWhile, List.dropWhile, h, ih]

/-- The list is split by `list_insert_ordered` at the end of the longest prefix
on which `less (x, ·)` is false, and `x` is put into the gap. -/
theorem list_insert_ordered_split (less : α → α → Bool) (x : α) (l : List α) :
    ∃ p s : List α,
      p = l.takeWhile (fun e => !less x e) ∧
      l = p ++ s ∧
      list_insert_ordered l x less = p ++ [x] ++ s ∧
      (∀ e ∈ p, less x e = false) ∧
      (∀ e, s.head? = some e → less x e = true) := by
  refine ⟨l.takeWhile (fun e => !less x e), l.dropWhile (fun e => !less x e), rfl,
    (List.takeWhile_append_dropWhile _ l).symm, ?_, ?_, ?_⟩
  · rw [list_insert_ordered_eq]; simp
  · intro e he
    simpa using List.mem_takeWhile_imp he
  · intro e he
    have h := List.head?_dropWhile_not (fun e => !less x e) l
    rw [he] at h
    simpa using h

/-- C1: `list_insert_ordered (l, x, less)` is `p ++ [x] ++ s`, where `l = p ++ s`,
every element `e` of `p` has `less (x, e) = false`, and `s` is empty or starts
with an element `e` with `less (x, e) = true`; so `p` is the longest prefix of
`l` on which `less (x, ·)` is false, `x` goes immediately before the first
element it is less than (or to the end), and the other elements keep their
places.  It holds for every `x`, in particular for an `x` that is not in `l`. -/
theorem list_insert_ordered_spec (less : α → α → Bool) (x : α) (l : List α) :
    ∃ p s : List α,
      p = l.takeWhile (fun e => !less x e) ∧
      l = p ++ s ∧
      list_insert_ordered l x less = p ++ [x] ++ s ∧
      (∀ e ∈ p, less x e = false) ∧
      (∀ e, s.head? = some e → less x e = true) :=
  list_insert_ordered_split less x l

/-! ## Strict weak orders and sortedness -/

/-- A strict weak order is asymmetric. -/
theorem StrictWeakOrder.asymm {less : α → α → Bool} (h : StrictWeakOrder less) {a b : α}
    (hab : less a b = true) : less b a = false := by
  by_contra hba
  have hba : less b a = true := by simpa using hba
  have := h.trans a b a hab hba
  rw [h.irrefl a] at this
  exact Bool.noConfusion this

/-- In a strict weak order "not less" is transitive: `a < c` implies `a < b` or
`b < c`, for every `b`. -/
theorem StrictWeakOrder.neg_trans {less : α → α → Bool} (h : StrictWeakOrder less)
    {a b c : α}
    (hab : less a b = false) (hbc : less b c = false) : less a c = false := by
  by_contra hac
  have hac : less a c = true := by simpa using hac
  have hba : less b a = false := by
    by_contra hba
    have hba : less b a = true := by simpa using hba
    have := h.trans b a c hba hac
    rw [hbc] at this
    exact Bool.noConfusion this
  have hcb : less c b = false := by
    by_contra hcb
    have hcb : less c b = true := by simpa using hcb
    have := h.trans a c b hac hcb
    rw [hab] at this
    exact Bool.noConfusion this
  have := (h.incomp_trans a b c hab hba hbc hcb).1
  rw [hac] at this
  exact Bool.noConfusion this

/-- In a strict weak order, `x < a` and `¬ b < a` give `x < b`. -/
theorem StrictWeakOrder.lt_of_lt_of_not_lt {less : α → α → Bool} (h : StrictWeakOrder less)
    {x a b : α} (hxa : less x a = true) (hba : less b a = false) : less x b = true := by
  by_contra hxb
  have hxb : less x b = false := by simpa using hxb
  have := h.neg_trans hxb hba
  rw [hxa] at this
  exact Bool.noConfusion this

/-- The pairwise form of sortedness: no element is `less` than an earlier one. -/
theorem is_sorted_cons_cons (less : α → α → Bool) (p a : α) (rest : List α) :
    is_sorted less (p :: a :: rest) = true ↔
      less a p = false ∧ is_sorted less (a :: rest) = true := by
  simp [is_sorted]

/-- Under a strict weak order the adjacent test of `is_sorted` is the same as
the pairwise statement. -/
theorem is_sorted_iff_pairwise {less : α → α → Bool} (h : StrictWeakOrder less)
    (l : List α) :
    is_sorted less l = true ↔ l.Pairwise (fun p a => less a p = false) := by
  induction l with
  | nil => simp [is_sorted]
  | cons p rest ih =>
    cases rest with
    | nil => simp [is_sorted]
    | cons a rest =>
      rw [is_sorted_cons_cons, ih]
      constructor
      · rintro ⟨hap, hpw⟩
        refine List.Pairwise.cons ?_ hpw
        intro e he
        rcases List.mem_cons.1 he with rfl | he
        · exact hap
        · exact h.neg_trans ((List.pairwise_cons.1 hpw).1 e he) hap
      · intro hpw
        exact ⟨(List.pairwise_cons.1 hpw).1 a (List.mem_cons_self _ _),
          (List.pairwise_cons.1 hpw).2⟩

/-- A sorted list has no descent, and conversely. -/
theorem is_sorted_iff_descents (less : α → α → Bool) (l : List α) :
    is_sorted less l = true ↔ descents less l = 0 := by
  induction l with
  | nil => simp [is_sorted, descents]
  | cons p rest ih =>
    cases rest with
    | nil => simp [is_sorted, descents]
    | cons a rest =>
      rw [is_sorted_cons_cons, ih]
      by_cases hap : less a p = true
      · simp [descents, hap]
      · simp [descents, hap]

/-- C2: for a strict weak order `less` and a list `l` sorted with respect to it,
`list_insert_ordered (l, x, less)` is sorted again, and it is `p ++ x :: s` with
`l = p ++ s` where `x` is less than every element of `s`: no element that
follows `x` is equivalent to `x`, so `x` comes after all its equivalents. -/
theorem list_insert_ordered_sorted {less : α → α → Bool} (h : StrictWeakOrder less)
    (l : List α) (x : α) (hs : is_sorted less l = true) :
    is_sorted less (list_insert_ordered l x less) = true ∧
    ∃ p s : List α, l = p ++ s ∧ list_insert_ordered l x less = p ++ x :: s ∧
      (∀ e ∈ p, less x e = false) ∧
      (∀ e ∈ s, less x e = true) ∧
      (∀ e ∈ s, equivalent less x e = false) := by
  obtain ⟨p, s, -, hl, hins, hp, hhead⟩ := list_insert_ordered_split less x l
  have hpw : (p ++ s).Pairwise (fun p a => less a p = false) := by
    rw [← hl]; exact (is_sorted_iff_pairwise h l).1 hs
  rw [List.pairwise_append] at hpw
  obtain ⟨hpp, hss, hps⟩ := hpw
  have hsall : ∀ e ∈ s, less x e = true := by
    intro e he
    cases s with
    | nil => cases he
    | cons a s =>
      have hxa : less x a = true := hhead a rfl
      rcases List.mem_cons.1 he with rfl | he
      · exact hxa
      · exact h.lt_of_lt_of_not_lt hxa ((List.pairwise_cons.1 hss).1 e he)
  refine ⟨?_, p, s, hl, by simpa using hins, hp, hsall, ?_⟩
  · rw [is_sorted_iff_pairwise h, hins]
    simp only [List.append_assoc, List.singleton_append]
    rw [List.pairwise_append, List.pairwise_cons]
    refine ⟨hpp, ⟨fun e he => h.asymm (hsall e he), hss⟩, ?_⟩
    intro a ha b hb
    rcases List.mem_cons.1 hb with rfl | hb
    · exact hp a ha
    · exact hps a ha b hb
  · intro e he
    simp [equivalent, hsall e he]

/-- The comparator `nat_less` is a strict weak order. -/
theorem nat_less_swo : StrictWeakOrder nat_less where
  irrefl := by intro a; simp [nat_less]
  trans := by intro a b c; simp only [nat_less, decide_eq_true_eq]; omega
  incomp_trans := by intro a b c; simp only [nat_less, decide_eq_false_iff_not]; omega

/-- Witness of C2: inserting `2` into the sorted list `[1, 2, 2, 3]`. -/
theorem list_insert_ordered_sorted_witness :
    is_sorted nat_less [1, 2, 2, 3] = true ∧
    is_sorted nat_less (list_insert_ordered [1, 2, 2, 3] 2 nat_less) = true ∧
    ∃ p s : List Nat, [1, 2, 2, 3] = p ++ s ∧
      list_insert_ordered [1, 2, 2, 3] 2 nat_less = p ++ 2 :: s ∧
      (∀ e ∈ p, nat_less 2 e = false) ∧
      (∀ e ∈ s, nat_less 2 e = true) ∧
      (∀ e ∈ s, equivalent nat_less 2 e = false) :=
  ⟨by decide, list_insert_ordered_sorted nat_less_swo [1, 2, 2, 3] 2 (by decide)⟩

/-! ## Runs and merging -/

/-- The two parts returned by `find_end_of_run_loop` make up its argument. -/
theorem find_end_of_run_loop_append (less : α → α → Bool) (prev : α) (l : List α) :
    (find_end_of_run_loop less prev l).1 ++ (find_end_of_run_loop less prev l).2 = l := by
  induction l generalizing prev with
  | nil => simp [find_end_of_run_loop]
  | cons a rest ih =>
    unfold find_end_of_run_loop
    split
    · simp
    · simp [ih a]

/-- The run found by `find_end_of_run_loop`, with the node before it, is
sorted. -/
theorem find_end_of_run_loop_sorted (less : α → α → Bool) (prev : α) (l : List α) :
    is_sorted less (prev :: (find_end_of_run_loop less prev l).1) = true := by
  induction l generalizing prev with
  | nil => simp [find_end_of_run_loop, is_sorted]
  | cons a rest ih =>
    unfold find_end_of_run_loop
    split
    · simp [is_sorted]
    · rename_i hap
      simp only [List.cons]
      rw [is_sorted_cons_cons]
      exact ⟨by simpa using hap, ih a⟩

/-- The descents of a range are those of the remainder after its first run,
plus the one that ends the run when the remainder is not empty. -/
theorem descents_find_end_of_run_loop (less : α → α → Bool) (prev : α) (l : List α) :
    descents less (prev :: l) =
      descents less (find_end_of_run_loop less prev l).2 +
        (if (find_end_of_run_loop less prev l).2.isEmpty then 0 else 1) := by
  induction l generalizing prev with
  | nil => simp [find_end_of_run_loop, descents]
  | cons a rest ih =>
    unfold find_end_of_run_loop
    split
    · rename_i hap
      simp [descents, hap]
      omega
    · rename_i hap
      simp only [descents, hap]
      rw [ih a]
      simp

/-- The two parts returned by `find_end_of_run` make up its argument. -/
theorem find_end_of_run_append (less : α → α → Bool) (l : List α) :
    (find_end_of_run less l).1 ++ (find_end_of_run less l).2 = l := by
  cases l with
  | nil => rfl
  | cons a rest => simp [find_end_of_run, find_end_of_run_loop_append]

/-- The run returned by `find_end_of_run` is sorted. -/
theorem find_end_of_run_sorted (less : α → α → Bool) (l : List α) :
    is_sorted less (find_end_of_run less l).1 = true := by
  cases l with
  | nil => rfl
  | cons a rest => exact find_end_of_run_loop_sorted less a rest

/-- The run of a non-empty range is not empty. -/
theorem find_end_of_run_ne_nil (less : α → α → Bool) (a : α) (rest : List α) :
    (find_end_of_run less (a :: rest)).1 ≠ [] := by
  simp [find_end_of_run]

/-- Descents of a non-empty range in terms of the remainder after the first
run. -/
theorem descents_find_end_of_run (less : α → α → Bool) (a : α) (rest : List α) :
    descents less (a :: rest) =
      descents less (find_end_of_run less (a :: rest)).2 +
        (if (find_end_of_run less (a :: rest)).2.isEmpty then 0 else 1) :=
  descents_find_end_of_run_loop less a rest

/-- The function `inplace_merge` keeps the elements of both ranges. -/
theorem inplace_merge_perm (less : α → α → Bool) (A B : List α) :
    (inplace_merge less A B).Perm (A ++ B) := by
  induction A, B using inplace_merge.induct less with
  | case1 B => simp [inplace_merge]
  | case2 a A => simp [inplace_merge]
  | case3 a A b B hba ih =>
    rw [inplace_merge, if_pos hba]
    exact List.Perm.cons a ih
  | case4 a A b B hba ih =>
    rw [inplace_merge, if_neg hba]
    exact (List.Perm.cons b ih).trans (List.perm_middle.symm)

/-- Membership in the result of `inplace_merge`. -/
theorem mem_inplace_merge (less : α → α → Bool) (A B : List α) (x : α) :
    x ∈ inplace_merge less A B ↔ x ∈ A ∨ x ∈ B := by
  rw [(inplace_merge_perm less A B).mem_iff, List.mem_append]

/-- Merging two sorted ranges with a strict weak order gives a sorted range. -/
theorem inplace_merge_pairwise {less : α → α → Bool} (h : StrictWeakOrder less)
    (A B : List α) (hA : A.Pairwise (fun p a => less a p = false))
    (hB : B.Pairwise (fun p a => less a p = false)) :
    (inplace_merge less A B).Pairwise (fun p a => less a p = false) := by
  induction A, B using inplace_merge.induct less with
  | case1 B => simpa [inplace_merge] using hB
  | case2 a A => simpa [inplace_merge] using hA
  | case3 a A b B hba ih =>
    rw [inplace_merge, if_pos hba]
    have hba : less b a = false := by simpa using hba
    refine List.Pairwise.cons ?_ (ih (List.pairwise_cons.1 hA).2 hB)
    intro x hx
    rcases (mem_inplace_merge less A (b :: B) x).1 hx with hx | hx
    · exact (List.pairwise_cons.1 hA).1 x hx
    · rcases List.mem_cons.1 hx with rfl | hx
      · exact hba
      · exact h.neg_trans ((List.pairwise_cons.1 hB).1 x hx) hba
  | case4 a A b B hba ih =>
    rw [inplace_merge, if_neg hba]
    have hba : less b a = true := by simpa using hba
    refine List.Pairwise.cons ?_ (ih hA (List.pairwise_cons.1 hB).2)
    intro x hx
    rcases (mem_inplace_merge less (a :: A) B x).1 hx with hx | hx
    · rcases List.mem_cons.1 hx with rfl | hx
      · exact h.asymm hba
      · exact h.asymm (h.lt_of_lt_of_not_lt hba ((List.pairwise_cons.1 hA).1 x hx))
    · exact (List.pairwise_cons.1 hB).1 x hx

/-- Merging two sorted ranges with a strict weak order gives a sorted range
(in the form of the test `is_sorted`). -/
theorem inplace_merge_sorted {less : α → α → Bool} (h : StrictWeakOrder less)
    (A B : List α) (hA : is_sorted less A = true) (hB : is_sorted less B = true) :
    is_sorted less (inplace_merge less A B) = true :=
  (is_sorted_iff_pairwise h _).2
    (inplace_merge_pairwise h A B ((is_sorted_iff_pairwise h A).1 hA)
      ((is_sorted_iff_pairwise h B).1 hB))

/-! ## One pass of `list_sort` -/

/-- The pass on a range that is a single run: the loop breaks at once. -/
theorem list_sort_pass_break (less : α → α → Bool) (a0 : α) (rest : List α)
    (h1 : (find_end_of_run less (a0 :: rest)).2 = []) :
    list_sort_pass less (a0 :: rest) = ((find_end_of_run less (a0 :: rest)).1, 1) := by
  rw [list_sort_pass]
  split
  · rfl
  · rename_i a1b0 rest1 h2
    rw [h1] at h2
    cases h2

/-- The pass on a range with at least two runs: the first two runs are merged
and the pass goes on behind them. -/
theorem list_sort_pass_merge (less : α → α → Bool) (a0 : α) (rest : List α) (a1b0 : α)
    (rest1 : List α) (h1 : (find_end_of_run less (a0 :: rest)).2 = a1b0 :: rest1) :
    list_sort_pass less (a0 :: rest) =
      (inplace_merge less (find_end_of_run less (a0 :: rest)).1
          (find_end_of_run less (a1b0 :: rest1)).1
        ++ (list_sort_pass less (find_end_of_run less (a1b0 :: rest1)).2).1,
       (list_sort_pass less (find_end_of_run less (a1b0 :: rest1)).2).2 + 1) := by
  rw [list_sort_pass]
  split
  · rename_i h2
    rw [h1] at h2
    cases h2
  · rename_i b r h2
    rw [h1] at h2
    cases h2
    rfl

/-- A pass keeps the elements of the list. -/
theorem list_sort_pass_perm (less : α → α → Bool) (l : List α) :
    (list_sort_pass less l).1.Perm l := by
  induction l using list_sort_pass.induct less with
  | case1 => simp [list_sort_pass]
  | case2 e rest h1 =>
    rw [list_sort_pass_break less e rest h1]
    have := find_end_of_run_append less (e :: rest)
    rw [h1, List.append_nil] at this
    rw [this]
  | case3 e rest a1b0 rest1 h1 ih =>
    rw [list_sort_pass_merge less e rest a1b0 rest1 h1]
    have e1 := find_end_of_run_append less (e :: rest)
    have e2 := find_end_of_run_append less (a1b0 :: rest1)
    rw [h1] at e1
    simp only
    calc inplace_merge less (find_end_of_run less (e :: rest)).1
            (find_end_of_run less (a1b0 :: rest1)).1
          ++ (list_sort_pass less (find_end_of_run less (a1b0 :: rest1)).2).1
        |>.Perm (((find_end_of_run less (e :: rest)).1 ++ (find_end_of_run less (a1b0 :: rest1)).1)
          ++ (find_end_of_run less (a1b0 :: rest1)).2) :=
            List.Perm.append (inplace_merge_perm less _ _) ih
      _ = e :: rest := by rw [List.append_assoc, e2, e1]

/-- Appending two lists adds at most one descent. -/
theorem descents_append_le (less : α → α → Bool) (A B : List α) :
    descents less (A ++ B) ≤ descents less A + descents less B + 1 := by
  induction A with
  | nil => simp [descents]
  | cons p A ih =>
    cases A with
    | nil =>
      cases B with
      | nil => simp [descents]
      | cons b B =>
        simp only [List.singleton_append, descents]
        split <;> omega
    | cons a A =>
      simp only [List.cons_append, descents, List.append_eq] at ih ⊢
      omega

/-- A list has fewer descents than elements. -/
theorem descents_le_length (less : α → α → Bool) (l : List α) :
    descents less l ≤ l.length := by
  induction l with
  | nil => simp [descents]
  | cons p l ih =>
    cases l with
    | nil => simp [descents]
    | cons a l =>
      simp only [descents, List.length_cons] at ih ⊢
      split <;> omega

/-- After a pass over a non-empty list with a strict weak order, the list has
fewer descents than the pass counted runs, and the pass counted at most half as
many runs (rounded up) as the list had before. -/
theorem list_sort_pass_descents {less : α → α → Bool} (h : StrictWeakOrder less)
    (l : List α) :
    l ≠ [] →
      descents less (list_sort_pass less l).1 + 1 ≤ (list_sort_pass less l).2 ∧
      2 * (list_sort_pass less l).2 ≤ descents less l + 2 := by
  induction l using list_sort_pass.induct less with
  | case1 => intro hne; exact absurd rfl hne
  | case2 e rest h1 =>
    intro _
    rw [list_sort_pass_break less e rest h1]
    have hs := find_end_of_run_sorted less (e :: rest)
    rw [is_sorted_iff_descents] at hs
    simp only [hs]
    omega
  | case3 e rest a1b0 rest1 h1 ih =>
    intro _
    rw [list_sort_pass_merge less e rest a1b0 rest1 h1]
    have d1 := descents_find_end_of_run less e rest
    rw [h1] at d1
    have d2 := descents_find_end_of_run less a1b0 rest1
    have hm : descents less (inplace_merge less (find_end_of_run less (e :: rest)).1
        (find_end_of_run less (a1b0 :: rest1)).1) = 0 :=
      (is_sorted_iff_descents less _).1
        (inplace_merge_sorted h _ _ (find_end_of_run_sorted less _)
          (find_end_of_run_sorted less _))
    simp only [List.isEmpty_cons] at d1
    cases hs2 : (find_end_of_run less (a1b0 :: rest1)).2 with
    | nil =>
      rw [hs2] at d2
      simp only [list_sort_pass, List.append_nil, hm]
      omega
    | cons x s2 =>
      rw [hs2] at d2 ih
      have ih := ih (by simp)
      have ha := descents_append_le less
        (inplace_merge less (find_end_of_run less (e :: rest)).1
          (find_end_of_run less (a1b0 :: rest1)).1)
        (list_sort_pass less (x :: s2)).1
      simp only [List.isEmpty_cons] at d2
      simp only
      constructor
      · omega
      · have : descents less (e :: rest) = descents less (x :: s2) + 2 := by
          rw [d1, d2]; simp
        omega

/-! ## `list_sort` -/

/-- With a strict weak order, `list_sort` needs no more passes than the list
has descents plus one; it ends with a sorted permutation of the list. -/
theorem list_sort_of_descents {less : α → α → Bool} (h : StrictWeakOrder less) :
    ∀ (fuel : Nat) (l : List α), descents less l < fuel →
      ∃ r, list_sort less fuel l = some r ∧ r.Perm l ∧ is_sorted less r = true := by
  intro fuel
  induction fuel with
  | zero => intro l hl; omega
  | succ fuel ih =>
    intro l hl
    rw [list_sort]
    by_cases hl0 : l = []
    · subst hl0
      simp [list_sort_pass, is_sorted]
    · obtain ⟨hd, hc⟩ := list_sort_pass_descents h l hl0
      split
      · rename_i hgt
        obtain ⟨r, hr, hperm, hsorted⟩ := ih (list_sort_pass less l).1 (by omega)
        exact ⟨r, hr, hperm.trans (list_sort_pass_perm less l), hsorted⟩
      · rename_i hle
        refine ⟨_, rfl, list_sort_pass_perm less l, ?_⟩
        rw [is_sorted_iff_descents]
        omega

/-- C3: for a strict weak order `less` and a list `l`, `list_sort` terminates
(every bound on the number of passes above the length of `l` is enough) and
leaves a permutation of `l` that is sorted with respect to `less`, so that the
final `is_sorted` assertion holds. -/
theorem list_sort_spec {less : α → α → Bool} (h : StrictWeakOrder less) (l : List α)
    (fuel : Nat) (hf : l.length < fuel) :
    ∃ r, list_sort less fuel l = some r ∧ r.Perm l ∧ is_sorted less r = true :=
  list_sort_of_descents h fuel l (Nat.lt_of_le_of_lt (descents_le_length less l) hf)

/-- Witness of C3: sorting `[3, 1, 2]`. -/
theorem list_sort_spec_witness :
    ∃ r, list_sort nat_less 4 [3, 1, 2] = some r ∧ r.Perm [3, 1, 2] ∧
      is_sorted nat_less r = true :=
  list_sort_spec nat_less_swo [3, 1, 2] 4 (by decide)

/-! ## Stability -/

/-- Elements equivalent to `x` keep their order in a merge: those of the first
range come first. -/
theorem inplace_merge_filter {less : α → α → Bool} (h : StrictWeakOrder less) (x : α)
    (A B : List α) (hA : A.Pairwise (fun p a => less a p = false)) :
    (inplace_merge less A B).filter (fun e => equivalent less x e) =
      A.filter (fun e => equivalent less x e) ++ B.filter (fun e => equivalent less x e) := by
  induction A, B using inplace_merge.induct less with
  | case1 B => simp [inplace_merge]
  | case2 a A => simp [inplace_merge]
  | case3 a A b B hba ih =>
    rw [inplace_merge, if_pos hba, List.filter_cons, ih (List.pairwise_cons.1 hA).2,
      List.filter_cons (x := a)]
    split <;> simp
  | case4 a A b B hba ih =>
    rw [inplace_merge, if_neg hba, List.filter_cons, ih hA, List.filter_cons (x := b)]
    have hba : less b a = true := by simpa using hba
    by_cases hxb : equivalent less x b = true
    · have hnone : (a :: A).filter (fun e => equivalent less x e) = [] := by
        rw [List.filter_eq_nil_iff]
        intro e he hxe
        simp only [equivalent, Bool.and_eq_true, Bool.not_eq_eq_eq_not, Bool.not_true] at hxb hxe
        have hea : less e a = false := by
          rcases List.mem_cons.1 he with rfl | he
          · exact h.irrefl _
          · exact (List.pairwise_cons.1 hA).1 e he
        have hbe : less b e = false := (h.incomp_trans b x e hxb.2 hxb.1 hxe.1 hxe.2).1
        have := h.neg_trans hbe hea
        rw [hba] at this
        exact Bool.noConfusion this
      rw [if_pos hxb, hnone]
      simp [hxb]
    · rw [if_neg hxb]
      simp [hxb]

/-- A pass keeps the order of the elements equivalent to `x`. -/
theorem list_sort_pass_filter {less : α → α → Bool} (h : StrictWeakOrder less) (x : α)
    (l : List α) :
    (list_sort_pass less l).1.filter (fun e => equivalent less x e) =
      l.filter (fun e => equivalent less x e) := by
  induction l using list_sort_pass.induct less with
  | case1 => simp [list_sort_pass]
  | case2 e rest h1 =>
    rw [list_sort_pass_break less e rest h1]
    have := find_end_of_run_append less (e :: rest)
    rw [h1, List.append_nil] at this
    rw [this]
  | case3 e rest a1b0 rest1 h1 ih =>
    rw [list_sort_pass_merge less e rest a1b0 rest1 h1]
    have e1 := find_end_of_run_append less (e :: rest)
    have e2 := find_end_of_run_append less (a1b0 :: rest1)
    rw [h1] at e1
    simp only
    rw [List.filter_append, ih,
      inplace_merge_filter h x _ _
        ((is_sorted_iff_pairwise h _).1 (find_end_of_run_sorted less (e :: rest))),
      List.append_assoc, ← List.filter_append, e2, ← List.filter_append, e1]

/-- Whenever `list_sort` returns, the elements equivalent to `x` are in the
order they had before. -/
theorem list_sort_filter {less : α → α → Bool} (h : StrictWeakOrder less) (x : α) :
    ∀ (fuel : Nat) (l r : List α), list_sort less fuel l = some r →
      r.filter (fun e => equivalent less x e) = l.filter (fun e => equivalent less x e) := by
  intro fuel
  induction fuel with
  | zero => intro l r hr; simp [list_sort] at hr
  | succ fuel ih =>
    intro l r hr
    rw [list_sort] at hr
    split at hr
    · rw [ih _ r hr, list_sort_pass_filter h]
    · cases hr
      exact list_sort_pass_filter h x l

/-- C4: `list_sort` is stable.  For a strict weak order `less` and a list `l`
the sort returns a list in which, for every `x`, the elements equivalent to `x`
(neither less than `x` nor `x` less than them) form the same sequence as in `l`:
any two equivalent elements keep their relative order. -/
theorem list_sort_stable {less : α → α → Bool} (h : StrictWeakOrder less) (l : List α)
    (fuel : Nat) (hf : l.length < fuel) :
    ∃ r, list_sort less fuel l = some r ∧
      ∀ x, r.filter (fun e => equivalent less x e) =
        l.filter (fun e => equivalent less x e) := by
  obtain ⟨r, hr, -, -⟩ :=
    list_sort_of_descents h fuel l (Nat.lt_of_le_of_lt (descents_le_length less l) hf)
  exact ⟨r, hr, fun x => list_sort_filter h x fuel l r hr⟩

/-- The comparator `key_less` is a strict weak order. -/
theorem key_less_swo : StrictWeakOrder key_less where
  irrefl := by intro a; simp [key_less]
  trans := by intro a b c; simp only [key_less, decide_eq_true_eq]; omega
  incomp_trans := by intro a b c; simp only [key_less, decide_eq_false_iff_not]; omega

/-- Witness of C4: sorting the tagged keys `[(2, 0), (1, 1), (2, 2)]`. -/
theorem list_sort_stable_witness :
    ∃ r, list_sort key_less 4 [(2, 0), (1, 1), (2, 2)] = some r ∧
      ∀ x, r.filter (fun e => equivalent key_less x e) =
        [(2, 0), (1, 1), (2, 2)].filter (fun e => equivalent key_less x e) :=
  list_sort_stable key_less_swo [(2, 0), (1, 1), (2, 2)] 4 (by decide)

/-! ## The priority comparator -/

/-- A non-negative value below `2 ^ 64` is converted to the pointer with the
same numeric value. -/
theorem int_to_pointer_nonneg (v : Int) (h0 : 0 ≤ v) (h1 : v < 2 ^ 64) :
    int_to_pointer v = v.toNat := by
  unfold int_to_pointer
  rw [Int.emod_eq_of_lt h0 h1]

/-- On non-negative priorities the pointer comparison of
`compare_thread_priority` agrees with the comparison of the priorities. -/
theorem compare_thread_priority_nonneg (s : State) (a b : Tid)
    (ha0 : 0 ≤ (s.threads a).priority) (ha1 : (s.threads a).priority < 2 ^ 64)
    (hb0 : 0 ≤ (s.threads b).priority) (hb1 : (s.threads b).priority < 2 ^ 64) :
    compare_thread_priority s a b = true ↔ (s.threads a).priority > (s.threads b).priority := by
  unfold compare_thread_priority
  rw [int_to_pointer_nonneg _ ha0 ha1, int_to_pointer_nonneg _ hb0 hb1, decide_eq_true_eq]
  omega

/-- On priorities in `[PRI_MIN, PRI_MAX]` the comparator is the comparison of
the priorities. -/
theorem compare_thread_priority_of_range (s : State) (a b : Tid)
    (ha : priority_in_range s a) (hb : priority_in_range s b) :
    compare_thread_priority s a b = true ↔ (s.threads a).priority > (s.threads b).priority := by
  unfold priority_in_range PRI_MIN PRI_MAX at ha hb
  exact compare_thread_priority_nonneg s a b ha.1 (by omega) hb.1 (by omega)

/-- C5: for two threads `a` and `b` whose priorities lie in `[PRI_MIN, PRI_MAX]
= [0, 63]`, `compare_thread_priority` returns true exactly when `a.priority >
b.priority`, although it compares the priorities as pointers. -/
theorem compare_thread_priority_in_range (s : State) (a b : Tid)
    (ha : priority_in_range s a) (hb : priority_in_range s b) :
    compare_thread_priority s a b = true ↔ (s.threads a).priority > (s.threads b).priority :=
  compare_thread_priority_of_range s a b ha hb

/-- Witness of C5: threads `1` (priority 33) and `2` (priority 31) of
`example_state`. -/
theorem compare_thread_priority_in_range_witness :
    priority_in_range example_state 1 ∧ priority_in_range example_state 2 ∧
    (compare_thread_priority example_state 1 2 = true ↔
      (example_state.threads 1).priority > (example_state.threads 2).priority) :=
  ⟨by decide, by decide,
    compare_thread_priority_in_range example_state 1 2 (by decide) (by decide)⟩

/-! ## `thread_unblock` -/

/-- Members of a thread structure after a store to the status of thread `t`. -/
theorem store_status_threads (s : State) (t : Tid) (st : thread_status) (u : Tid) :
    (store_status s t st).threads u =
      if u = t then { s.threads t with status := st } else s.threads u := rfl

/-- With priorities in `[PRI_MIN, PRI_MAX]`, `thread_unblock (t)` on a blocked
thread and a priority-ordered ready list makes `t` ready and inserts it behind
the threads of priority at least `t.priority` and in front of the threads of
lower priority; the ready list stays ordered, and nothing else changes. -/
theorem thread_unblock_of_range (s : State) (t : Tid)
    (hb : (s.threads t).status = THREAD_BLOCKED)
    (hord : priority_ordered s s.ready_list)
    (ht : priority_in_range s t) (hr : ∀ u ∈ s.ready_list, priority_in_range s u) :
    ∃ s1, thread_unblock s t = some s1 ∧
      (s1.threads t).status = THREAD_READY ∧
      (∃ p q, s.ready_list = p ++ q ∧ s1.ready_list = p ++ t :: q ∧
        (∀ e ∈ p, (s.threads e).priority ≥ (s.threads t).priority) ∧
        (∀ e ∈ q, (s.threads e).priority < (s.threads t).priority)) ∧
      priority_ordered s1 s1.ready_list ∧
      (∀ u, same_but_status (s1.threads u) (s.threads u)) ∧
      (∀ u, u ≠ t → s1.threads u = s.threads u) ∧
      s1.running = s.running ∧ s1.sleep_list = s.sleep_list ∧
      s1.destruction_req = s.destruction_req ∧ s1.idle_thread = s.idle_thread ∧
      s1.initial_thread = s.initial_thread ∧ s1.locks = s.locks := by
  obtain ⟨p, q, -, hl, hins, hp, hhead⟩ :=
    list_insert_ordered_split (compare_thread_priority s) t s.ready_list
  have hmem : ∀ e, e ∈ p ∨ e ∈ q → priority_in_range s e := by
    intro e he
    apply hr
    rw [hl]
    exact List.mem_append.2 he
  have hpw : (p ++ q).Pairwise
      (fun a b => (s.threads a).priority ≥ (s.threads b).priority) := by
    rw [← hl]; exact hord
  rw [List.pairwise_append] at hpw
  obtain ⟨hpp, hqq, hpq⟩ := hpw
  have hp1 : ∀ e ∈ p, (s.threads e).priority ≥ (s.threads t).priority := by
    intro e he
    have h1 := hp e he
    have h2 := compare_thread_priority_of_range s t e ht (hmem e (Or.inl he))
    rw [h1] at h2
    simp only [Bool.false_eq_true, gt_iff_lt, false_iff, not_lt] at h2
    exact h2
  have hq1 : ∀ e ∈ q, (s.threads e).priority < (s.threads t).priority := by
    intro e he
    cases q with
    | nil => cases he
    | cons a q =>
      have ha : (s.threads a).priority < (s.threads t).priority :=
        (compare_thread_priority_of_range s t a ht
          (hmem a (Or.inr (List.mem_cons_self _ _)))).1 (hhead a rfl)
      rcases List.mem_cons.1 he with rfl | he
      · exact ha
      · exact lt_of_le_of_lt ((List.pairwise_cons.1 hqq).1 e he) ha
  unfold thread_unblock
  rw [if_pos hb]
  refine ⟨_, rfl, ?_, ⟨p, q, hl, ?_, hp1, hq1⟩, ?_, ?_, ?_, rfl, rfl, rfl, rfl, rfl, rfl⟩
  · simp [store_status]
  · simpa [store_status] using hins
  · have hprio : ∀ u, ((store_status
          { s with ready_list :=
              list_insert_ordered s.ready_list t (compare_thread_priority s) }
          t THREAD_READY).threads u).priority = (s.threads u).priority := by
      intro u
      by_cases hu : u = t <;> simp [store_status, hu]
    unfold priority_ordered
    simp only [hprio]
    show (list_insert_ordered s.ready_list t (compare_thread_priority s)).Pairwise _
    rw [hins]
    simp only [List.append_assoc, List.singleton_append]
    rw [List.pairwise_append, List.pairwise_cons]
    refine ⟨hpp, ⟨fun e he => le_of_lt (hq1 e he), hqq⟩, ?_⟩
    intro a ha b hb
    rcases List.mem_cons.1 hb with rfl | hb
    · exact hp1 a ha
    · exact hpq a ha b hb
  · intro u
    by_cases hu : u = t <;> simp [store_status, same_but_status, hu]
  · intro u hu
    simp [store_status, hu]

/-- C6 on a negative priority: in `negative_priority_state` the ready list is
`[1]` with thread `1` at priority 5, and the blocked thread `2` has priority
`-1`.  The comparator converts `-1` to the highest address, so `thread_unblock
(2)` inserts thread `2` in front of thread `1`: the ready list becomes `[2, 1]`,
which is not ordered by priority, highest first. -/
theorem thread_unblock_negative_priority :
    (negative_priority_state.threads 2).status = THREAD_BLOCKED ∧
    2 ∉ negative_priority_state.ready_list ∧
    priority_ordered negative_priority_state negative_priority_state.ready_list ∧
    compare_thread_priority negative_priority_state 2 1 = true ∧
    (thread_unblock negative_priority_state 2).map (fun s => s.ready_list) = some [2, 1] ∧
    (negative_priority_state.threads 2).priority < (negative_priority_state.threads 1).priority ∧
    (thread_unblock negative_priority_state 2).map
      (fun s => decide (priority_ordered s s.ready_list)) = some false := by
  decide

/-! ## `schedule` -/

/-- A store to a status leaves every priority as it is. -/
theorem store_status_priority (s : State) (t : Tid) (st : thread_status) (u : Tid) :
    ((store_status s t st).threads u).priority = (s.threads u).priority := by
  by_cases hu : u = t <;> simp [store_status, hu]

/-- The function `schedule` with a non-empty ready list: the front is popped and runs, and
only statuses change. -/
theorem schedule_cons (s : State) (front : Tid) (rest : List Tid)
    (hl : s.ready_list = front :: rest)
    (hcur : (s.threads s.running).status ≠ THREAD_RUNNING) :
    ∃ s1, schedule s = some s1 ∧ s1.running = front ∧ s1.ready_list = rest ∧
      (s1.threads front).status = THREAD_RUNNING ∧
      (∀ u, u ≠ front → s1.threads u = s.threads u) ∧
      (∀ u, same_but_status (s1.threads u) (s.threads u)) ∧
      s1.idle_thread = s.idle_thread ∧ s1.initial_thread = s.initial_thread ∧
      s1.sleep_list = s.sleep_list ∧ s1.locks = s.locks := by
  unfold schedule next_thread_to_run
  simp only [hl]
  rw [if_neg hcur]
  by_cases hne : s.running = front
  · simp only [hne, ne_eq, not_true_eq_false, if_false]
    refine ⟨_, rfl, rfl, rfl, ?_, ?_, ?_, rfl, rfl, rfl, rfl⟩
    · simp [store_status]
    · intro u hu; simp [store_status, hu]
    · intro u; by_cases hu : u = front <;> simp [store_status, same_but_status, hu]
  · simp only [ne_eq, hne, not_false_eq_true, if_true]
    refine ⟨_, rfl, rfl, ?_, ?_, ?_, ?_, ?_, ?_, ?_, ?_⟩
    · split <;> rfl
    · split <;> simp [store_status]
    · intro u hu; split <;> simp [store_status, hu]
    · intro u; by_cases hu : u = front <;> split <;> simp [store_status, same_but_status, hu]
    all_goals split <;> rfl

/-- The function `schedule` with an empty ready list and an idle thread: the idle thread
runs, and only statuses change. -/
theorem schedule_nil (s : State) (idle : Tid) (hl : s.ready_list = [])
    (hidle : s.idle_thread = some idle)
    (hcur : (s.threads s.running).status ≠ THREAD_RUNNING) :
    ∃ s1, schedule s = some s1 ∧ s1.running = idle ∧ s1.ready_list = [] ∧
      (s1.threads idle).status = THREAD_RUNNING ∧
      (∀ u, u ≠ idle → s1.threads u = s.threads u) ∧
      (∀ u, same_but_status (s1.threads u) (s.threads u)) ∧
      s1.idle_thread = s.idle_thread ∧ s1.initial_thread = s.initial_thread ∧
      s1.sleep_list = s.sleep_list ∧ s1.locks = s.locks := by
  unfold schedule next_thread_to_run
  simp only [hl, hidle]
  rw [if_neg hcur]
  by_cases hne : s.running = idle
  · simp only [hne, ne_eq, not_true_eq_false, if_false]
    refine ⟨_, rfl, ?_, ?_, ?_, ?_, ?_, ?_, rfl, rfl, rfl⟩
    · simp [store_status, hne]
    · simp [store_status, hl]
    · simp [store_status]
    · intro u hu; simp [store_status, hu]
    · intro u; by_cases hu : u = idle <;> simp [store_status, same_but_status, hu]
    · simp [store_status, hidle]
  · simp only [ne_eq, hne, not_false_eq_true, if_true]
    refine ⟨_, rfl, rfl, ?_, ?_, ?_, ?_, ?_, ?_, ?_, ?_⟩
    · split <;> simp [store_status, hl]
    · split <;> simp [store_status]
    · intro u hu; split <;> simp [store_status, hu]
    · intro u; by_cases hu : u = idle <;> split <;> simp [store_status, same_but_status, hu]
    · split <;> simp [store_status, hidle]
    all_goals split <;> rfl

/-- A scheduling step entered with a priority-ordered ready list, and with an
idle thread when the list is empty, runs the front of the ready list. -/
theorem schedule_runs_front (s : State)
    (hord : priority_ordered s s.ready_list)
    (hidle : s.ready_list = [] → s.idle_thread ≠ none)
    (hcur : (s.threads s.running).status ≠ THREAD_RUNNING) :
    ∃ s1, schedule s = some s1 ∧ runs_front_of_ready s s1 := by
  cases hl : s.ready_list with
  | nil =>
    cases hi : s.idle_thread with
    | none => exact absurd hi (hidle hl)
    | some idle =>
      obtain ⟨s1, h1, h2, h3, h4, -⟩ := schedule_nil s idle hl hi hcur
      refine ⟨s1, h1, ?_⟩
      unfold runs_front_of_ready
      rw [hl]
      exact ⟨idle, hi, h4, h2, h3⟩
  | cons front rest =>
    obtain ⟨s1, h1, h2, h3, h4, -, h6, -⟩ := schedule_cons s front rest hl hcur
    refine ⟨s1, h1, ?_⟩
    unfold runs_front_of_ready
    rw [hl]
    refine ⟨h4, h2, h3, ?_⟩
    intro t ht
    rw [h3] at ht
    rw [h2, (h6 t).1, (h6 front).1]
    unfold priority_ordered at hord
    rw [hl] at hord
    exact (List.pairwise_cons.1 hord).1 t ht

/-- The thread that runs after a scheduling step is the thread
`next_thread_to_run` chose. -/
theorem runs_front_next (s s1 : State) (h : runs_front_of_ready s s1) :
    (next_thread_to_run s).1 = some s1.running := by
  unfold runs_front_of_ready at h
  unfold next_thread_to_run
  cases hl : s.ready_list with
  | nil =>
    rw [hl] at h
    obtain ⟨idle, hi, -, hr, -⟩ := h
    simp [hi, hr]
  | cons front rest =>
    rw [hl] at h
    simp [h.2.1]

/-- The function `thread_exit` after its call of `do_schedule`: it panics in
`NOT_REACHED` when the caller still runs, and has switched to the next thread
otherwise. -/
theorem thread_exit_eq (s s1 : State) (h : do_schedule s THREAD_DYING = some s1) :
    thread_exit s = if s1.running = s.running then none else some s1 := by
  unfold thread_exit
  rw [h]

/-- C7: a scheduling step entered with a ready list that is ordered by priority,
highest first, marks the former front of the ready list running and pops it, so
that no thread left in the ready list has a higher priority than the running
thread; with an empty ready list the idle thread is marked running.  This is
stated for `schedule` itself, entered in any state whose current thread is no
longer running, and for the entries `thread_block` and `thread_exit`; for
`thread_yield` the step is `schedule` entered in the state in which the current
thread has been put back into the ready list.  The function `thread_exit` ends in
this state when the thread chosen to run next is not the caller; when it is the
caller, the step of `do_schedule (THREAD_DYING)` is the same and `thread_exit`
then panics in `NOT_REACHED`. -/
theorem schedule_spec (s : State)
    (hord : priority_ordered s s.ready_list)
    (hidle : s.ready_list = [] → s.idle_thread ≠ none) :
    ((s.threads s.running).status ≠ THREAD_RUNNING →
      ∃ s1, schedule s = some s1 ∧ runs_front_of_ready s s1) ∧
    ((s.threads s.running).status = THREAD_RUNNING →
      (∃ s1, thread_block s = some s1 ∧ runs_front_of_ready s s1) ∧
      ((next_thread_to_run s).1 ≠ some s.running →
        ∃ s1, thread_exit s = some s1 ∧ runs_front_of_ready s s1) ∧
      ((next_thread_to_run s).1 = some s.running →
        thread_exit s = none ∧
        ∃ s1, do_schedule s THREAD_DYING = some s1 ∧ runs_front_of_ready s s1) ∧
      (∀ entry,
        entry = store_status
          { s with
            ready_list :=
              if some s.running ≠ s.idle_thread then
                list_insert_ordered s.ready_list s.running (compare_thread_priority s)
              else s.ready_list
            destruction_req := [] } s.running THREAD_READY →
        thread_yield s = schedule entry ∧
        (priority_ordered entry entry.ready_list →
          (entry.ready_list = [] → entry.idle_thread ≠ none) →
          ∃ s1, thread_yield s = some s1 ∧ runs_front_of_ready entry s1))) := by
  refine ⟨fun hcur => schedule_runs_front s hord hidle hcur, fun hcur => ⟨?_, ?_, ?_, ?_⟩⟩
  · have hstep := schedule_runs_front (store_status s s.running THREAD_BLOCKED)
      (by
        unfold priority_ordered at hord ⊢
        simp only [store_status_priority]
        exact hord)
      hidle (by simp [store_status])
    unfold thread_block thread_current
    rw [if_pos hcur]
    exact hstep
  · intro hnot
    have hstep : ∃ s1, do_schedule s THREAD_DYING = some s1 ∧ runs_front_of_ready s s1 := by
      have hstep := schedule_runs_front
        (store_status { s with destruction_req := [] } s.running THREAD_DYING)
        (by
          unfold priority_ordered at hord ⊢
          simp only [store_status_priority]
          exact hord)
        hidle (by simp [store_status])
      unfold do_schedule thread_current
      rw [if_pos hcur]
      exact hstep
    obtain ⟨s1, h1, hfront⟩ := hstep
    refine ⟨s1, ?_, hfront⟩
    rw [thread_exit_eq s s1 h1, if_neg]
    intro he
    apply hnot
    rw [runs_front_next s s1 hfront, he]
  · intro hself
    have hstep : ∃ s1, do_schedule s THREAD_DYING = some s1 ∧ runs_front_of_ready s s1 := by
      have hstep := schedule_runs_front
        (store_status { s with destruction_req := [] } s.running THREAD_DYING)
        (by
          unfold priority_ordered at hord ⊢
          simp only [store_status_priority]
          exact hord)
        hidle (by simp [store_status])
      unfold do_schedule thread_current
      rw [if_pos hcur]
      exact hstep
    obtain ⟨s1, h1, hfront⟩ := hstep
    refine ⟨?_, s1, h1, hfront⟩
    rw [thread_exit_eq s s1 h1, if_pos]
    have := runs_front_next s s1 hfront
    rw [hself] at this
    exact (Option.some.inj this).symm
  · intro entry hentry
    have heq : thread_yield s = schedule entry := by
      unfold thread_yield thread_current
      rw [if_pos hcur]
      unfold do_schedule thread_current
      simp only
      rw [if_pos hcur, hentry]
    refine ⟨heq, fun ho hidl => ?_⟩
    rw [heq]
    refine schedule_runs_front entry ho hidl ?_
    rw [hentry]
    simp [store_status]

/-- Witness of C7: `example_state`, whose ready list `[1, 2]` is ordered. -/
theorem schedule_spec_witness :
    priority_ordered example_state example_state.ready_list ∧
    (example_state.threads example_state.running).status = THREAD_RUNNING ∧
    (∃ s1, thread_block example_state = some s1 ∧ runs_front_of_ready example_state s1) :=
  ⟨by decide, by decide,
    ((schedule_spec example_state (by decide) (by decide)).2 (by decide)).1⟩

/-! ## `thread_yield` and `thread_preemption` -/

/-- The result of `list_insert_ordered` is not empty. -/
theorem list_insert_ordered_ne_nil (less : α → α → Bool) (x : α) (l : List α) :
    list_insert_ordered l x less ≠ [] := by
  simp [list_insert_ordered, list_insert]

/-- The function `thread_yield` returns when the current thread is not the idle thread or the
ready list is not empty, and changes nothing but statuses, the ready list, the
destruction list, the tick count and the running thread. -/
theorem thread_yield_some (s : State)
    (hcur : (s.threads s.running).status = THREAD_RUNNING)
    (hne : s.ready_list ≠ [] ∨ some s.running ≠ s.idle_thread) :
    ∃ s1, thread_yield s = some s1 ∧
      (∀ u, same_but_status (s1.threads u) (s.threads u)) := by
  unfold thread_yield thread_current
  rw [if_pos hcur]
  unfold do_schedule thread_current
  simp only
  rw [if_pos hcur]
  have hl : (if some s.running ≠ s.idle_thread then
      list_insert_ordered s.ready_list s.running (compare_thread_priority s)
      else s.ready_list) ≠ [] := by
    split
    · exact list_insert_ordered_ne_nil _ _ _
    · rename_i hi
      rcases hne with h | h
      · exact h
      · exact absurd h hi
  obtain ⟨front, rest, hfr⟩ := List.exists_cons_of_ne_nil hl
  obtain ⟨s1, h1, -, -, -, -, h6, -⟩ := schedule_cons
    (store_status
      { s with
        ready_list :=
          if some s.running ≠ s.idle_thread then
            list_insert_ordered s.ready_list s.running (compare_thread_priority s)
          else s.ready_list
        destruction_req := [] } s.running THREAD_READY)
    front rest (by simpa [store_status] using hfr) (by simp [store_status])
  refine ⟨s1, h1, ?_⟩
  intro u
  have := h6 u
  unfold same_but_status at this ⊢
  by_cases hu : u = s.running <;> simpa [store_status, hu] using this

/-- The test of `thread_preemption` on priorities in range: it holds exactly
when the ready list has a front of higher priority than the running thread. -/
theorem thread_preemption_test_of_range (s : State)
    (hcur : (s.threads s.running).status = THREAD_RUNNING)
    (hrun : priority_in_range s s.running)
    (hready : ∀ u ∈ s.ready_list, priority_in_range s u) :
    thread_preemption_test s =
      some (match s.ready_list with
        | [] => false
        | top :: _ => decide ((s.threads top).priority > (s.threads s.running).priority)) := by
  unfold thread_preemption_test thread_current
  cases hl : s.ready_list with
  | nil => rfl
  | cons top rest =>
    simp only [if_pos hcur]
    have h := compare_thread_priority_of_range s top s.running
      (hready top (by rw [hl]; exact List.mem_cons_self _ _)) hrun
    by_cases hc : compare_thread_priority s top s.running = true
    · rw [hc]
      have := h.1 hc
      simp [this]
    · have hc2 : compare_thread_priority s top s.running = false := by simpa using hc
      rw [hc2]
      have : ¬ (s.threads top).priority > (s.threads s.running).priority :=
        fun hgt => hc (h.2 hgt)
      simp [this]

/-- C8: in a state with all priorities in `[0, 63]`, `thread_preemption ()`
calls `thread_yield` (which then returns) if and only if the ready list is not
empty and its front has a strictly higher priority than the running thread;
otherwise (front of equal or lower priority, or empty list) it returns the state
unchanged, with the same running thread and ready list. -/
theorem thread_preemption_spec (s : State)
    (hrange : ∀ t, priority_in_range s t)
    (hcur : (s.threads s.running).status = THREAD_RUNNING) :
    ((∃ top rest, s.ready_list = top :: rest ∧
        (s.threads top).priority > (s.threads s.running).priority) →
      thread_preemption_test s = some true ∧
      ∃ s1, thread_yield s = some s1 ∧ thread_preemption s = some s1) ∧
    (¬ (∃ top rest, s.ready_list = top :: rest ∧
        (s.threads top).priority > (s.threads s.running).priority) →
      thread_preemption_test s = some false ∧ thread_preemption s = some s) := by
  have ht := thread_preemption_test_of_range s hcur (hrange _) (fun u _ => hrange u)
  constructor
  · intro hc
    have ht1 : thread_preemption_test s = some true := by
      obtain ⟨top, rest, hl, hgt⟩ := hc
      rw [ht, hl]
      simp [hgt]
    obtain ⟨top, rest, hl, -⟩ := hc
    obtain ⟨s1, h1, -⟩ := thread_yield_some s hcur (Or.inl (by rw [hl]; simp))
    refine ⟨ht1, s1, h1, ?_⟩
    unfold thread_preemption
    rw [ht1]
    exact h1
  · intro hc
    have ht1 : thread_preemption_test s = some false := by
      rw [ht]
      cases hl : s.ready_list with
      | nil => rfl
      | cons top rest =>
        have : ¬ (s.threads top).priority > (s.threads s.running).priority :=
          fun hgt => hc ⟨top, rest, hl, hgt⟩
        simp [this]
    refine ⟨ht1, ?_⟩
    unfold thread_preemption
    rw [ht1]

/-- All priorities of `example_state` are in range. -/
theorem example_state_in_range : ∀ t, priority_in_range example_state t := by
  intro t
  unfold priority_in_range example_state example_thread PRI_MIN PRI_MAX
  simp only
  split <;> decide

/-- Witness of C8: in `example_state` the front of the ready list has priority
33 and the running thread priority 31. -/
theorem thread_preemption_spec_witness :
    (∀ t, priority_in_range example_state t) ∧
    (example_state.threads example_state.running).status = THREAD_RUNNING ∧
    (thread_preemption_test example_state = some true ∧
      ∃ s1, thread_yield example_state = some s1 ∧
        thread_preemption example_state = some s1) :=
  ⟨example_state_in_range, by decide,
    (thread_preemption_spec example_state example_state_in_range (by decide)).1
      ⟨1, [2], by decide, by decide⟩⟩

/-! ## `thread_set_priority` and `refresh_priority` -/

/-- The function `thread_preemption` returns whenever the running thread has the status
`THREAD_RUNNING`, and changes no member of a thread other than `status`. -/
theorem thread_preemption_some (s : State)
    (hcur : (s.threads s.running).status = THREAD_RUNNING) :
    ∃ s1, thread_preemption s = some s1 ∧
      (∀ u, same_but_status (s1.threads u) (s.threads u)) := by
  unfold thread_preemption thread_preemption_test thread_current
  cases hl : s.ready_list with
  | nil => exact ⟨s, rfl, fun u => ⟨rfl, rfl, rfl, rfl, rfl⟩⟩
  | cons top rest =>
    simp only [if_pos hcur]
    cases compare_thread_priority s top s.running with
    | true => exact thread_yield_some s hcur (Or.inl (by rw [hl]; simp))
    | false => exact ⟨s, rfl, fun u => ⟨rfl, rfl, rfl, rfl, rfl⟩⟩

/-- The part of `thread_set_priority (p)` before `thread_preemption`: the
running thread gets `init_priority = p` and the priority `p`, or the priority of
the first donor when that is higher; nothing else changes. -/
theorem thread_set_priority_store_eq (s : State) (p : Int)
    (hcur : (s.threads s.running).status = THREAD_RUNNING) :
    ∃ s1, thread_set_priority_store s p = some s1 ∧
      s1.running = s.running ∧ s1.ready_list = s.ready_list ∧
      (s1.threads s.running).status = THREAD_RUNNING ∧
      (s1.threads s.running).init_priority = p ∧
      (s1.threads s.running).donations = (s.threads s.running).donations ∧
      (s1.threads s.running).priority =
        (match (s.threads s.running).donations with
          | [] => p
          | front :: _ => max p (s1.threads front).priority) ∧
      (∀ u, u ≠ s.running → s1.threads u = s.threads u) := by
  unfold thread_set_priority_store thread_current
  rw [if_pos hcur]
  unfold refresh_priority thread_current
  simp only [store_init_priority, store_priority, if_true, hcur]
  cases hd : (s.threads s.running).donations with
  | nil =>
    refine ⟨_, rfl, rfl, rfl, ?_, ?_, ?_, ?_, ?_⟩
    · simp [hcur]
    · simp
    · simp [hd]
    · simp
    · intro u hu; simp [hu]
  | cons front rest =>
    simp only
    by_cases hf : front = s.running
    · subst hf
      simp only [if_true, lt_self_iff_false, gt_iff_lt, if_false]
      refine ⟨_, rfl, rfl, rfl, ?_, ?_, ?_, ?_, ?_⟩
      · simp [hcur]
      · simp
      · simp [hd]
      · simp
      · intro u hu; simp [hu]
    · simp only [hf, if_false, if_true, gt_iff_lt]
      by_cases hgt : p < (s.threads front).priority
      · rw [if_pos hgt]
        refine ⟨_, rfl, rfl, rfl, ?_, ?_, ?_, ?_, ?_⟩
        · simp [hcur]
        · simp
        · simp [hd]
        · simp [hf, max_eq_right (le_of_lt hgt)]
        · intro u hu; simp [hu]
      · rw [if_neg hgt]
        refine ⟨_, rfl, rfl, rfl, ?_, ?_, ?_, ?_, ?_⟩
        · simp [hcur]
        · simp
        · simp [hd]
        · simp [hf, max_eq_left (not_lt.1 hgt)]
        · intro u hu; simp [hu]

/-- C9: after the running thread `c` calls `thread_set_priority (p)`, for every
integer `p`, its `init_priority` is `p`; its priority is `p` when its donations
list is empty, so that `thread_get_priority ()` returns `p`, and it is the
maximum of `p` and the priority of the first donor otherwise, so that a lowering
below the donated priority is not observed.  The call returns, and it changes
the priority of no other thread.  The value of `thread_get_priority ()` is read
in `s1`, the state in which `thread_preemption` is called, where `c` still
runs. -/
theorem thread_set_priority_spec (s : State) (p : Int)
    (hcur : (s.threads s.running).status = THREAD_RUNNING) :
    ∃ s1 s2, thread_set_priority_store s p = some s1 ∧ thread_preemption s1 = some s2 ∧
      thread_set_priority s p = some s2 ∧
      (s2.threads s.running).init_priority = p ∧
      (s2.threads s.running).priority =
        (match (s.threads s.running).donations with
          | [] => p
          | front :: _ => max p (s2.threads front).priority) ∧
      thread_get_priority s1 = some (s2.threads s.running).priority ∧
      ((s.threads s.running).donations = [] → thread_get_priority s1 = some p) ∧
      (∀ u, u ≠ s.running → (s2.threads u).priority = (s.threads u).priority) := by
  obtain ⟨s1, h1, hrun, -, hst, hinit, -, hprio, hframe⟩ :=
    thread_set_priority_store_eq s p hcur
  obtain ⟨s2, h2, hsame⟩ := thread_preemption_some s1 (by rw [hrun]; exact hst)
  have hget : thread_get_priority s1 = some (s1.threads s.running).priority := by
    unfold thread_get_priority thread_current
    rw [hrun, if_pos hst]
  refine ⟨s1, s2, h1, h2, ?_, ?_, ?_, ?_, ?_, ?_⟩
  · unfold thread_set_priority
    rw [h1]
    exact h2
  · rw [(hsame s.running).2.1, hinit]
  · rw [(hsame s.running).1, hprio]
    cases (s.threads s.running).donations with
    | nil => rfl
    | cons front rest => simp only [(hsame front).1]
  · rw [hget, (hsame s.running).1]
  · intro hd
    rw [hget, hprio, hd]
  · intro u hu
    rw [(hsame u).1, hframe u hu]

/-- Witness of C9: the running thread of `example_state` sets its priority to
`20`. -/
theorem thread_set_priority_spec_witness :
    (example_state.threads example_state.running).status = THREAD_RUNNING ∧
    ∃ s1 s2, thread_set_priority_store example_state 20 = some s1 ∧
      thread_preemption s1 = some s2 ∧
      thread_set_priority example_state 20 = some s2 ∧
      (s2.threads example_state.running).init_priority = 20 ∧
      (s2.threads example_state.running).priority =
        (match (example_state.threads example_state.running).donations with
          | [] => 20
          | front :: _ => max 20 (s2.threads front).priority) ∧
      thread_get_priority s1 = some (s2.threads example_state.running).priority ∧
      ((example_state.threads example_state.running).donations = [] →
        thread_get_priority s1 = some 20) ∧
      (∀ u, u ≠ example_state.running →
        (s2.threads u).priority = (example_state.threads u).priority) :=
  ⟨by decide, thread_set_priority_spec example_state 20 (by decide)⟩

/-- The effect of `refresh_priority` on the running thread: its priority
becomes its `init_priority`, or the priority of the front of its donations list
when that is higher; nothing else changes. -/
theorem refresh_priority_eq (s : State)
    (hcur : (s.threads s.running).status = THREAD_RUNNING) :
    ∃ s1, refresh_priority s = some s1 ∧
      (s1.threads s.running).priority =
        (match (s.threads s.running).donations with
          | [] => (s.threads s.running).init_priority
          | front :: _ =>
            if front = s.running then (s.threads s.running).init_priority
            else max (s.threads s.running).init_priority (s.threads front).priority) ∧
      (∀ u, u ≠ s.running → s1.threads u = s.threads u) := by
  unfold refresh_priority thread_current
  simp only [store_priority, if_true, hcur]
  cases hd : (s.threads s.running).donations with
  | nil =>
    refine ⟨_, rfl, ?_, ?_⟩
    · simp
    · intro u hu; simp [hu]
  | cons front rest =>
    simp only
    by_cases hf : front = s.running
    · subst hf
      simp only [if_true, lt_self_iff_false, gt_iff_lt, if_false]
      refine ⟨_, rfl, ?_, ?_⟩
      · simp
      · intro u hu; simp [hu]
    · simp only [hf, if_false, if_true, gt_iff_lt]
      by_cases hgt : (s.threads s.running).init_priority < (s.threads front).priority
      · rw [if_pos hgt]
        refine ⟨_, rfl, ?_, ?_⟩
        · simp [max_eq_right (le_of_lt hgt)]
        · intro u hu; simp [hu]
      · rw [if_neg hgt]
        refine ⟨_, rfl, ?_, ?_⟩
        · simp [max_eq_left (not_lt.1 hgt)]
        · intro u hu; simp [hu]

/-- C10 as stated fails: in `unordered_donations_state` the running thread `0`
has `init_priority` 31 and the donors `1` (priority 32) and `2` (priority 40),
in this order.  `refresh_priority ()` reads only the front of the list and
leaves thread `0` with priority 32, below the priority 40 of its donor `2`, so
the priority is not the maximum over the donations list. -/
theorem refresh_priority_unordered_counterexample :
    thread_current unordered_donations_state = some 0 ∧
    (unordered_donations_state.threads 0).donations = [1, 2] ∧
    (unordered_donations_state.threads 0).init_priority = 31 ∧
    (unordered_donations_state.threads 1).priority = 32 ∧
    (unordered_donations_state.threads 2).priority = 40 ∧
    (refresh_priority unordered_donations_state).map
      (fun s1 => (s1.threads 0).priority) = some 32 ∧
    (refresh_priority unordered_donations_state).map
      (fun s1 => (s1.threads 2).priority) = some 40 ∧
    (refresh_priority unordered_donations_state).map
      (fun s1 => decide ((s1.threads 0).priority < (s1.threads 2).priority)) = some true := by
  decide

/-- When the donations list of the running thread is ordered by the current
priority of the donors, highest first, and the thread is not on its own list,
`refresh_priority` leaves it with the maximum of its `init_priority` and the
priorities of its donors. -/
theorem refresh_priority_max (s : State)
    (hcur : (s.threads s.running).status = THREAD_RUNNING)
    (hord : priority_ordered s (s.threads s.running).donations)
    (hself : s.running ∉ (s.threads s.running).donations) :
    ∃ s1, refresh_priority s = some s1 ∧
      (s.threads s.running).init_priority ≤ (s1.threads s.running).priority ∧
      (∀ d ∈ (s.threads s.running).donations,
        (s1.threads d).priority ≤ (s1.threads s.running).priority) ∧
      ((s1.threads s.running).priority = (s.threads s.running).init_priority ∨
        ∃ d ∈ (s.threads s.running).donations,
          (s1.threads s.running).priority = (s1.threads d).priority) ∧
      (∀ u, u ≠ s.running → s1.threads u = s.threads u) := by
  obtain ⟨s1, h1, hprio, hframe⟩ := refresh_priority_eq s hcur
  refine ⟨s1, h1, ?_, ?_, ?_, hframe⟩
  · rw [hprio]
    cases (s.threads s.running).donations with
    | nil => exact le_refl _
    | cons front rest =>
      simp only
      split
      · exact le_refl _
      · exact le_max_left _ _
  · intro d hd
    have hdne : d ≠ s.running := fun h => hself (h ▸ hd)
    rw [hframe d hdne, hprio]
    unfold priority_ordered at hord
    cases hdon : (s.threads s.running).donations with
    | nil => rw [hdon] at hd; cases hd
    | cons front rest =>
      rw [hdon] at hd hord hself
      have hfne : front ≠ s.running := fun h => hself (h ▸ List.mem_cons_self _ _)
      simp only [if_neg hfne]
      rcases List.mem_cons.1 hd with rfl | hd
      · exact le_max_right _ _
      · exact le_trans ((List.pairwise_cons.1 hord).1 d hd) (le_max_right _ _)
  · rw [hprio]
    cases hdon : (s.threads s.running).donations with
    | nil => exact Or.inl rfl
    | cons front rest =>
      rw [hdon] at hself
      have hfne : front ≠ s.running := fun h => hself (h ▸ List.mem_cons_self _ _)
      simp only [if_neg hfne]
      rcases le_total (s.threads s.running).init_priority (s.threads front).priority with h | h
      · right
        exact ⟨front, List.mem_cons_self _ _, by rw [hframe front hfne, max_eq_right h]⟩
      · left
        exact max_eq_left h

/-- C10, amended: when the donations list of the running thread `c` is ordered
by the current priority of the donors, highest first, and `c` is not on its own
list, then after `refresh_priority ()` the priority of `c` is the maximum of its
`init_priority` and the priorities of all threads on its donations list: it is
at least each of them and equal to one of them. -/
theorem refresh_priority_ordered (s : State)
    (hcur : (s.threads s.running).status = THREAD_RUNNING)
    (hord : priority_ordered s (s.threads s.running).donations)
    (hself : s.running ∉ (s.threads s.running).donations) :
    ∃ s1, refresh_priority s = some s1 ∧
      (s.threads s.running).init_priority ≤ (s1.threads s.running).priority ∧
      (∀ d ∈ (s.threads s.running).donations,
        (s1.threads d).priority ≤ (s1.threads s.running).priority) ∧
      ((s1.threads s.running).priority = (s.threads s.running).init_priority ∨
        ∃ d ∈ (s.threads s.running).donations,
          (s1.threads s.running).priority = (s1.threads d).priority) ∧
      (∀ u, u ≠ s.running → s1.threads u = s.threads u) :=
  refresh_priority_max s hcur hord hself

/-- Witness of C10, amended: `ordered_donations_state`, with the donors `2`
(priority 40) and `1` (priority 32) in this order. -/
theorem refresh_priority_ordered_witness :
    (ordered_donations_state.threads ordered_donations_state.running).status
      = THREAD_RUNNING ∧
    priority_ordered ordered_donations_state
      (ordered_donations_state.threads ordered_donations_state.running).donations ∧
    ordered_donations_state.running ∉
      (ordered_donations_state.threads ordered_donations_state.running).donations ∧
    ∃ s1, refresh_priority ordered_donations_state = some s1 ∧
      (ordered_donations_state.threads ordered_donations_state.running).init_priority
        ≤ (s1.threads ordered_donations_state.running).priority ∧
      (∀ d ∈ (ordered_donations_state.threads ordered_donations_state.running).donations,
        (s1.threads d).priority ≤ (s1.threads ordered_donations_state.running).priority) ∧
      ((s1.threads ordered_donations_state.running).priority =
          (ordered_donations_state.threads ordered_donations_state.running).init_priority ∨
        ∃ d ∈ (ordered_donations_state.threads ordered_donations_state.running).donations,
          (s1.threads ordered_donations_state.running).priority = (s1.threads d).priority) ∧
      (∀ u, u ≠ ordered_donations_state.running →
        s1.threads u = ordered_donations_state.threads u) :=
  ⟨by decide, by decide, by decide,
    refresh_priority_ordered ordered_donations_state (by decide) (by decide) (by decide)⟩

/-! ## `remove_with_lock` -/

/-- The loop of `remove_with_lock` appends to the nodes already stepped over the
remaining donors that do not wait for `lock`, in their order. -/
theorem remove_with_lock_loop_eq (s : State) (lock : Option LockId) (before l : List Tid) :
    remove_with_lock_loop s lock before l =
      before ++ l.filter (fun d => decide ((s.threads d).wait_on_lock ≠ lock)) := by
  induction l generalizing before with
  | nil => simp [remove_with_lock_loop]
  | cons d next ih =>
    unfold remove_with_lock_loop
    by_cases hd : (s.threads d).wait_on_lock = lock
    · rw [if_pos hd]
      simp only [list_remove]
      rw [ih, List.filter_cons]
      simp [hd]
    · rw [if_neg hd, ih, List.filter_cons]
      simp [hd]

/-- The state after `remove_with_lock (lock)`: the donations list of the running
thread is filtered, nothing else changes. -/
theorem remove_with_lock_eq (s : State) (lock : Option LockId)
    (hcur : (s.threads s.running).status = THREAD_RUNNING) :
    ∃ s1, remove_with_lock s lock = some s1 ∧
      (s1.threads s.running).donations =
        (s.threads s.running).donations.filter
          (fun d => decide ((s.threads d).wait_on_lock ≠ lock)) ∧
      (s1.threads s.running).status = THREAD_RUNNING ∧
      (s1.threads s.running).priority = (s.threads s.running).priority ∧
      (s1.threads s.running).init_priority = (s.threads s.running).init_priority ∧
      (s1.threads s.running).wait_on_lock = (s.threads s.running).wait_on_lock ∧
      (s1.threads s.running).time_to_wakeup = (s.threads s.running).time_to_wakeup ∧
      (∀ u, u ≠ s.running → s1.threads u = s.threads u) ∧
      s1.running = s.running ∧ s1.ready_list = s.ready_list ∧
      s1.sleep_list = s.sleep_list ∧ s1.destruction_req = s.destruction_req ∧
      s1.locks = s.locks ∧ s1.idle_thread = s.idle_thread ∧
      s1.initial_thread = s.initial_thread := by
  unfold remove_with_lock thread_current
  rw [if_pos hcur]
  refine ⟨_, rfl, ?_, ?_, ?_, ?_, ?_, ?_, ?_, rfl, rfl, rfl, rfl, rfl, rfl, rfl⟩
  · simp [remove_with_lock_loop_eq]
  · simp [hcur]
  · simp
  · simp
  · simp
  · simp
  · intro u hu; simp [hu]

/-- C11: for every lock pointer `L` and every donations list `d` of the running
thread, `remove_with_lock (L)` returns and leaves as donations list exactly `d`
filtered by `wait_on_lock != L`: the entries that do not wait for `L`, in their
original order.  No entry that waits for `L` remains, wherever it stood in the
list, and nothing else in the state changes. -/
theorem remove_with_lock_spec (s : State) (lock : Option LockId)
    (hcur : (s.threads s.running).status = THREAD_RUNNING) :
    ∃ s1, remove_with_lock s lock = some s1 ∧
      (s1.threads s.running).donations =
        (s.threads s.running).donations.filter
          (fun d => decide ((s.threads d).wait_on_lock ≠ lock)) ∧
      (∀ d ∈ (s1.threads s.running).donations, (s1.threads d).wait_on_lock ≠ lock) ∧
      (∀ d ∈ (s.threads s.running).donations, (s.threads d).wait_on_lock ≠ lock →
        d ∈ (s1.threads s.running).donations) ∧
      (∀ u, u ≠ s.running → s1.threads u = s.threads u) ∧
      same_but_status
        { s1.threads s.running with donations := (s.threads s.running).donations }
        (s.threads s.running) := by
  obtain ⟨s1, h1, hd, -, hp, hi, hw, ht, hframe, -⟩ := remove_with_lock_eq s lock hcur
  refine ⟨s1, h1, hd, ?_, ?_, hframe, ?_⟩
  · intro d hdm
    rw [hd, List.mem_filter] at hdm
    have hne : (s.threads d).wait_on_lock ≠ lock := by simpa using hdm.2
    by_cases hdr : d = s.running
    · rw [hdr, hw, ← hdr]; exact hne
    · rw [hframe d hdr]; exact hne
  · intro d hdm hne
    rw [hd, List.mem_filter]
    exact ⟨hdm, by simpa using hne⟩
  · exact ⟨hp, hi, rfl, hw, ht⟩

/-- Witness of C11: the running thread of `multiple_donations_state` drops the
donors that wait for the lock `Y = 1`. -/
theorem remove_with_lock_spec_witness :
    (multiple_donations_state.threads multiple_donations_state.running).status
      = THREAD_RUNNING ∧
    ∃ s1, remove_with_lock multiple_donations_state (some 1) = some s1 ∧
      (s1.threads multiple_donations_state.running).donations =
        (multiple_donations_state.threads multiple_donations_state.running).donations.filter
          (fun d => decide ((multiple_donations_state.threads d).wait_on_lock ≠ some 1)) ∧
      (∀ d ∈ (s1.threads multiple_donations_state.running).donations,
        (s1.threads d).wait_on_lock ≠ some 1) ∧
      (∀ d ∈ (multiple_donations_state.threads multiple_donations_state.running).donations,
        (multiple_donations_state.threads d).wait_on_lock ≠ some 1 →
        d ∈ (s1.threads multiple_donations_state.running).donations) ∧
      (∀ u, u ≠ multiple_donations_state.running →
        s1.threads u = multiple_donations_state.threads u) ∧
      same_but_status
        { s1.threads multiple_donations_state.running with
          donations :=
            (multiple_donations_state.threads multiple_donations_state.running).donations }
        (multiple_donations_state.threads multiple_donations_state.running) :=
  ⟨by decide, remove_with_lock_spec multiple_donations_state (some 1) (by decide)⟩

/-- After `remove_with_lock (lock)` and `refresh_priority ()` on an ordered
donations list that does not hold the running thread itself, the priority of
the running thread is the maximum of its `init_priority` and the priorities of
the donors that do not wait for `lock`. -/
theorem remove_with_lock_refresh_max (s : State) (lock : Option LockId)
    (hcur : (s.threads s.running).status = THREAD_RUNNING)
    (hord : priority_ordered s (s.threads s.running).donations)
    (hself : s.running ∉ (s.threads s.running).donations) :
    ∃ s1 s2, remove_with_lock s lock = some s1 ∧ refresh_priority s1 = some s2 ∧
      (s.threads s.running).init_priority ≤ (s2.threads s.running).priority ∧
      (∀ d ∈ (s.threads s.running).donations, (s.threads d).wait_on_lock ≠ lock →
        (s.threads d).priority ≤ (s2.threads s.running).priority) ∧
      ((s2.threads s.running).priority = (s.threads s.running).init_priority ∨
        ∃ d ∈ (s.threads s.running).donations, (s.threads d).wait_on_lock ≠ lock ∧
          (s2.threads s.running).priority = (s.threads d).priority) := by
  obtain ⟨s1, h1, hd, hst, hp, hi, -, -, hframe, hrun, -⟩ := remove_with_lock_eq s lock hcur
  have hprio : ∀ u, (s1.threads u).priority = (s.threads u).priority := by
    intro u
    by_cases hu : u = s.running
    · rw [hu, hp]
    · rw [hframe u hu]
  have hord1 : priority_ordered s1 (s1.threads s1.running).donations := by
    unfold priority_ordered at hord ⊢
    simp only [hprio]
    rw [hrun, hd]
    exact List.Pairwise.sublist (List.filter_sublist _) hord
  have hself1 : s1.running ∉ (s1.threads s1.running).donations := by
    rw [hrun, hd]
    intro hm
    exact hself (List.mem_filter.1 hm).1
  obtain ⟨s2, h2, hinit, hall, hatt, hframe2⟩ :=
    refresh_priority_max s1 (by rw [hrun]; exact hst) hord1 hself1
  rw [hrun] at hinit hall hatt hframe2
  rw [hi] at hinit hatt
  rw [hd] at hall hatt
  have hdon : ∀ d ∈ (s.threads s.running).donations,
      (s2.threads d).priority = (s.threads d).priority := by
    intro d hdm
    have hne : d ≠ s.running := fun h => hself (h ▸ hdm)
    rw [hframe2 d hne, hprio]
  refine ⟨s1, s2, h1, h2, hinit, ?_, ?_⟩
  · intro d hdm hne
    have hk : d ∈ (s.threads s.running).donations.filter
        (fun d => decide ((s.threads d).wait_on_lock ≠ lock)) :=
      List.mem_filter.2 ⟨hdm, by simpa using hne⟩
    rw [← hdon d hdm]
    exact hall d hk
  · rcases hatt with h | ⟨d, hk, h⟩
    · exact Or.inl h
    · have hk2 := List.mem_filter.1 hk
      exact Or.inr ⟨d, hk2.1, by simpa using hk2.2, by rw [h, hdon d hk2.1]⟩

/-- C12: for a running thread whose donations list is ordered by donor priority,
highest first (and does not hold the thread itself), `remove_with_lock (L)`
followed by `refresh_priority ()` leaves it with the maximum of its
`init_priority` and the priorities of the donors whose `wait_on_lock` is not
`L`.  In `multiple_donations_state` (base priority 31, donors `Q` at 33 waiting
for `Y` and `P` at 32 waiting for `X`) the priority is 33 before any release, 32
after the release of `Y` and 31 after the release of `X` that follows. -/
theorem remove_with_lock_refresh_spec (s : State) (lock : Option LockId)
    (hcur : (s.threads s.running).status = THREAD_RUNNING)
    (hord : priority_ordered s (s.threads s.running).donations)
    (hself : s.running ∉ (s.threads s.running).donations) :
    (∃ s1 s2, remove_with_lock s lock = some s1 ∧ refresh_priority s1 = some s2 ∧
      (s.threads s.running).init_priority ≤ (s2.threads s.running).priority ∧
      (∀ d ∈ (s.threads s.running).donations, (s.threads d).wait_on_lock ≠ lock →
        (s.threads d).priority ≤ (s2.threads s.running).priority) ∧
      ((s2.threads s.running).priority = (s.threads s.running).init_priority ∨
        ∃ d ∈ (s.threads s.running).donations, (s.threads d).wait_on_lock ≠ lock ∧
          (s2.threads s.running).priority = (s.threads d).priority)) ∧
    ((multiple_donations_state.threads 0).priority = 33 ∧
      ((remove_with_lock multiple_donations_state (some 1)).bind refresh_priority).map
        (fun s2 => (s2.threads 0).priority) = some 32 ∧
      (((remove_with_lock multiple_donations_state (some 1)).bind refresh_priority).bind
        (fun s2 => (remove_with_lock s2 (some 0)).bind refresh_priority)).map
        (fun s3 => (s3.threads 0).priority) = some 31) :=
  ⟨remove_with_lock_refresh_max s lock hcur hord hself, by decide⟩

/-- Witness of C12: `multiple_donations_state` and the lock `Y = 1`. -/
theorem remove_with_lock_refresh_spec_witness :
    (multiple_donations_state.threads multiple_donations_state.running).status
      = THREAD_RUNNING ∧
    priority_ordered multiple_donations_state
      (multiple_donations_state.threads multiple_donations_state.running).donations ∧
    multiple_donations_state.running ∉
      (multiple_donations_state.threads multiple_donations_state.running).donations ∧
    ∃ s1 s2, remove_with_lock multiple_donations_state (some 1) = some s1 ∧
      refresh_priority s1 = some s2 ∧
      (s2.threads multiple_donations_state.running).priority = 32 := by
  refine ⟨by decide, by decide, by decide, ?_⟩
  obtain ⟨⟨s1, s2, h1, h2, -⟩, -, h32, -⟩ :=
    remove_with_lock_refresh_spec multiple_donations_state (some 1)
      (by decide) (by decide) (by decide)
  refine ⟨s1, s2, h1, h2, ?_⟩
  rw [h1, Option.some_bind, h2] at h32
  simpa using h32

/-! ## Priority donation -/

/-- A state differs from itself in no priority. -/
theorem same_but_priorities_refl (s : State) : same_but_priorities s s :=
  ⟨fun _ => ⟨rfl, rfl, rfl, rfl, rfl⟩, rfl, rfl, rfl, rfl, rfl, rfl, rfl, rfl⟩

/-- Differing at most in priorities is transitive. -/
theorem same_but_priorities_trans {s2 s1 s : State} (h2 : same_but_priorities s2 s1)
    (h1 : same_but_priorities s1 s) : same_but_priorities s2 s := by
  obtain ⟨a2, b2, c2, d2, e2, f2, g2, i2, j2⟩ := h2
  obtain ⟨a1, b1, c1, d1, e1, f1, g1, i1, j1⟩ := h1
  refine ⟨fun u => ?_, b2.trans b1, c2.trans c1, d2.trans d1, e2.trans e1, f2.trans f1,
    g2.trans g1, i2.trans i1, j2.trans j1⟩
  obtain ⟨x1, x2, x3, x4, x5⟩ := a2 u
  obtain ⟨y1, y2, y3, y4, y5⟩ := a1 u
  exact ⟨x1.trans y1, x2.trans y2, x3.trans y3, x4.trans y4, x5.trans y5⟩

/-- A store to a priority changes nothing but that priority. -/
theorem store_priority_same (s : State) (t : Tid) (p : Int) :
    same_but_priorities (store_priority s t p) s := by
  refine ⟨fun u => ?_, rfl, rfl, rfl, rfl, rfl, rfl, rfl, rfl⟩
  by_cases hu : u = t <;> simp [store_priority, same_but_priority, hu]

/-- The priorities after a store to the priority of thread `t`. -/
theorem store_priority_priority (s : State) (t : Tid) (p : Int) (u : Tid) :
    ((store_priority s t p).threads u).priority = if u = t then p else (s.threads u).priority := by
  by_cases hu : u = t <;> simp [store_priority, hu]

/-- The link `wait_on_lock->holder` does not depend on priorities. -/
theorem lock_holder_congr {s1 s : State} (h : same_but_priorities s1 s) (t : Tid) :
    lock_holder s1 t = lock_holder s t := by
  unfold lock_holder
  rw [(h.1 t).2.2.2.1, h.2.1]

/-- The wait chain does not depend on priorities. -/
theorem nth_holder_congr {s1 s : State} (h : same_but_priorities s1 s) (t : Tid) (k : Nat) :
    nth_holder s1 t k = nth_holder s t k := by
  induction k generalizing t with
  | zero => rfl
  | succ k ih =>
    unfold nth_holder
    rw [lock_holder_congr h]
    cases lock_holder s t with
    | none => rfl
    | some h0 => exact ih h0

/-- The first step of the wait chain. -/
theorem nth_holder_succ (s : State) (t h0 : Tid) (k : Nat) (hl : lock_holder s t = some h0) :
    nth_holder s t (k + 1) = nth_holder s h0 k := by
  rw [nth_holder, hl]

/-- The loop of `donate_priority_thread` returns when `fuel` allows for the
evaluations of the loop condition that are left up to depth 8. -/
theorem donate_priority_thread_loop_some :
    ∀ (fuel depth : Nat) (t : Tid) (s : State), 0 < fuel → 8 < fuel + depth →
      ∃ s1, donate_priority_thread_loop fuel depth t s = some s1 := by
  intro fuel
  induction fuel with
  | zero => intro depth t s h0; omega
  | succ fuel ih =>
    intro depth t s _ hf
    unfold donate_priority_thread_loop
    cases (s.threads t).wait_on_lock with
    | none => exact ⟨s, rfl⟩
    | some l =>
      simp only
      by_cases hd : depth < 8
      · rw [if_pos hd]
        cases (s.locks l).holder with
        | none => exact ⟨s, rfl⟩
        | some holder => exact ih (depth + 1) holder _ (by omega) (by omega)
      · rw [if_neg hd]
        exact ⟨s, rfl⟩

/-- The conditional store of `donate_priority_thread`: the holder gets the
priority of `t` when its own is lower.  Afterwards the holder has at least the
priority of `t`, no priority is lower than before, and only the priority of the
holder can have changed. -/
theorem donate_step (s : State) (t holder : Tid) :
    same_but_priorities
      (if (s.threads holder).priority < (s.threads t).priority then
        store_priority s holder (s.threads t).priority else s) s ∧
    (s.threads t).priority ≤
      ((if (s.threads holder).priority < (s.threads t).priority then
        store_priority s holder (s.threads t).priority else s).threads holder).priority ∧
    (∀ u, (s.threads u).priority ≤
      ((if (s.threads holder).priority < (s.threads t).priority then
        store_priority s holder (s.threads t).priority else s).threads u).priority) ∧
    (∀ u, u ≠ holder →
      ((if (s.threads holder).priority < (s.threads t).priority then
        store_priority s holder (s.threads t).priority else s).threads u).priority =
      (s.threads u).priority) := by
  by_cases hlt : (s.threads holder).priority < (s.threads t).priority
  · simp only [if_pos hlt]
    refine ⟨store_priority_same _ _ _, ?_, ?_, ?_⟩
    · rw [store_priority_priority, if_pos rfl]
    · intro u
      rw [store_priority_priority]
      split
      · rename_i hu; rw [hu]; exact le_of_lt hlt
      · exact le_refl _
    · intro u hu
      rw [store_priority_priority, if_neg hu]
  · simp only [if_neg hlt]
    refine ⟨same_but_priorities_refl s, not_lt.1 hlt, ?_, ?_⟩
    · intro u; exact le_refl _
    · intros; trivial

/-- The loop of `donate_priority_thread`, started at depth `depth` on thread `t`:
it changes priorities only, lowers none, leaves every thread reached from `t`
within the remaining depth with at least the priority `t` had, and changes no
thread that is not reached. -/
theorem donate_priority_thread_loop_spec :
    ∀ (fuel depth : Nat) (t : Tid) (s s2 : State),
      donate_priority_thread_loop fuel depth t s = some s2 →
      same_but_priorities s2 s ∧
      (∀ u, (s.threads u).priority ≤ (s2.threads u).priority) ∧
      (∀ k h, 1 ≤ k → depth + k ≤ 8 → nth_holder s t k = some h →
        (s.threads t).priority ≤ (s2.threads h).priority) ∧
      (∀ u, (∀ k, 1 ≤ k → depth + k ≤ 8 → nth_holder s t k ≠ some u) →
        (s2.threads u).priority = (s.threads u).priority) := by
  intro fuel
  induction fuel with
  | zero => intro depth t s s2 h; simp [donate_priority_thread_loop] at h
  | succ fuel ih =>
    intro depth t s s2 h
    unfold donate_priority_thread_loop at h
    have hstop : s2 = s →
        (∀ k, 1 ≤ k → depth + k ≤ 8 → nth_holder s t k = none) →
        same_but_priorities s2 s ∧
        (∀ u, (s.threads u).priority ≤ (s2.threads u).priority) ∧
        (∀ k h, 1 ≤ k → depth + k ≤ 8 → nth_holder s t k = some h →
          (s.threads t).priority ≤ (s2.threads h).priority) ∧
        (∀ u, (∀ k, 1 ≤ k → depth + k ≤ 8 → nth_holder s t k ≠ some u) →
          (s2.threads u).priority = (s.threads u).priority) := by
      intro he hnone
      subst he
      refine ⟨same_but_priorities_refl _, fun _ => le_refl _, ?_, fun _ _ => rfl⟩
      intro k h hk hd hn
      rw [hnone k hk hd] at hn
      cases hn
    cases hw : (s.threads t).wait_on_lock with
    | none =>
      rw [hw] at h
      refine hstop (Option.some.inj h).symm ?_
      intro k hk _
      obtain ⟨j, rfl⟩ : ∃ j, k = j + 1 := ⟨k - 1, by omega⟩
      simp [nth_holder, lock_holder, hw]
    | some l =>
      rw [hw] at h
      simp only at h
      by_cases hd : depth < 8
      · rw [if_pos hd] at h
        cases hh : (s.locks l).holder with
        | none =>
          rw [hh] at h
          refine hstop (Option.some.inj h).symm ?_
          intro k hk _
          obtain ⟨j, rfl⟩ : ∃ j, k = j + 1 := ⟨k - 1, by omega⟩
          simp [nth_holder, lock_holder, hw, hh]
        | some holder =>
          rw [hh] at h
          simp only at h
          have hl : lock_holder s t = some holder := by simp [lock_holder, hw, hh]
          obtain ⟨hsame1, hge1, hmono1, hother1⟩ := donate_step s t holder
          obtain ⟨hsame2, hmono2, hreach2, hother2⟩ := ih (depth + 1) holder _ s2 h
          refine ⟨same_but_priorities_trans hsame2 hsame1,
            fun u => le_trans (hmono1 u) (hmono2 u), ?_, ?_⟩
          · intro k h0 hk hdk hn
            obtain ⟨j, rfl⟩ : ∃ j, k = j + 1 := ⟨k - 1, by omega⟩
            rw [nth_holder_succ s t holder j hl] at hn
            cases j with
            | zero =>
              simp only [nth_holder, Option.some.injEq] at hn
              subst hn
              exact le_trans hge1 (hmono2 holder)
            | succ j =>
              rw [← nth_holder_congr hsame1] at hn
              exact le_trans hge1 (hreach2 (j + 1) h0 (by omega) (by omega) hn)
          · intro u hu
            have hne : u ≠ holder := by
              intro he
              apply hu 1 (le_refl 1) (by omega)
              rw [nth_holder_succ s t holder 0 hl, he]
              rfl
            rw [hother2 u, hother1 u hne]
            intro k hk hdk hn
            apply hu (k + 1) (by omega) (by omega)
            rw [nth_holder_succ s t holder k hl, ← nth_holder_congr hsame1]
            exact hn
      · rw [if_neg hd] at h
        refine hstop (Option.some.inj h).symm ?_
        intro k hk hdk
        omega

/-- Counterexample to C13: in `cycle_state` the wait chain of the running thread
`0` comes back to thread `0` after 8 links, and the holder of the lock thread
`0` waits for is thread `1`.  After `donate_priority_thread (0)` thread `1`
still has the priority 10, and thread `0`, reached as the eighth holder behind
thread `7`, has the priority 50: the holder is below the donating thread. -/
theorem donate_priority_thread_cycle_counterexample :
    (cycle_state.threads 0).wait_on_lock = some 0 ∧
    lock_holder cycle_state 0 = some 1 ∧
    (List.range 9).map (nth_holder cycle_state 0) =
      [some 0, some 1, some 2, some 3, some 4, some 5, some 6, some 7, some 0] ∧
    (List.range 8).map (fun u => (cycle_state.threads u).priority) =
      [10, 10, 10, 10, 10, 10, 10, 50] ∧
    (donate_priority_thread 9 cycle_state 0).map
      (fun s => (List.range 8).map (fun u => (s.threads u).priority)) =
      some [50, 10, 10, 10, 10, 10, 10, 50] ∧
    (donate_priority_thread 9 cycle_state 0).map
      (fun s => decide ((s.threads 1).priority ≥ (s.threads 0).priority)) = some false := by
  decide

/-- C13, amended: `donate_priority_thread (t)` returns (nine evaluations of its
loop condition are enough), and afterwards every thread reached from `t` by
following `wait_on_lock->holder` links at most 8 times has at least the priority
`t` had at the call; in particular the holder of the lock `t` waits for.  When
`t` is not reached on its own wait chain within 8 links, the call leaves the
priority of `t` as it was, so the reached threads have at least the priority
`t` has afterwards.  In `nested_donation_state` (`L` holds `A`, `M` at 32 waits
for `A` and holds `B`, `H` at 33 waits for `B`) the donation from `H` gives both
`M` and `L` the priority 33. -/
theorem donate_priority_thread_spec (s : State) (t : Tid) (fuel : Nat) (hf : 8 < fuel) :
    (∃ s2, donate_priority_thread fuel s t = some s2 ∧
      (∀ k h, 1 ≤ k → k ≤ 8 → nth_holder s t k = some h →
        (s.threads t).priority ≤ (s2.threads h).priority) ∧
      (∀ h, lock_holder s t = some h → (s.threads t).priority ≤ (s2.threads h).priority) ∧
      ((∀ k, 1 ≤ k → k ≤ 8 → nth_holder s t k ≠ some t) →
        (s2.threads t).priority = (s.threads t).priority ∧
        ∀ k h, 1 ≤ k → k ≤ 8 → nth_holder s t k = some h →
          (s2.threads t).priority ≤ (s2.threads h).priority)) ∧
    (donate_priority_thread 9 nested_donation_state 2).map
      (fun s2 => ((s2.threads 1).priority, (s2.threads 0).priority)) = some (33, 33) := by
  refine ⟨?_, by decide⟩
  obtain ⟨s2, h2⟩ := donate_priority_thread_loop_some fuel 0 t s (by omega) (by omega)
  obtain ⟨-, -, hreach, hother⟩ := donate_priority_thread_loop_spec fuel 0 t s s2 h2
  refine ⟨s2, h2, ?_, ?_, ?_⟩
  · intro k h hk hk8 hn
    exact hreach k h hk (by omega) hn
  · intro h hl
    apply hreach 1 h (le_refl 1) (by omega)
    rw [nth_holder_succ s t h 0 hl]
    rfl
  · intro hnot
    have heq : (s2.threads t).priority = (s.threads t).priority :=
      hother t (fun k hk hdk => hnot k hk (by omega))
    refine ⟨heq, ?_⟩
    intro k h hk hk8 hn
    rw [heq]
    exact hreach k h hk (by omega) hn

/-- Witness of C13, amended: the donation of `H = 2` in `nested_donation_state`,
where `H` is not on its own wait chain. -/
theorem donate_priority_thread_spec_witness :
    ∃ s2, donate_priority_thread 9 nested_donation_state 2 = some s2 ∧
      (∀ k h, 1 ≤ k → k ≤ 8 → nth_holder nested_donation_state 2 k = some h →
        (nested_donation_state.threads 2).priority ≤ (s2.threads h).priority) ∧
      (s2.threads 2).priority = (nested_donation_state.threads 2).priority ∧
      (∀ k h, 1 ≤ k → k ≤ 8 → nth_holder nested_donation_state 2 k = some h →
        (s2.threads 2).priority ≤ (s2.threads h).priority) :=
  let ⟨s2, h2, hreach, _, hpost⟩ :=
    (donate_priority_thread_spec nested_donation_state 2 9 (by decide)).1
  ⟨s2, h2, hreach,
    hpost (fun k hk hk8 => by interval_cases k <;> decide)⟩

/-! ## `donate_priority` -/

/-- More fuel does not change a result of the loop of `donate_priority`. -/
theorem donate_priority_loop_mono :
    ∀ (fuel count : Nat) (holder : Option Tid) (s s2 : State),
      donate_priority_loop fuel count holder s = some s2 →
      donate_priority_loop (fuel + 1) count holder s = some s2 := by
  intro fuel
  induction fuel with
  | zero =>
    intro count holder s s2 h
    cases holder with
    | none => simpa [donate_priority_loop] using h
    | some h0 => simp [donate_priority_loop] at h
  | succ fuel ih =>
    intro count holder s s2 h
    cases holder with
    | none => simpa [donate_priority_loop] using h
    | some h0 =>
      rw [donate_priority_loop] at h ⊢
      cases hc : thread_current s with
      | none => rw [hc] at h; cases h
      | some cur =>
        rw [hc] at h
        simp only at h ⊢
        by_cases h8 : count + 1 > 8
        · rw [if_pos h8] at h ⊢
          exact h
        · rw [if_neg h8] at h ⊢
          cases hw : ((store_priority s h0 (s.threads cur).priority).threads h0).wait_on_lock with
          | none => rw [hw] at h; simpa using h
          | some l =>
            rw [hw] at h
            simp only at h ⊢
            exact ih _ _ _ _ h

/-- A result of `donate_priority` with nine units of fuel is the result with
any larger amount. -/
theorem donate_priority_fuel (s s2 : State) (h : donate_priority 9 s = some s2) :
    ∀ fuel, 9 ≤ fuel → donate_priority fuel s = some s2 := by
  intro fuel hf
  obtain ⟨n, rfl⟩ : ∃ n, fuel = 9 + n := ⟨fuel - 9, by omega⟩
  clear hf
  induction n with
  | zero => exact h
  | succ n ih =>
    unfold donate_priority at ih ⊢
    cases hc : thread_current s with
    | none => rw [hc] at ih; cases ih
    | some cur =>
      rw [hc] at ih
      simp only at ih ⊢
      cases hw : (s.threads cur).wait_on_lock with
      | none => rw [hw] at ih; cases ih
      | some l =>
        rw [hw] at ih
        simp only at ih ⊢
        exact donate_priority_loop_mono _ _ _ _ _ ih

/-- The value that `f` reads in the result of `donate_priority` does not depend
on the fuel, once nine units give a result. -/
theorem donate_priority_map_fuel {β : Type} (s : State) (f : State → β) (b : β)
    (h : (donate_priority 9 s).map f = some b) :
    ∀ fuel, 9 ≤ fuel → (donate_priority fuel s).map f = some b := by
  intro fuel hf
  cases h9 : donate_priority 9 s with
  | none => rw [h9] at h; cases h
  | some s2 =>
    rw [donate_priority_fuel s s2 h9 fuel hf]
    rw [h9] at h
    exact h

/-- C14 at a holder of higher priority: in `higher_holder_state` the running
thread `0` (priority 31) waits for the lock `0`, whose holder, thread `1`, has
priority 40.  The loop of `donate_priority ()` stores the priority of the
running thread in the holder without comparing them, so the call lowers the
priority of thread `1` from 40 to 31. -/
theorem donate_priority_lowers_holder :
    thread_current higher_holder_state = some 0 ∧
    (higher_holder_state.threads 0).wait_on_lock = some 0 ∧
    (higher_holder_state.locks 0).holder = some 1 ∧
    (higher_holder_state.threads 0).priority = 31 ∧
    (higher_holder_state.threads 1).priority = 40 ∧
    (donate_priority 9 higher_holder_state).map (fun s2 => (s2.threads 1).priority)
      = some 31 ∧
    (∀ fuel, 9 ≤ fuel →
      (donate_priority fuel higher_holder_state).map (fun s2 => (s2.threads 1).priority)
        = some 31) :=
  ⟨by decide, by decide, by decide, by decide, by decide, by decide,
    donate_priority_map_fuel higher_holder_state _ 31 (by decide)⟩

/-- C15 on a chain of ten holders: in `long_chain_state` the threads reached
from the running thread `0` by 1, 2, …, 10 links are the distinct threads `1`,
`2`, …, `10`, all at priority 10, and thread `0` has priority 40.  The loop of
`donate_priority ()` tests `count > 8` after the store and the increment, so it
stores in nine holders: the ninth holder, thread `9`, gets the priority 40, and
only the tenth keeps its priority. -/
theorem donate_priority_ninth_holder :
    thread_current long_chain_state = some 0 ∧
    (List.range 11).map (nth_holder long_chain_state 0) =
      [some 0, some 1, some 2, some 3, some 4, some 5, some 6, some 7, some 8, some 9,
        some 10] ∧
    (long_chain_state.threads 0).priority = 40 ∧
    (long_chain_state.threads 9).priority = 10 ∧
    (donate_priority 9 long_chain_state).map (fun s2 => (s2.threads 9).priority) = some 40 ∧
    (donate_priority 9 long_chain_state).map (fun s2 => (s2.threads 10).priority) = some 10 ∧
    (∀ fuel, 9 ≤ fuel →
      (donate_priority fuel long_chain_state).map (fun s2 => (s2.threads 9).priority)
        = some 40) :=
  ⟨by decide, by decide, by decide, by decide, by decide, by decide,
    donate_priority_map_fuel long_chain_state _ 40 (by decide)⟩

/-! ## `thread_sleep` -/

/-- The members of the thread structures after a store to a `time_to_wakeup`. -/
theorem store_time_to_wakeup_wakeup (s : State) (t : Tid) (ticks : Int) (u : Tid) :
    ((store_time_to_wakeup s t ticks).threads u).time_to_wakeup =
      if u = t then ticks else (s.threads u).time_to_wakeup := by
  by_cases hu : u = t <;> simp [store_time_to_wakeup, hu]

/-- A store to a `time_to_wakeup` leaves every status as it is. -/
theorem store_time_to_wakeup_status (s : State) (t : Tid) (ticks : Int) (u : Tid) :
    ((store_time_to_wakeup s t ticks).threads u).status = (s.threads u).status := by
  by_cases hu : u = t <;> simp [store_time_to_wakeup, hu]

/-- The function `thread_block` on a running thread that is not on the ready list:
it returns when there is a thread to run, the caller is blocked afterwards, and
apart from that only the status of the thread that runs next changes. -/
theorem thread_block_eq (s : State)
    (hcur : (s.threads s.running).status = THREAD_RUNNING)
    (hnr : s.running ∉ s.ready_list)
    (hnidle : some s.running ≠ s.idle_thread)
    (hidle : s.ready_list = [] → s.idle_thread ≠ none) :
    ∃ s1, thread_block s = some s1 ∧
      (s1.threads s.running).status = THREAD_BLOCKED ∧
      (∀ u, same_but_status (s1.threads u) (s.threads u)) ∧
      s1.sleep_list = s.sleep_list ∧ s1.running ≠ s.running ∧
      (s1.threads s1.running).status = THREAD_RUNNING ∧
      (∀ u, u ≠ s.running → u ≠ s1.running → s1.threads u = s.threads u) ∧
      (s.ready_list = s1.running :: s1.ready_list ∨
        (s.ready_list = [] ∧ s1.ready_list = [] ∧ s.idle_thread = some s1.running)) := by
  unfold thread_block thread_current
  rw [if_pos hcur]
  have hst : ((store_status s s.running THREAD_BLOCKED).threads
      (store_status s s.running THREAD_BLOCKED).running).status ≠ THREAD_RUNNING := by
    simp [store_status]
  have hsame : ∀ u, same_but_status ((store_status s s.running THREAD_BLOCKED).threads u)
      (s.threads u) := by
    intro u
    by_cases hu : u = s.running <;> simp [store_status, same_but_status, hu]
  have htrans : ∀ {a b c : thread}, same_but_status a b → same_but_status b c →
      same_but_status a c := by
    intro a b c hab hbc
    exact ⟨hab.1.trans hbc.1, hab.2.1.trans hbc.2.1, hab.2.2.1.trans hbc.2.2.1,
      hab.2.2.2.1.trans hbc.2.2.2.1, hab.2.2.2.2.trans hbc.2.2.2.2⟩
  cases hl : s.ready_list with
  | nil =>
    cases hi : s.idle_thread with
    | none => exact absurd hi (hidle hl)
    | some idle =>
      have hne : s.running ≠ idle := by
        intro h
        apply hnidle
        rw [hi, h]
      obtain ⟨s1, h1, hrun, hrl, hstat, hframe, hsbs, -, -, hsl, -⟩ :=
        schedule_nil (store_status s s.running THREAD_BLOCKED) idle hl hi hst
      refine ⟨s1, h1, ?_, fun u => htrans (hsbs u) (hsame u), hsl, ?_, ?_, ?_, ?_⟩
      · rw [hframe _ hne]; simp [store_status]
      · rw [hrun]; exact fun h => hne h.symm
      · rw [hrun]; exact hstat
      · intro u hu1 hu2
        rw [hrun] at hu2
        rw [hframe u hu2]
        simp [store_status, hu1]
      · right
        exact ⟨rfl, hrl, by rw [hrun]⟩
  | cons front rest =>
    have hne : s.running ≠ front := by
      intro h
      apply hnr
      rw [hl, h]
      exact List.mem_cons_self _ _
    obtain ⟨s1, h1, hrun, hrl, hstat, hframe, hsbs, -, -, hsl, -⟩ :=
      schedule_cons (store_status s s.running THREAD_BLOCKED) front rest hl hst
    refine ⟨s1, h1, ?_, fun u => htrans (hsbs u) (hsame u), hsl, ?_, ?_, ?_, ?_⟩
    · rw [hframe _ hne]; simp [store_status]
    · rw [hrun]; exact fun h => hne h.symm
    · rw [hrun]; exact hstat
    · intro u hu1 hu2
      rw [hrun] at hu2
      rw [hframe u hu2]
      simp [store_status, hu1]
    · left
      rw [hrun, hrl]

/-- The function `thread_sleep` on a well-formed state: the running thread `c` is
not the idle thread and is on neither the sleep list nor the ready list, the
sleep list is ordered, and there is a thread to run. -/
theorem thread_sleep_eq (s : State) (ticks : Int)
    (hcur : (s.threads s.running).status = THREAD_RUNNING)
    (hnidle : some s.running ≠ s.idle_thread)
    (hord : wakeup_ordered s s.sleep_list)
    (hns : s.running ∉ s.sleep_list)
    (hnr : s.running ∉ s.ready_list)
    (hidle : s.ready_list = [] → s.idle_thread ≠ none) :
    ∃ s1, thread_sleep s ticks = some s1 ∧
      (s1.threads s.running).time_to_wakeup = ticks ∧
      (s1.threads s.running).status = THREAD_BLOCKED ∧
      (∃ p q, s.sleep_list = p ++ q ∧ s1.sleep_list = p ++ s.running :: q ∧
        (∀ e ∈ p, (s.threads e).time_to_wakeup ≤ ticks) ∧
        (∀ e ∈ q, ticks < (s.threads e).time_to_wakeup)) ∧
      wakeup_ordered s1 s1.sleep_list ∧
      (∀ u, u ≠ s.running →
        (s1.threads u).time_to_wakeup = (s.threads u).time_to_wakeup) := by
  obtain ⟨p, q, -, hl, hins, hp, hhead⟩ :=
    list_insert_ordered_split (cmp_wakeup_tick (store_time_to_wakeup s s.running ticks))
      s.running s.sleep_list
  have hnp : ∀ e, e ∈ p ∨ e ∈ q → e ≠ s.running := by
    intro e he h
    apply hns
    rw [hl, ← h]
    exact List.mem_append.2 he
  have hpw : (p ++ q).Pairwise
      (fun a b => (s.threads a).time_to_wakeup ≤ (s.threads b).time_to_wakeup) := by
    rw [← hl]; exact hord
  rw [List.pairwise_append] at hpw
  obtain ⟨hpp, hqq, hpq⟩ := hpw
  have hp1 : ∀ e ∈ p, (s.threads e).time_to_wakeup ≤ ticks := by
    intro e he
    have h1 := hp e he
    simp only [cmp_wakeup_tick, store_time_to_wakeup_wakeup, if_true,
      if_neg (hnp e (Or.inl he)), decide_eq_false_iff_not, not_lt] at h1
    exact h1
  have hq1 : ∀ e ∈ q, ticks < (s.threads e).time_to_wakeup := by
    intro e he
    cases q with
    | nil => cases he
    | cons a q =>
      have ha : ticks < (s.threads a).time_to_wakeup := by
        have h1 := hhead a rfl
        simp only [cmp_wakeup_tick, store_time_to_wakeup_wakeup, if_true,
          if_neg (hnp a (Or.inr (List.mem_cons_self _ _))), decide_eq_true_eq] at h1
        exact h1
      rcases List.mem_cons.1 he with rfl | he
      · exact ha
      · exact lt_of_lt_of_le ha ((List.pairwise_cons.1 hqq).1 e he)
  obtain ⟨s1, h1, hblocked, hsbs, hsl, -, -, -, -⟩ := thread_block_eq
    { store_time_to_wakeup s s.running ticks with
      sleep_list :=
        list_insert_ordered s.sleep_list s.running
          (cmp_wakeup_tick (store_time_to_wakeup s s.running ticks)) }
    (by simpa [store_time_to_wakeup] using hcur) hnr hnidle hidle
  have hw : ∀ u, (s1.threads u).time_to_wakeup =
      if u = s.running then ticks else (s.threads u).time_to_wakeup := by
    intro u
    rw [(hsbs u).2.2.2.2]
    exact store_time_to_wakeup_wakeup s s.running ticks u
  have hsl1 : s1.sleep_list = p ++ s.running :: q := by
    rw [hsl]
    simpa using hins
  refine ⟨s1, ?_, ?_, hblocked, ⟨p, q, hl, hsl1, hp1, hq1⟩, ?_, ?_⟩
  · unfold thread_sleep thread_current
    rw [if_pos hcur]
    simp only
    rw [if_neg hnidle]
    exact h1
  · rw [hw, if_pos rfl]
  · unfold wakeup_ordered
    rw [hsl1, List.pairwise_append, List.pairwise_cons]
    refine ⟨?_, ⟨?_, ?_⟩, ?_⟩
    · refine List.Pairwise.imp_of_mem ?_ hpp
      intro a b ha hb hab
      rw [hw, hw, if_neg (hnp a (Or.inl ha)), if_neg (hnp b (Or.inl hb))]
      exact hab
    · intro e he
      rw [hw, hw, if_pos rfl, if_neg (hnp e (Or.inr he))]
      exact le_of_lt (hq1 e he)
    · refine List.Pairwise.imp_of_mem ?_ hqq
      intro a b ha hb hab
      rw [hw, hw, if_neg (hnp a (Or.inr ha)), if_neg (hnp b (Or.inr hb))]
      exact hab
    · intro a ha b hb
      rw [hw a, if_neg (hnp a (Or.inl ha))]
      rcases List.mem_cons.1 hb with rfl | hb
      · rw [hw, if_pos rfl]
        exact hp1 a ha
      · rw [hw, if_neg (hnp b (Or.inr hb))]
        exact hpq a ha b hb
  · intro u hu
    rw [hw, if_neg hu]

/-- C16: for a running thread `c` other than the idle thread (`c` being on no
list, and some thread being there to run next), a tick value `t` and a sleep
list ordered by `time_to_wakeup`, smallest first, `thread_sleep (t)` returns a
state in which `c.time_to_wakeup = t`, `c` is blocked, and `c` stands in the
sleep list behind every sleeper with a deadline `<= t` and in front of every
sleeper with a larger one; the sleep list is ordered again, and among equal
deadlines `c` comes last. -/
theorem thread_sleep_spec (s : State) (ticks : Int)
    (hcur : (s.threads s.running).status = THREAD_RUNNING)
    (hnidle : some s.running ≠ s.idle_thread)
    (hord : wakeup_ordered s s.sleep_list)
    (hns : s.running ∉ s.sleep_list)
    (hnr : s.running ∉ s.ready_list)
    (hidle : s.ready_list = [] → s.idle_thread ≠ none) :
    ∃ s1, thread_sleep s ticks = some s1 ∧
      (s1.threads s.running).time_to_wakeup = ticks ∧
      (s1.threads s.running).status = THREAD_BLOCKED ∧
      (∃ p q, s.sleep_list = p ++ q ∧ s1.sleep_list = p ++ s.running :: q ∧
        (∀ e ∈ p, (s.threads e).time_to_wakeup ≤ ticks) ∧
        (∀ e ∈ q, ticks < (s.threads e).time_to_wakeup)) ∧
      wakeup_ordered s1 s1.sleep_list ∧
      (∀ u, u ≠ s.running →
        (s1.threads u).time_to_wakeup = (s.threads u).time_to_wakeup) :=
  thread_sleep_eq s ticks hcur hnidle hord hns hnr hidle

/-- Witness of C16: the running thread of `sleepers_state` sleeps until tick 10,
the deadline of two of the three sleepers. -/
theorem thread_sleep_spec_witness :
    (sleepers_state.threads sleepers_state.running).status = THREAD_RUNNING ∧
    some sleepers_state.running ≠ sleepers_state.idle_thread ∧
    wakeup_ordered sleepers_state sleepers_state.sleep_list ∧
    sleepers_state.running ∉ sleepers_state.sleep_list ∧
    sleepers_state.running ∉ sleepers_state.ready_list ∧
    ∃ s1, thread_sleep sleepers_state 10 = some s1 ∧
      (s1.threads sleepers_state.running).time_to_wakeup = 10 ∧
      (s1.threads sleepers_state.running).status = THREAD_BLOCKED ∧
      (∃ p q, sleepers_state.sleep_list = p ++ q ∧
        s1.sleep_list = p ++ sleepers_state.running :: q ∧
        (∀ e ∈ p, (sleepers_state.threads e).time_to_wakeup ≤ 10) ∧
        (∀ e ∈ q, 10 < (sleepers_state.threads e).time_to_wakeup)) ∧
      wakeup_ordered s1 s1.sleep_list ∧
      (∀ u, u ≠ sleepers_state.running →
        (s1.threads u).time_to_wakeup = (sleepers_state.threads u).time_to_wakeup) :=
  ⟨by decide, by decide, by decide, by decide, by decide,
    thread_sleep_spec sleepers_state 10 (by decide) (by decide) (by decide) (by decide)
      (by decide) (by decide)⟩

/-! ## `thread_awake` -/

/-- The function `thread_unblock` on a blocked thread, for arbitrary priorities: the
thread becomes ready and joins the ready list; nothing else changes. -/
theorem thread_unblock_eq (s : State) (t : Tid)
    (hb : (s.threads t).status = THREAD_BLOCKED) :
    ∃ s1, thread_unblock s t = some s1 ∧
      s1.ready_list = list_insert_ordered s.ready_list t (compare_thread_priority s) ∧
      (s1.threads t).status = THREAD_READY ∧
      (∀ u, u ≠ t → s1.threads u = s.threads u) ∧
      (∀ u, same_but_status (s1.threads u) (s.threads u)) ∧
      (∀ u, u ∈ s1.ready_list ↔ u ∈ s.ready_list ∨ u = t) ∧
      s1.running = s.running ∧ s1.sleep_list = s.sleep_list ∧
      s1.destruction_req = s.destruction_req ∧ s1.idle_thread = s.idle_thread ∧
      s1.initial_thread = s.initial_thread ∧ s1.locks = s.locks := by
  unfold thread_unblock
  rw [if_pos hb]
  refine ⟨_, rfl, rfl, ?_, ?_, ?_, ?_, rfl, rfl, rfl, rfl, rfl, rfl⟩
  · simp [store_status]
  · intro u hu; simp [store_status, hu]
  · intro u
    by_cases hu : u = t <;> simp [store_status, same_but_status, hu]
  · intro u
    obtain ⟨p, q, -, hl, hins, -, -⟩ :=
      list_insert_ordered_split (compare_thread_priority s) t s.ready_list
    show u ∈ list_insert_ordered s.ready_list t (compare_thread_priority s) ↔ _
    rw [hins, hl]
    simp only [List.mem_append, List.mem_singleton]
    tauto

/-- On a list ordered by `time_to_wakeup` the sleepers that are due form a
prefix: `takeWhile` and `dropWhile` of the test `time_to_wakeup <= now` are the
two `filter`s. -/
theorem wakeup_ordered_split (s : State) (now : Int) (l : List Tid)
    (hord : wakeup_ordered s l) :
    l.takeWhile (fun u => decide ((s.threads u).time_to_wakeup ≤ now)) =
      l.filter (fun u => decide ((s.threads u).time_to_wakeup ≤ now)) ∧
    l.dropWhile (fun u => decide ((s.threads u).time_to_wakeup ≤ now)) =
      l.filter (fun u => decide (now < (s.threads u).time_to_wakeup)) := by
  induction l with
  | nil => simp
  | cons a rest ih =>
    unfold wakeup_ordered at hord ih
    have hrest := (List.pairwise_cons.1 hord).2
    have hall := (List.pairwise_cons.1 hord).1
    obtain ⟨ih1, ih2⟩ := ih hrest
    by_cases ha : (s.threads a).time_to_wakeup ≤ now
    · constructor
      · rw [List.takeWhile_cons, List.filter_cons]
        simp only [ha, decide_True, if_true]
        rw [ih1]
      · rw [List.dropWhile_cons, List.filter_cons]
        simp only [ha, decide_True, if_true, not_lt.2 ha, decide_False]
        rw [ih2]
        simp
    · have hlate : ∀ b ∈ rest, now < (s.threads b).time_to_wakeup :=
        fun b hb => lt_of_lt_of_le (not_le.1 ha) (hall b hb)
      have hnil : rest.filter (fun u => decide ((s.threads u).time_to_wakeup ≤ now)) = [] := by
        rw [List.filter_eq_nil_iff]
        intro b hb
        simpa using hlate b hb
      have hself : rest.filter (fun u => decide (now < (s.threads u).time_to_wakeup)) = rest := by
        rw [List.filter_eq_self]
        intro b hb
        simpa using hlate b hb
      constructor
      · simp [List.takeWhile_cons, List.filter_cons, ha, hnil]
      · simp [List.dropWhile_cons, List.filter_cons, ha, not_le.1 ha, hself]

/-- The loop of `thread_awake` on the sleep list `l`: when the due sleepers at the
front of `l` are blocked and pairwise different, the loop returns; it has
removed them from the sleep list and made them ready, and has changed nothing
else but the ready list. -/
theorem thread_awake_loop_eq (ticks : Int) :
    ∀ (l : List Tid) (s : State), s.sleep_list = l →
      (∀ u ∈ l.takeWhile (fun u => decide ((s.threads u).time_to_wakeup ≤ ticks)),
        (s.threads u).status = THREAD_BLOCKED) →
      (l.takeWhile (fun u => decide ((s.threads u).time_to_wakeup ≤ ticks))).Nodup →
      ∃ s1, thread_awake_loop ticks l s = some s1 ∧
        s1.sleep_list = l.dropWhile (fun u => decide ((s.threads u).time_to_wakeup ≤ ticks)) ∧
        (∀ u ∈ l.takeWhile (fun u => decide ((s.threads u).time_to_wakeup ≤ ticks)),
          (s1.threads u).status = THREAD_READY) ∧
        (∀ u, u ∉ l.takeWhile (fun u => decide ((s.threads u).time_to_wakeup ≤ ticks)) →
          s1.threads u = s.threads u) ∧
        (∀ u, same_but_status (s1.threads u) (s.threads u)) ∧
        (∀ u, u ∈ s1.ready_list ↔ u ∈ s.ready_list ∨
          u ∈ l.takeWhile (fun u => decide ((s.threads u).time_to_wakeup ≤ ticks))) ∧
        s1.running = s.running ∧ s1.destruction_req = s.destruction_req ∧
        s1.idle_thread = s.idle_thread ∧ s1.initial_thread = s.initial_thread ∧
        s1.locks = s.locks := by
  intro l
  induction l with
  | nil =>
    intro s hsl _ _
    refine ⟨s, rfl, by simpa using hsl, by simp, fun _ _ => rfl,
      fun _ => ⟨rfl, rfl, rfl, rfl, rfl⟩, by simp, rfl, rfl, rfl, rfl, rfl⟩
  | cons t next ih =>
    intro s hsl hblk hnd
    unfold thread_awake_loop
    by_cases hdue : (s.threads t).time_to_wakeup ≤ ticks
    · rw [if_pos hdue]
      have htw : (t :: next).takeWhile
          (fun u => decide ((s.threads u).time_to_wakeup ≤ ticks)) =
          t :: next.takeWhile (fun u => decide ((s.threads u).time_to_wakeup ≤ ticks)) := by
        simp [List.takeWhile_cons, hdue]
      have hdw : (t :: next).dropWhile
          (fun u => decide ((s.threads u).time_to_wakeup ≤ ticks)) =
          next.dropWhile (fun u => decide ((s.threads u).time_to_wakeup ≤ ticks)) := by
        simp [List.dropWhile_cons, hdue]
      rw [htw] at hblk hnd
      rw [htw, hdw]
      obtain ⟨s1, h1, -, hready, hframe, hsbs, hmem, hrun, hsl1, hdr, hit, hint, hlk⟩ :=
        thread_unblock_eq { s with sleep_list := next } t
          (hblk t (List.mem_cons_self _ _))
      rw [h1]
      simp only
      have hfun : (fun u => decide ((s1.threads u).time_to_wakeup ≤ ticks)) =
          (fun u => decide ((s.threads u).time_to_wakeup ≤ ticks)) := by
        funext u
        rw [(hsbs u).2.2.2.2]
      have hnt : t ∉ next.takeWhile
          (fun u => decide ((s.threads u).time_to_wakeup ≤ ticks)) :=
        (List.nodup_cons.1 hnd).1
      obtain ⟨s2, h2, hsl2, hready2, hframe2, hsbs2, hmem2, hrun2, hdr2, hit2, hint2, hlk2⟩ :=
        ih s1 hsl1
          (by
            rw [hfun]
            intro u hu
            have hne : u ≠ t := fun h => hnt (h ▸ hu)
            rw [hframe u hne]
            exact hblk u (List.mem_cons_of_mem _ hu))
          (by rw [hfun]; exact (List.nodup_cons.1 hnd).2)
      rw [hfun] at hsl2 hready2 hframe2 hmem2
      refine ⟨s2, h2, hsl2, ?_, ?_, ?_, ?_, hrun2.trans hrun, hdr2.trans hdr,
        hit2.trans hit, hint2.trans hint, hlk2.trans hlk⟩
      · intro u hu
        rcases List.mem_cons.1 hu with rfl | hu
        · rw [hframe2 u hnt]; exact hready
        · exact hready2 u hu
      · intro u hu
        have hne : u ≠ t := fun h => hu (h ▸ List.mem_cons_self _ _)
        have hnn : u ∉ next.takeWhile
            (fun u => decide ((s.threads u).time_to_wakeup ≤ ticks)) :=
          fun h => hu (List.mem_cons_of_mem _ h)
        rw [hframe2 u hnn, hframe u hne]
      · intro u
        obtain ⟨a1, a2, a3, a4, a5⟩ := hsbs2 u
        obtain ⟨b1, b2, b3, b4, b5⟩ := hsbs u
        exact ⟨a1.trans b1, a2.trans b2, a3.trans b3, a4.trans b4, a5.trans b5⟩
      · intro u
        rw [hmem2, hmem, List.mem_cons]
        tauto
    · rw [if_neg hdue]
      have htw : (t :: next).takeWhile
          (fun u => decide ((s.threads u).time_to_wakeup ≤ ticks)) = [] := by
        simp [List.takeWhile_cons, hdue]
      have hdw : (t :: next).dropWhile
          (fun u => decide ((s.threads u).time_to_wakeup ≤ ticks)) = t :: next := by
        simp [List.dropWhile_cons, hdue]
      rw [htw, hdw]
      refine ⟨s, rfl, hsl, by simp, fun _ _ => rfl,
        fun _ => ⟨rfl, rfl, rfl, rfl, rfl⟩, by simp, rfl, rfl, rfl, rfl, rfl⟩

/-- The function `thread_awake` on an ordered sleep list of pairwise different
blocked threads: it returns, the sleepers that are due are ready and on the
ready list, the others stay on the sleep list in their order, and no other
thread changes. -/
theorem thread_awake_eq (s : State) (now : Int)
    (hord : wakeup_ordered s s.sleep_list)
    (hblk : ∀ u ∈ s.sleep_list, (s.threads u).status = THREAD_BLOCKED)
    (hnd : s.sleep_list.Nodup) :
    ∃ s1, thread_awake s now = some s1 ∧
      s1.sleep_list =
        s.sleep_list.filter (fun u => decide (now < (s.threads u).time_to_wakeup)) ∧
      (∀ u ∈ s.sleep_list, (s.threads u).time_to_wakeup ≤ now →
        (s1.threads u).status = THREAD_READY ∧ u ∈ s1.ready_list ∧ u ∉ s1.sleep_list) ∧
      (∀ u, ¬ (u ∈ s.sleep_list ∧ (s.threads u).time_to_wakeup ≤ now) →
        s1.threads u = s.threads u) ∧
      (∀ u, same_but_status (s1.threads u) (s.threads u)) ∧
      (∀ u, u ∈ s1.ready_list ↔ u ∈ s.ready_list ∨
        (u ∈ s.sleep_list ∧ (s.threads u).time_to_wakeup ≤ now)) ∧
      s1.running = s.running := by
  obtain ⟨htake, hdrop⟩ := wakeup_ordered_split s now s.sleep_list hord
  have hmemf : ∀ u, u ∈ s.sleep_list.takeWhile
      (fun u => decide ((s.threads u).time_to_wakeup ≤ now)) ↔
      (u ∈ s.sleep_list ∧ (s.threads u).time_to_wakeup ≤ now) := by
    intro u
    rw [htake, List.mem_filter]
    simp
  obtain ⟨s1, h1, hsl, hready, hframe, hsbs, hmem, hrun, -⟩ :=
    thread_awake_loop_eq now s.sleep_list s rfl
      (fun u hu => hblk u ((hmemf u).1 hu).1)
      (by rw [htake]; exact hnd.filter _)
  rw [hdrop] at hsl
  refine ⟨s1, h1, hsl, ?_, ?_, hsbs, ?_, hrun⟩
  · intro u hu hdue
    refine ⟨hready u ((hmemf u).2 ⟨hu, hdue⟩),
      (hmem u).2 (Or.inr ((hmemf u).2 ⟨hu, hdue⟩)), ?_⟩
    rw [hsl, List.mem_filter]
    intro h
    have : now < (s.threads u).time_to_wakeup := by simpa using h.2
    exact absurd hdue (not_le.2 this)
  · intro u hu
    exact hframe u (fun h => hu ((hmemf u).1 h))
  · intro u
    rw [hmem, hmemf]

/-- C17: for a tick value `now` and a sleep list that is ordered by
`time_to_wakeup`, smallest first (of blocked, pairwise different threads),
`thread_awake (now)` returns; it has removed from the sleep list and unblocked
exactly the threads with `time_to_wakeup <= now`, which are ready and on the
ready list, and has left on the sleep list, in their order, exactly the threads
with `time_to_wakeup > now`.  No other thread structure changes, so no sleeper
is made ready before its deadline. -/
theorem thread_awake_spec (s : State) (now : Int)
    (hord : wakeup_ordered s s.sleep_list)
    (hblk : ∀ u ∈ s.sleep_list, (s.threads u).status = THREAD_BLOCKED)
    (hnd : s.sleep_list.Nodup) :
    ∃ s1, thread_awake s now = some s1 ∧
      s1.sleep_list =
        s.sleep_list.filter (fun u => decide (now < (s.threads u).time_to_wakeup)) ∧
      (∀ u ∈ s.sleep_list, (s.threads u).time_to_wakeup ≤ now →
        (s1.threads u).status = THREAD_READY ∧ u ∈ s1.ready_list ∧ u ∉ s1.sleep_list) ∧
      (∀ u ∈ s.sleep_list, now < (s.threads u).time_to_wakeup →
        (s1.threads u).status = THREAD_BLOCKED ∧ u ∈ s1.sleep_list) ∧
      (∀ u, ¬ (u ∈ s.sleep_list ∧ (s.threads u).time_to_wakeup ≤ now) →
        s1.threads u = s.threads u) ∧
      (∀ u, u ∈ s1.ready_list ↔ u ∈ s.ready_list ∨
        (u ∈ s.sleep_list ∧ (s.threads u).time_to_wakeup ≤ now)) := by
  obtain ⟨s1, h1, hsl, hdue, hframe, -, hmem, -⟩ := thread_awake_eq s now hord hblk hnd
  refine ⟨s1, h1, hsl, hdue, ?_, hframe, hmem⟩
  intro u hu hlate
  constructor
  · rw [hframe u (fun h => absurd h.2 (not_le.2 hlate))]
    exact hblk u hu
  · rw [hsl, List.mem_filter]
    exact ⟨hu, by simpa using hlate⟩

/-- Witness of C17: `sleepers_state` at tick 10, when two of its three sleepers
are due. -/
theorem thread_awake_spec_witness :
    wakeup_ordered sleepers_state sleepers_state.sleep_list ∧
    (∀ u ∈ sleepers_state.sleep_list,
      (sleepers_state.threads u).status = THREAD_BLOCKED) ∧
    sleepers_state.sleep_list.Nodup ∧
    ∃ s1, thread_awake sleepers_state 10 = some s1 ∧
      s1.sleep_list = sleepers_state.sleep_list.filter
        (fun u => decide (10 < (sleepers_state.threads u).time_to_wakeup)) :=
  let ⟨s1, h1, hsl, _⟩ :=
    thread_awake_spec sleepers_state 10 (by decide) (by decide) (by decide)
  ⟨by decide, by decide, by decide, s1, h1, hsl⟩

/-- Inserting a thread in front of threads of lower priority only appends it to
the threads of its own priority and leaves the threads of every other priority
as they are. -/
theorem filter_priority_insert (f : Tid → Int) (x : Int) (t : Tid) (p q : List Tid)
    (hq : ∀ e ∈ q, f e < f t) :
    (p ++ t :: q).filter (fun u => decide (f u = x)) =
      (p ++ q).filter (fun u => decide (f u = x)) ++ [t].filter (fun u => decide (f u = x)) := by
  by_cases htx : f t = x
  · have hqn : q.filter (fun u => decide (f u = x)) = [] := by
      rw [List.filter_eq_nil_iff]
      intro e he
      have := hq e he
      simp only [decide_eq_true_eq]
      omega
    simp [List.filter_append, List.filter_cons, htx, hqn]
  · simp [List.filter_append, List.filter_cons, htx]

/-- With priorities in `[PRI_MIN, PRI_MAX]`, the loop of `thread_awake` keeps the
ready list ordered by priority, and for every priority `x` it appends the woken
threads of priority `x`, in their sleep-list order, to the ready threads of
priority `x`. -/
theorem thread_awake_loop_of_range (ticks : Int) :
    ∀ (l : List Tid) (s : State), s.sleep_list = l →
      (∀ u ∈ l.takeWhile (fun u => decide ((s.threads u).time_to_wakeup ≤ ticks)),
        (s.threads u).status = THREAD_BLOCKED) →
      (l.takeWhile (fun u => decide ((s.threads u).time_to_wakeup ≤ ticks))).Nodup →
      priority_ordered s s.ready_list →
      (∀ u ∈ s.ready_list, priority_in_range s u) →
      (∀ u ∈ l.takeWhile (fun u => decide ((s.threads u).time_to_wakeup ≤ ticks)),
        priority_in_range s u) →
      ∃ s1, thread_awake_loop ticks l s = some s1 ∧
        priority_ordered s1 s1.ready_list ∧
        (∀ x : Int, s1.ready_list.filter (fun u => decide ((s.threads u).priority = x)) =
          s.ready_list.filter (fun u => decide ((s.threads u).priority = x)) ++
          (l.takeWhile (fun u => decide ((s.threads u).time_to_wakeup ≤ ticks))).filter
            (fun u => decide ((s.threads u).priority = x))) := by
  intro l
  induction l with
  | nil =>
    intro s _ _ _ hord _ _
    exact ⟨s, rfl, hord, by simp⟩
  | cons t next ih =>
    intro s hsl hblk hnd hord hrr hrt
    unfold thread_awake_loop
    by_cases hdue : (s.threads t).time_to_wakeup ≤ ticks
    · rw [if_pos hdue]
      have htw : (t :: next).takeWhile
          (fun u => decide ((s.threads u).time_to_wakeup ≤ ticks)) =
          t :: next.takeWhile (fun u => decide ((s.threads u).time_to_wakeup ≤ ticks)) := by
        simp [List.takeWhile_cons, hdue]
      rw [htw] at hblk hnd hrt
      simp only [htw]
      have hbt := hblk t (List.mem_cons_self _ _)
      obtain ⟨s1, h1, -, ⟨p, q, hpq, hins, hp, hq⟩, hord1, hsbs, hframe, -⟩ :=
        thread_unblock_of_range { s with sleep_list := next } t hbt hord
          (hrt t (List.mem_cons_self _ _)) hrr
      obtain ⟨s1', h1', -, -, -, -, hmem, -, hsl1, -⟩ :=
        thread_unblock_eq { s with sleep_list := next } t hbt
      have hs : s1' = s1 := Option.some.inj (h1'.symm.trans h1)
      subst hs
      rw [h1]
      simp only
      have hprio : ∀ u, (s1'.threads u).priority = (s.threads u).priority :=
        fun u => (hsbs u).1
      have hfun : (fun u => decide ((s1'.threads u).time_to_wakeup ≤ ticks)) =
          (fun u => decide ((s.threads u).time_to_wakeup ≤ ticks)) := by
        funext u
        rw [(hsbs u).2.2.2.2]
      have hfunp : ∀ x : Int, (fun u => decide ((s1'.threads u).priority = x)) =
          (fun u => decide ((s.threads u).priority = x)) := by
        intro x
        funext u
        rw [hprio]
      have hnt : t ∉ next.takeWhile
          (fun u => decide ((s.threads u).time_to_wakeup ≤ ticks)) :=
        (List.nodup_cons.1 hnd).1
      have hrange : ∀ u, priority_in_range s u → priority_in_range s1' u := by
        intro u hu
        unfold priority_in_range at hu ⊢
        rw [hprio]
        exact hu
      obtain ⟨s2, h2, hord2, hfil2⟩ :=
        ih s1' hsl1
          (by
            rw [hfun]
            intro u hu
            have hne : u ≠ t := fun h => hnt (h ▸ hu)
            rw [hframe u hne]
            exact hblk u (List.mem_cons_of_mem _ hu))
          (by rw [hfun]; exact (List.nodup_cons.1 hnd).2)
          hord1
          (by
            intro u hu
            rcases (hmem u).1 hu with h | h
            · exact hrange u (hrr u h)
            · rw [h]; exact hrange t (hrt t (List.mem_cons_self _ _)))
          (by
            rw [hfun]
            intro u hu
            exact hrange u (hrt u (List.mem_cons_of_mem _ hu)))
      refine ⟨s2, h2, hord2, ?_⟩
      intro x
      have h := hfil2 x
      rw [hfun, hfunp x] at h
      rw [h, hins]
      have hrl : s.ready_list = p ++ q := hpq
      rw [hrl, filter_priority_insert (fun u => (s.threads u).priority) x t p q hq,
        List.append_assoc, ← List.filter_append]
      rfl
    · rw [if_neg hdue]
      have htw : (t :: next).takeWhile
          (fun u => decide ((s.threads u).time_to_wakeup ≤ ticks)) = [] := by
        simp [List.takeWhile_cons, hdue]
      simp only [htw]
      exact ⟨s, rfl, hord, by simp⟩

/-- C18 on a negative priority: in `negative_sleeper_state` the ready list is
`[1]` with thread `1` at priority 5, and the sleeper `2` has priority `-1` and
the deadline 0.  The ready list is ordered by priority and the sleep list by
deadline, but `thread_awake (0)` hands thread `2` to `thread_unblock`, whose
comparator takes `-1` for the highest address: the ready list becomes `[2, 1]`,
which is not ordered by priority, highest first. -/
theorem thread_awake_negative_priority :
    priority_ordered negative_sleeper_state negative_sleeper_state.ready_list ∧
    wakeup_ordered negative_sleeper_state negative_sleeper_state.sleep_list ∧
    negative_sleeper_state.sleep_list = [2] ∧
    (negative_sleeper_state.threads 2).status = THREAD_BLOCKED ∧
    (negative_sleeper_state.threads 2).priority = -1 ∧
    (negative_sleeper_state.threads 1).priority = 5 ∧
    (thread_awake negative_sleeper_state 0).map (fun s => s.ready_list) = some [2, 1] ∧
    (thread_awake negative_sleeper_state 0).map
      (fun s => decide (priority_ordered s s.ready_list)) = some false := by
  decide

/-- With priorities in `[PRI_MIN, PRI_MAX]`, `thread_awake` leaves the ready list
ordered by priority, and for every priority `x` the ready threads of priority
`x` are the former ones followed by the woken ones, in their sleep-list
order. -/
theorem thread_awake_of_range (s : State) (now : Int)
    (hords : wakeup_ordered s s.sleep_list)
    (hblk : ∀ u ∈ s.sleep_list, (s.threads u).status = THREAD_BLOCKED)
    (hnd : s.sleep_list.Nodup)
    (hord : priority_ordered s s.ready_list)
    (hrange : ∀ u, priority_in_range s u) :
    ∃ s1, thread_awake s now = some s1 ∧
      priority_ordered s1 s1.ready_list ∧
      (∀ x : Int, s1.ready_list.filter (fun u => decide ((s.threads u).priority = x)) =
        s.ready_list.filter (fun u => decide ((s.threads u).priority = x)) ++
        (s.sleep_list.filter (fun u => decide ((s.threads u).time_to_wakeup ≤ now))).filter
          (fun u => decide ((s.threads u).priority = x))) := by
  obtain ⟨htake, -⟩ := wakeup_ordered_split s now s.sleep_list hords
  have hsub : ∀ u ∈ s.sleep_list.takeWhile
      (fun u => decide ((s.threads u).time_to_wakeup ≤ now)), u ∈ s.sleep_list :=
    fun u hu => (List.takeWhile_sublist _).subset hu
  obtain ⟨s1, h1, ho, hf⟩ := thread_awake_loop_of_range now s.sleep_list s rfl
    (fun u hu => hblk u (hsub u hu))
    (hnd.sublist (List.takeWhile_sublist _))
    hord (fun u _ => hrange u) (fun u _ => hrange u)
  rw [htake] at hf
  exact ⟨s1, h1, ho, hf⟩

/-! ## The status invariants -/

/-- What `schedule` does when it returns: the thread `next` that runs afterwards
is marked running, it was the front of the ready list or, with an empty ready
list, the idle thread, and no other thread structure changes. -/
theorem schedule_returns (s s1 : State) (h : schedule s = some s1) :
    (s.threads s.running).status ≠ THREAD_RUNNING ∧
    (s1.threads s1.running).status = THREAD_RUNNING ∧
    (∀ u, u ≠ s1.running → s1.threads u = s.threads u) ∧
    (s.ready_list = s1.running :: s1.ready_list ∨
      (s.ready_list = [] ∧ s1.ready_list = [] ∧ s.idle_thread = some s1.running)) := by
  have hcur : (s.threads s.running).status ≠ THREAD_RUNNING := by
    intro hc
    unfold schedule next_thread_to_run at h
    cases hl : s.ready_list with
    | nil =>
      rw [hl] at h
      cases hi : s.idle_thread with
      | none => rw [hi] at h; simp at h
      | some idle => rw [hi] at h; simp [hc] at h
    | cons front rest =>
      rw [hl] at h
      simp [hc] at h
  refine ⟨hcur, ?_⟩
  cases hl : s.ready_list with
  | nil =>
    cases hi : s.idle_thread with
    | none =>
      unfold schedule next_thread_to_run at h
      rw [hl] at h
      simp [hi] at h
    | some idle =>
      obtain ⟨s2, h2, hrun, hrl, hstat, hframe, -⟩ := schedule_nil s idle hl hi hcur
      have : s1 = s2 := Option.some.inj (h.symm.trans h2)
      subst this
      refine ⟨by rw [hrun]; exact hstat, by rw [hrun]; exact hframe, Or.inr ⟨rfl, hrl, ?_⟩⟩
      rw [hrun]
  | cons front rest =>
    obtain ⟨s2, h2, hrun, hrl, hstat, hframe, -⟩ := schedule_cons s front rest hl hcur
    have : s1 = s2 := Option.some.inj (h.symm.trans h2)
    subst this
    refine ⟨by rw [hrun]; exact hstat, by rw [hrun]; exact hframe, Or.inl ?_⟩
    rw [hrun, hrl]

/-- The function `schedule` returns when the current thread is no longer running
and there is a thread to run. -/
theorem schedule_some (s : State)
    (hcur : (s.threads s.running).status ≠ THREAD_RUNNING)
    (hnext : s.ready_list ≠ [] ∨ s.idle_thread ≠ none) :
    ∃ s1, schedule s = some s1 := by
  cases hl : s.ready_list with
  | nil =>
    cases hi : s.idle_thread with
    | none =>
      rcases hnext with h | h
      · exact absurd hl h
      · exact absurd hi h
    | some idle =>
      obtain ⟨s1, h1, -⟩ := schedule_nil s idle hl hi hcur
      exact ⟨s1, h1⟩
  | cons front rest =>
    obtain ⟨s1, h1, -⟩ := schedule_cons s front rest hl hcur
    exact ⟨s1, h1⟩

/-- Exactly one thread is running, and it is the current one, when the status
`THREAD_RUNNING` characterises the current thread. -/
theorem one_running_iff (s : State) :
    one_running s ↔ ∀ u, (s.threads u).status = THREAD_RUNNING ↔ u = s.running := by
  constructor
  · rintro ⟨⟨v, hv, huniq⟩, hrun⟩ u
    constructor
    · intro hu
      rw [huniq u hu, huniq s.running hrun]
    · intro hu
      rw [hu]
      exact hrun
  · intro h
    exact ⟨⟨s.running, (h _).2 rfl, fun u hu => (h u).1 hu⟩, (h _).2 rfl⟩

/-- After `schedule`, entered in a state in which no thread is marked running,
exactly the thread that runs is marked running. -/
theorem schedule_one_running (s s1 : State) (hno : ∀ u, (s.threads u).status ≠ THREAD_RUNNING)
    (h : schedule s = some s1) : one_running s1 := by
  obtain ⟨-, hstat, hframe, -⟩ := schedule_returns s s1 h
  rw [one_running_iff]
  intro u
  constructor
  · intro hu
    by_contra hne
    rw [hframe u hne] at hu
    exact hno u hu
  · intro hu
    rw [hu]
    exact hstat

/-- After a store of a status other than `THREAD_RUNNING` to the only running
thread, no thread is marked running. -/
theorem store_status_none_running (s : State) (st : thread_status)
    (hone : one_running s) (hst : st ≠ THREAD_RUNNING) (u : Tid) :
    ((store_status s s.running st).threads u).status ≠ THREAD_RUNNING := by
  by_cases hu : u = s.running
  · simp [store_status, hu, hst]
  · simp only [store_status, hu, if_false]
    exact fun h => hu (((one_running_iff s).1 hone u).1 h)

/-- The function `thread_block` is `schedule` entered with the current thread blocked. -/
theorem thread_block_unfold (s : State)
    (hcur : (s.threads s.running).status = THREAD_RUNNING) :
    thread_block s = schedule (store_status s s.running THREAD_BLOCKED) := by
  unfold thread_block thread_current
  rw [if_pos hcur]

/-- The function `thread_exit` is `schedule` entered with the current thread dying and
an empty destruction list, followed by the panic of `NOT_REACHED` when the
caller still runs. -/
theorem thread_exit_unfold (s : State)
    (hcur : (s.threads s.running).status = THREAD_RUNNING) :
    thread_exit s =
      match schedule (store_status { s with destruction_req := [] } s.running THREAD_DYING) with
      | none => none
      | some s1 => if s1.running = s.running then none else some s1 := by
  unfold thread_exit do_schedule thread_current
  rw [if_pos hcur]

/-- When `thread_exit` returns a state, the caller was running, the state is the
one `schedule` left, and another thread runs. -/
theorem thread_exit_returns (s s1 : State) (h : thread_exit s = some s1) :
    (s.threads s.running).status = THREAD_RUNNING ∧
    schedule (store_status { s with destruction_req := [] } s.running THREAD_DYING) = some s1 ∧
    s1.running ≠ s.running := by
  have hcur : (s.threads s.running).status = THREAD_RUNNING := by
    by_contra hc
    simp [thread_exit, do_schedule, thread_current, hc] at h
  rw [thread_exit_unfold s hcur] at h
  cases hs : schedule (store_status { s with destruction_req := [] } s.running THREAD_DYING) with
  | none => rw [hs] at h; cases h
  | some s2 =>
    rw [hs] at h
    simp only at h
    by_cases he : s2.running = s.running
    · rw [if_pos he] at h
      cases h
    · rw [if_neg he] at h
      have e := Option.some.inj h
      subst e
      exact ⟨hcur, rfl, he⟩

/-- The thread that runs after `schedule` is the thread `next_thread_to_run`
chose. -/
theorem schedule_next (s s1 : State) (h : schedule s = some s1) :
    (next_thread_to_run s).1 = some s1.running := by
  obtain ⟨-, -, -, hcase⟩ := schedule_returns s s1 h
  unfold next_thread_to_run
  rcases hcase with hl | ⟨hl, -, hi⟩
  · rw [hl]
  · rw [hl]
    exact hi

/-- The choice of `next_thread_to_run` at the entry of `schedule` from
`do_schedule` is its choice in the state of the call. -/
theorem next_thread_to_run_entry (s : State) (st : thread_status) :
    (next_thread_to_run (store_status { s with destruction_req := [] } s.running st)).1 =
      (next_thread_to_run s).1 := by
  unfold next_thread_to_run
  cases hl : s.ready_list <;> simp [store_status, hl]

/-- The function `thread_exit` returns a state when there is a thread to run next and
it is not the caller. -/
theorem thread_exit_some (s : State)
    (hcur : (s.threads s.running).status = THREAD_RUNNING)
    (hnext : s.ready_list ≠ [] ∨ s.idle_thread ≠ none)
    (hnot : (next_thread_to_run s).1 ≠ some s.running) :
    ∃ s1, thread_exit s = some s1 ∧
      schedule (store_status { s with destruction_req := [] } s.running THREAD_DYING) =
        some s1 := by
  obtain ⟨s1, h1⟩ := schedule_some
    (store_status { s with destruction_req := [] } s.running THREAD_DYING)
    (by simp [store_status]) hnext
  refine ⟨s1, ?_, h1⟩
  rw [thread_exit_unfold s hcur, h1]
  simp only
  rw [if_neg]
  intro he
  apply hnot
  have := schedule_next _ s1 h1
  rw [next_thread_to_run_entry] at this
  rw [← he]
  exact this

/-- The function `thread_exit` panics in `NOT_REACHED` when the thread chosen to run
next is the caller itself. -/
theorem thread_exit_not_reached (s : State)
    (hself : (next_thread_to_run s).1 = some s.running) : thread_exit s = none := by
  by_cases hcur : (s.threads s.running).status = THREAD_RUNNING
  · rw [thread_exit_unfold s hcur]
    cases hs : schedule (store_status { s with destruction_req := [] } s.running THREAD_DYING) with
    | none => rfl
    | some s1 =>
      simp only
      rw [if_pos]
      have := schedule_next _ s1 hs
      rw [next_thread_to_run_entry, hself] at this
      exact (Option.some.inj this).symm
  · simp [thread_exit, do_schedule, thread_current, hcur]

/-- The function `thread_yield` is `schedule` entered with the current thread ready
and, unless it is the idle thread, inserted into the ready list, and with an
empty destruction list. -/
theorem thread_yield_unfold (s : State)
    (hcur : (s.threads s.running).status = THREAD_RUNNING) :
    thread_yield s =
      schedule (store_status
        { s with
          ready_list :=
            if some s.running ≠ s.idle_thread then
              list_insert_ordered s.ready_list s.running (compare_thread_priority s)
            else s.ready_list
          destruction_req := [] } s.running THREAD_READY) := by
  unfold thread_yield thread_current
  rw [if_pos hcur]
  unfold do_schedule thread_current
  simp only
  rw [if_pos hcur]

/-- The functions `thread_block`, `thread_exit` and `thread_yield` return only when
the current thread has the status `THREAD_RUNNING`. -/
theorem scheduling_entry_running (s : State) :
    (∀ s1, thread_block s = some s1 → (s.threads s.running).status = THREAD_RUNNING) ∧
    (∀ s1, thread_exit s = some s1 → (s.threads s.running).status = THREAD_RUNNING) ∧
    (∀ s1, thread_yield s = some s1 → (s.threads s.running).status = THREAD_RUNNING) := by
  refine ⟨?_, ?_, ?_⟩
  · intro s1 h
    by_contra hc
    simp [thread_block, thread_current, hc] at h
  · intro s1 h
    by_contra hc
    simp [thread_exit, do_schedule, thread_current, hc] at h
  · intro s1 h
    by_contra hc
    simp [thread_yield, thread_current, hc] at h

/-- The function `thread_unblock` returns only on a blocked thread. -/
theorem thread_unblock_blocked (s s1 : State) (t : Tid) (h : thread_unblock s t = some s1) :
    (s.threads t).status = THREAD_BLOCKED := by
  by_contra hc
  simp [thread_unblock, hc] at h

/-- What the loop of `thread_awake` does when it returns: it has unblocked the
threads of a list `woken` of blocked threads, which are ready and have joined
the ready list, and has changed no other thread structure. -/
theorem thread_awake_loop_returns (ticks : Int) :
    ∀ (l : List Tid) (s s1 : State), thread_awake_loop ticks l s = some s1 →
      s1.running = s.running ∧
      ∃ woken : List Tid,
        (∀ u ∈ woken, (s.threads u).status = THREAD_BLOCKED ∧
          (s1.threads u).status = THREAD_READY) ∧
        (∀ u, u ∉ woken → s1.threads u = s.threads u) ∧
        woken.Nodup ∧
        s1.ready_list.Perm (woken ++ s.ready_list) := by
  intro l
  induction l with
  | nil =>
    intro s s1 h
    simp only [thread_awake_loop, Option.some.injEq] at h
    subst h
    exact ⟨rfl, [], by simp, fun _ _ => rfl, List.nodup_nil, by simp⟩
  | cons t next ih =>
    intro s s1 h
    unfold thread_awake_loop at h
    by_cases hdue : (s.threads t).time_to_wakeup ≤ ticks
    · rw [if_pos hdue] at h
      cases hu : thread_unblock { s with sleep_list := next } t with
      | none => rw [hu] at h; cases h
      | some s2 =>
        rw [hu] at h
        simp only at h
        have hb := thread_unblock_blocked _ _ _ hu
        obtain ⟨s2', h2', hrl, hready, hframe, -, -, hrun, -⟩ :=
          thread_unblock_eq { s with sleep_list := next } t hb
        have : s2' = s2 := Option.some.inj (h2'.symm.trans hu)
        subst this
        obtain ⟨hrun2, woken, hw, hframe2, hnd, hperm⟩ := ih s2' s1 h
        have htn : t ∉ woken := by
          intro ht
          have := (hw t ht).1
          rw [hready] at this
          cases this
        refine ⟨hrun2.trans hrun, t :: woken, ?_, ?_, List.nodup_cons.2 ⟨htn, hnd⟩, ?_⟩
        · intro u hu
          rcases List.mem_cons.1 hu with rfl | hu
          · exact ⟨hb, by rw [hframe2 u htn]; exact hready⟩
          · have hne : u ≠ t := fun h => htn (h ▸ hu)
            have := hw u hu
            rw [hframe u hne] at this
            exact this
        · intro u hu
          have hne : u ≠ t := fun h => hu (h ▸ List.mem_cons_self _ _)
          have hnw : u ∉ woken := fun h => hu (List.mem_cons_of_mem _ h)
          rw [hframe2 u hnw, hframe u hne]
        · obtain ⟨p, q, -, hl, hins, -, -⟩ :=
            list_insert_ordered_split (compare_thread_priority { s with sleep_list := next })
              t s.ready_list
          have hins2 : s2'.ready_list.Perm (t :: s.ready_list) := by
            rw [hrl]
            show (list_insert_ordered s.ready_list t _).Perm _
            rw [hins]
            rw [show s.ready_list = p ++ q from hl]
            simp
          refine hperm.trans ?_
          refine (List.Perm.append_left woken hins2).trans ?_
          simp
    · rw [if_neg hdue] at h
      simp only [Option.some.injEq] at h
      subst h
      exact ⟨rfl, [], by simp, fun _ _ => rfl, List.nodup_nil, by simp⟩

/-- The function `thread_yield` returns whenever the current thread has the status
`THREAD_RUNNING`. -/
theorem thread_yield_returns (s : State)
    (hcur : (s.threads s.running).status = THREAD_RUNNING) :
    ∃ s1, thread_yield s = some s1 := by
  rw [thread_yield_unfold s hcur]
  apply schedule_some
  · simp [store_status]
  · by_cases hi : some s.running ≠ s.idle_thread
    · left
      simp only [store_status, hi, if_true, ne_eq, not_false_eq_true]
      exact list_insert_ordered_ne_nil _ _ _
    · right
      have : s.idle_thread = some s.running := by
        by_contra h
        exact hi (fun h2 => h h2.symm)
      simp [store_status, this]

/-- Exactly one running thread is kept by `thread_block`, `thread_yield` and
`thread_exit`, whenever they return. -/
theorem one_running_schedule (s : State) (hone : one_running s) :
    (∀ s1, thread_block s = some s1 → one_running s1) ∧
    (∀ s1, thread_yield s = some s1 → one_running s1) ∧
    (∀ s1, thread_exit s = some s1 → one_running s1) := by
  obtain ⟨hb, he, hy⟩ := scheduling_entry_running s
  refine ⟨?_, ?_, ?_⟩
  · intro s1 h
    rw [thread_block_unfold s (hb s1 h)] at h
    exact schedule_one_running _ s1
      (store_status_none_running s THREAD_BLOCKED hone (by decide)) h
  · intro s1 h
    rw [thread_yield_unfold s (hy s1 h)] at h
    refine schedule_one_running _ s1 ?_ h
    exact store_status_none_running
      { s with
        ready_list :=
          if some s.running ≠ s.idle_thread then
            list_insert_ordered s.ready_list s.running (compare_thread_priority s)
          else s.ready_list
        destruction_req := [] } THREAD_READY hone (by decide)
  · intro s1 h
    obtain ⟨-, h, -⟩ := thread_exit_returns s s1 h
    refine schedule_one_running _ s1 ?_ h
    exact store_status_none_running { s with destruction_req := [] } THREAD_DYING hone
      (by decide)

/-- Exactly one running thread is kept by a change of thread structures that
only turns blocked threads into ready ones. -/
theorem one_running_of_woken (s s1 : State) (hone : one_running s)
    (hrun : s1.running = s.running)
    (h : ∀ u, s1.threads u = s.threads u ∨
      ((s.threads u).status = THREAD_BLOCKED ∧ (s1.threads u).status = THREAD_READY)) :
    one_running s1 := by
  rw [one_running_iff] at hone ⊢
  intro u
  rw [hrun, ← hone u]
  rcases h u with h | ⟨hb, hr⟩
  · rw [h]
  · rw [hb, hr]
    constructor <;> intro h <;> cases h

/-- Exactly one running thread is kept by `thread_unblock` and `thread_awake`,
whenever they return. -/
theorem one_running_unblock (s : State) (hone : one_running s) :
    (∀ t s1, thread_unblock s t = some s1 → one_running s1) ∧
    (∀ now s1, thread_awake s now = some s1 → one_running s1) := by
  constructor
  · intro t s1 h
    have hb := thread_unblock_blocked s s1 t h
    obtain ⟨s2, h2, -, hready, hframe, -, -, hrun, -⟩ := thread_unblock_eq s t hb
    have : s2 = s1 := Option.some.inj (h2.symm.trans h)
    subst this
    refine one_running_of_woken s s2 hone hrun ?_
    intro u
    by_cases hu : u = t
    · right; rw [hu]; exact ⟨hb, hready⟩
    · left; exact hframe u hu
  · intro now s1 h
    obtain ⟨hrun, woken, hw, hframe, -, -⟩ := thread_awake_loop_returns now _ s s1 h
    refine one_running_of_woken s s1 hone hrun ?_
    intro u
    by_cases hu : u ∈ woken
    · right; exact hw u hu
    · left; exact hframe u hu

/-- The function `thread_awake` returns when the sleepers are blocked and pairwise
different. -/
theorem thread_awake_some (s : State) (now : Int)
    (hblk : ∀ u ∈ s.sleep_list, (s.threads u).status = THREAD_BLOCKED)
    (hnd : s.sleep_list.Nodup) :
    ∃ s1, thread_awake s now = some s1 := by
  obtain ⟨s1, h1, -⟩ := thread_awake_loop_eq now s.sleep_list s rfl
    (fun u hu => hblk u ((List.takeWhile_sublist _).subset hu))
    (hnd.sublist (List.takeWhile_sublist _))
  exact ⟨s1, h1⟩

/-- C19: from a state in which exactly one thread, the current one, has the
status `THREAD_RUNNING`, each of `thread_block`, `thread_yield`, `thread_exit`,
`thread_unblock` and `thread_awake` leads to a state in which again exactly one
thread, the current one, has the status `THREAD_RUNNING`.  The operations
return: `thread_yield` always, `thread_block` when there is a ready thread or
an idle thread, `thread_exit` when in addition the thread chosen to run next is
not the caller (otherwise it panics in `NOT_REACHED`), `thread_unblock` on a
blocked thread, and `thread_awake` on a sleep list of pairwise different
blocked threads.  The
further assumptions of the claim (ready threads are `THREAD_READY`, the idle
thread is not running unless current) are not needed. -/
theorem one_running_preserved (s : State) (hone : one_running s) :
    ((s.ready_list ≠ [] ∨ s.idle_thread ≠ none) → ∃ s1, thread_block s = some s1) ∧
    (∀ s1, thread_block s = some s1 → one_running s1) ∧
    (∃ s1, thread_yield s = some s1) ∧
    (∀ s1, thread_yield s = some s1 → one_running s1) ∧
    ((s.ready_list ≠ [] ∨ s.idle_thread ≠ none) →
      (next_thread_to_run s).1 ≠ some s.running → ∃ s1, thread_exit s = some s1) ∧
    (∀ s1, thread_exit s = some s1 → one_running s1) ∧
    (∀ t, (s.threads t).status = THREAD_BLOCKED → ∃ s1, thread_unblock s t = some s1) ∧
    (∀ t s1, thread_unblock s t = some s1 → one_running s1) ∧
    (∀ now, (∀ u ∈ s.sleep_list, (s.threads u).status = THREAD_BLOCKED) →
      s.sleep_list.Nodup → ∃ s1, thread_awake s now = some s1) ∧
    (∀ now s1, thread_awake s now = some s1 → one_running s1) := by
  obtain ⟨hb, hy, he⟩ := one_running_schedule s hone
  obtain ⟨hu, ha⟩ := one_running_unblock s hone
  have hcur : (s.threads s.running).status = THREAD_RUNNING := hone.2
  refine ⟨?_, hb, thread_yield_returns s hcur, hy, ?_, he, ?_, hu, ?_, ha⟩
  · intro hnext
    rw [thread_block_unfold s hcur]
    exact schedule_some _ (by simp [store_status]) hnext
  · intro hnext hnot
    obtain ⟨s1, h1, -⟩ := thread_exit_some s hcur hnext hnot
    exact ⟨s1, h1⟩
  · intro t ht
    obtain ⟨s1, h1, -⟩ := thread_unblock_eq s t ht
    exact ⟨s1, h1⟩
  · intro now hblk hnd
    exact thread_awake_some s now hblk hnd

/-- The thread `0` is the only running thread of `example_state`. -/
theorem example_state_one_running : one_running example_state := by
  rw [one_running_iff]
  intro u
  unfold example_state example_thread
  simp only
  split <;> simp_all

/-- Witness of C19: `example_state`, in which thread `0` runs. -/
theorem one_running_preserved_witness :
    one_running example_state ∧
    (∃ s1, thread_yield example_state = some s1) ∧
    (∀ s1, thread_yield example_state = some s1 → one_running s1) :=
  ⟨example_state_one_running,
    (one_running_preserved example_state example_state_one_running).2.2.1,
    (one_running_preserved example_state example_state_one_running).2.2.2.1⟩

/-- The result of `list_insert_ordered` is a permutation of the list with the new
element in front. -/
theorem list_insert_ordered_perm (less : α → α → Bool) (x : α) (l : List α) :
    (list_insert_ordered l x less).Perm (x :: l) := by
  obtain ⟨p, q, -, hl, hins, -, -⟩ := list_insert_ordered_split less x l
  rw [hins, hl]
  simp

/-- After `schedule`, the ready list holds exactly the ready threads, each once,
when this was so at the entry for every thread other than the one that runs
afterwards. -/
theorem schedule_ready_set (s s1 : State) (h : schedule s = some s1)
    (hnd : s.ready_list.Nodup)
    (hinv : ∀ u, u ≠ s1.running →
      (u ∈ s.ready_list ↔ (s.threads u).status = THREAD_READY)) :
    ready_list_is_ready_set s1 ∧ s1.ready_list.Nodup := by
  obtain ⟨-, hstat, hframe, hcase⟩ := schedule_returns s s1 h
  rcases hcase with hl | ⟨hl, hl1, -⟩
  · rw [hl] at hnd hinv
    refine ⟨?_, (List.nodup_cons.1 hnd).2⟩
    intro u
    by_cases hu : u = s1.running
    · rw [hu, hstat]
      constructor
      · intro hm; exact absurd hm (List.nodup_cons.1 hnd).1
      · intro hc; cases hc
    · rw [hframe u hu, ← hinv u hu, List.mem_cons]
      constructor
      · exact fun hm => Or.inr hm
      · rintro (hm | hm)
        · exact absurd hm hu
        · exact hm
  · rw [hl] at hinv
    refine ⟨?_, by rw [hl1]; exact List.nodup_nil⟩
    intro u
    rw [hl1]
    by_cases hu : u = s1.running
    · rw [hu, hstat]
      constructor
      · intro hm; cases hm
      · intro hc; cases hc
    · rw [hframe u hu, ← hinv u hu]

/-- The ready list keeps holding exactly the ready threads, each once, under
`thread_block` and `thread_exit`, and under `thread_yield` of a thread other
than the idle thread or with an empty ready list. -/
theorem ready_set_schedule (s : State) (hinv : ready_list_is_ready_set s)
    (hnd : s.ready_list.Nodup) :
    (∀ s1, thread_block s = some s1 → ready_list_is_ready_set s1 ∧ s1.ready_list.Nodup) ∧
    (∀ s1, thread_exit s = some s1 → ready_list_is_ready_set s1 ∧ s1.ready_list.Nodup) ∧
    (∀ s1, thread_yield s = some s1 →
      (some s.running ≠ s.idle_thread ∨ s.ready_list = []) →
      ready_list_is_ready_set s1 ∧ s1.ready_list.Nodup) := by
  obtain ⟨hb, he, hy⟩ := scheduling_entry_running s
  have hnotin : (s.threads s.running).status = THREAD_RUNNING → s.running ∉ s.ready_list := by
    intro hcur hm
    have := (hinv s.running).1 hm
    rw [hcur] at this
    cases this
  have hstore : ∀ st, st ≠ THREAD_READY →
      (s.threads s.running).status = THREAD_RUNNING →
      ∀ u, u ∈ s.ready_list ↔ ((store_status s s.running st).threads u).status
        = THREAD_READY := by
    intro st hst hcur u
    by_cases hu : u = s.running
    · simp only [store_status, hu, if_true]
      constructor
      · intro hm; exact absurd hm (hnotin hcur)
      · intro hc; exact absurd hc hst
    · simp only [store_status, hu, if_false]
      exact hinv u
  refine ⟨?_, ?_, ?_⟩
  · intro s1 h
    have hcur := hb s1 h
    rw [thread_block_unfold s hcur] at h
    exact schedule_ready_set _ s1 h hnd (fun u _ => hstore THREAD_BLOCKED (by decide) hcur u)
  · intro s1 h
    obtain ⟨hcur, h, -⟩ := thread_exit_returns s s1 h
    exact schedule_ready_set _ s1 h hnd (fun u _ => hstore THREAD_DYING (by decide) hcur u)
  · intro s1 h hcase
    have hcur := hy s1 h
    rw [thread_yield_unfold s hcur] at h
    by_cases hi : some s.running ≠ s.idle_thread
    · simp only [hi, if_true, ne_eq, not_false_eq_true] at h
      refine schedule_ready_set _ s1 h ?_ ?_
      · show (list_insert_ordered s.ready_list s.running (compare_thread_priority s)).Nodup
        rw [(list_insert_ordered_perm _ _ _).nodup_iff]
        exact List.nodup_cons.2 ⟨hnotin hcur, hnd⟩
      · intro u _
        show u ∈ list_insert_ordered s.ready_list s.running (compare_thread_priority s) ↔ _
        rw [(list_insert_ordered_perm _ _ _).mem_iff, List.mem_cons]
        by_cases hu : u = s.running
        · simp [store_status, hu]
        · simp only [store_status, hu, if_false, false_or]
          exact hinv u
    · have hl : s.ready_list = [] := by
        rcases hcase with h1 | h1
        · exact absurd h1 hi
        · exact h1
      have hidle : s.idle_thread = some s.running := by
        by_contra hne
        exact hi (fun h2 => hne h2.symm)
      simp only [hi, if_false] at h
      obtain ⟨-, -, -, hc⟩ := schedule_returns _ s1 h
      have hrun : s1.running = s.running := by
        rcases hc with hc | ⟨-, -, hc⟩
        · simp [store_status, hl] at hc
        · simp only [store_status, hidle, Option.some.injEq] at hc
          exact hc.symm
      refine schedule_ready_set _ s1 h (by simpa [store_status] using hnd) ?_
      intro u hu
      rw [hrun] at hu
      simp only [store_status, hu, if_false]
      exact hinv u

/-- The ready list keeps holding exactly the ready threads, each once, under a
change that turns the blocked threads of a duplicate-free list `woken` into
ready ones and adds them to the ready list. -/
theorem ready_set_of_woken (s s1 : State) (woken : List Tid)
    (hinv : ready_list_is_ready_set s) (hnd : s.ready_list.Nodup)
    (hw : ∀ u ∈ woken, (s.threads u).status = THREAD_BLOCKED ∧
      (s1.threads u).status = THREAD_READY)
    (hframe : ∀ u, u ∉ woken → s1.threads u = s.threads u)
    (hwnd : woken.Nodup)
    (hperm : s1.ready_list.Perm (woken ++ s.ready_list)) :
    ready_list_is_ready_set s1 ∧ s1.ready_list.Nodup := by
  constructor
  · intro u
    rw [hperm.mem_iff, List.mem_append]
    by_cases hu : u ∈ woken
    · simp [hu, (hw u hu).2]
    · rw [hframe u hu, ← hinv u]
      simp [hu]
  · rw [hperm.nodup_iff, List.nodup_append]
    refine ⟨hwnd, hnd, ?_⟩
    intro u hu hr
    have h1 := (hw u hu).1
    rw [(hinv u).1 hr] at h1
    cases h1

/-- The ready list keeps holding exactly the ready threads, each once, under
`thread_unblock` and `thread_awake`. -/
theorem ready_set_unblock (s : State) (hinv : ready_list_is_ready_set s)
    (hnd : s.ready_list.Nodup) :
    (∀ t s1, thread_unblock s t = some s1 →
      ready_list_is_ready_set s1 ∧ s1.ready_list.Nodup) ∧
    (∀ now s1, thread_awake s now = some s1 →
      ready_list_is_ready_set s1 ∧ s1.ready_list.Nodup) := by
  constructor
  · intro t s1 h
    have hb := thread_unblock_blocked s s1 t h
    obtain ⟨s2, h2, hrl, hready, hframe, -⟩ := thread_unblock_eq s t hb
    have : s2 = s1 := Option.some.inj (h2.symm.trans h)
    subst this
    refine ready_set_of_woken s s2 [t] hinv hnd ?_ ?_ (List.nodup_singleton t) ?_
    · intro u hu
      rw [List.mem_singleton.1 hu]
      exact ⟨hb, hready⟩
    · intro u hu
      exact hframe u (fun h => hu (List.mem_singleton.2 h))
    · rw [hrl]
      exact list_insert_ordered_perm _ _ _
  · intro now s1 h
    obtain ⟨-, woken, hw, hframe, hwnd, hperm⟩ := thread_awake_loop_returns now _ s s1 h
    exact ready_set_of_woken s s1 woken hinv hnd hw hframe hwnd hperm

/-- The ready list of `idle_running_state` holds exactly its ready thread. -/
theorem idle_running_state_ready_set : ready_list_is_ready_set idle_running_state := by
  intro u
  unfold idle_running_state example_thread
  simp only
  split <;> simp_all

/-- C20 as stated fails for the idle thread: in `idle_running_state` the idle
thread `3` runs and the ready list `[1]` holds exactly the ready threads.
`thread_yield ()` does not insert the idle thread into the ready list but
`do_schedule (THREAD_READY)` marks it ready, and `schedule` switches to thread
`1`: afterwards the idle thread has the status `THREAD_READY` and is not on the
ready list. -/
theorem thread_yield_idle_counterexample :
    ready_list_is_ready_set idle_running_state ∧
    idle_running_state.ready_list.Nodup ∧
    thread_current idle_running_state = idle_running_state.idle_thread ∧
    (thread_yield idle_running_state).map
      (fun s1 => ((s1.threads 3).status, decide (3 ∈ s1.ready_list), s1.running))
      = some (THREAD_READY, false, 1) ∧
    ¬ (∀ s1, thread_yield idle_running_state = some s1 → ready_list_is_ready_set s1) := by
  have hmap : (thread_yield idle_running_state).map
      (fun s1 => ((s1.threads 3).status, decide (3 ∈ s1.ready_list), s1.running))
      = some (THREAD_READY, false, 1) := by decide
  refine ⟨idle_running_state_ready_set, by decide, by decide, hmap, ?_⟩
  intro hall
  obtain ⟨s1, h1⟩ := thread_yield_returns idle_running_state (by decide)
  have hinv := hall s1 h1
  rw [h1] at hmap
  simp only [Option.map_some', Option.some.injEq, Prod.mk.injEq, decide_eq_false_iff_not] at hmap
  exact hmap.2.1 ((hinv 3).2 hmap.1)

/-- C20, amended: when the ready list holds exactly the threads with the status
`THREAD_READY`, each once, this is so again after `thread_unblock`,
`thread_block`, `thread_exit` and `thread_awake`, for every running thread, the
idle thread included, and after `thread_yield` when the running thread is not
the idle thread or the ready list is empty.  The operations return:
`thread_yield` always, `thread_block` when there is a ready thread or an idle
thread, `thread_exit` when in addition the thread chosen to run next is not the
caller (otherwise it panics in `NOT_REACHED`), `thread_unblock` on a blocked
thread, `thread_awake` on a sleep list of pairwise different blocked
threads. -/
theorem ready_set_preserved (s : State)
    (hcur : (s.threads s.running).status = THREAD_RUNNING)
    (hinv : ready_list_is_ready_set s) (hnd : s.ready_list.Nodup) :
    (∀ t, (s.threads t).status = THREAD_BLOCKED → ∃ s1, thread_unblock s t = some s1) ∧
    (∀ t s1, thread_unblock s t = some s1 →
      ready_list_is_ready_set s1 ∧ s1.ready_list.Nodup) ∧
    ((s.ready_list ≠ [] ∨ s.idle_thread ≠ none) → ∃ s1, thread_block s = some s1) ∧
    (∀ s1, thread_block s = some s1 → ready_list_is_ready_set s1 ∧ s1.ready_list.Nodup) ∧
    ((s.ready_list ≠ [] ∨ s.idle_thread ≠ none) →
      (next_thread_to_run s).1 ≠ some s.running → ∃ s1, thread_exit s = some s1) ∧
    (∀ s1, thread_exit s = some s1 → ready_list_is_ready_set s1 ∧ s1.ready_list.Nodup) ∧
    (∀ now, (∀ u ∈ s.sleep_list, (s.threads u).status = THREAD_BLOCKED) →
      s.sleep_list.Nodup → ∃ s1, thread_awake s now = some s1) ∧
    (∀ now s1, thread_awake s now = some s1 →
      ready_list_is_ready_set s1 ∧ s1.ready_list.Nodup) ∧
    (∃ s1, thread_yield s = some s1) ∧
    (∀ s1, thread_yield s = some s1 →
      (some s.running ≠ s.idle_thread ∨ s.ready_list = []) →
      ready_list_is_ready_set s1 ∧ s1.ready_list.Nodup) := by
  obtain ⟨hb, he, hy⟩ := ready_set_schedule s hinv hnd
  obtain ⟨hu, ha⟩ := ready_set_unblock s hinv hnd
  refine ⟨?_, hu, ?_, hb, ?_, he, ?_, ha, thread_yield_returns s hcur, hy⟩
  · intro t ht
    obtain ⟨s1, h1, -⟩ := thread_unblock_eq s t ht
    exact ⟨s1, h1⟩
  · intro hnext
    rw [thread_block_unfold s hcur]
    exact schedule_some _ (by simp [store_status]) hnext
  · intro hnext hnot
    obtain ⟨s1, h1, -⟩ := thread_exit_some s hcur hnext hnot
    exact ⟨s1, h1⟩
  · intro now hblk hsnd
    exact thread_awake_some s now hblk hsnd

/-- The ready list of `example_state` holds exactly its ready threads. -/
theorem example_state_ready_set : ready_list_is_ready_set example_state := by
  intro u
  unfold example_state example_thread
  simp only
  split <;> simp_all

/-- Witness of C20, amended: `example_state`, whose running thread `0` is not
the idle thread. -/
theorem ready_set_preserved_witness :
    (example_state.threads example_state.running).status = THREAD_RUNNING ∧
    ready_list_is_ready_set example_state ∧ example_state.ready_list.Nodup ∧
    (∃ s1, thread_yield example_state = some s1) ∧
    (∀ s1, thread_yield example_state = some s1 →
      (some example_state.running ≠ example_state.idle_thread ∨
        example_state.ready_list = []) →
      ready_list_is_ready_set s1 ∧ s1.ready_list.Nodup) :=
  ⟨by decide, example_state_ready_set, by decide,
    (ready_set_preserved example_state (by decide) example_state_ready_set
      (by decide)).2.2.2.2.2.2.2.2.1,
    (ready_set_preserved example_state (by decide) example_state_ready_set
      (by decide)).2.2.2.2.2.2.2.2.2⟩

/-! ## The comparator on 32-bit priorities -/

/-- The pointer a negative 32-bit `int` converts to: the sign extension puts it
in the upper half of the address space. -/
theorem int_to_pointer_neg (v : Int) (h0 : -(2 ^ 31) ≤ v) (h1 : v < 0) :
    int_to_pointer v = (v + 2 ^ 64).toNat := by
  unfold int_to_pointer
  have h : v % 2 ^ 64 = v + 2 ^ 64 := by omega
  rw [h]

/-- On 32-bit priorities `compare_thread_priority` puts every negative priority
above every non-negative one, and agrees with `>` exactly on priorities of the
same sign. -/
theorem compare_thread_priority_int32 (s : State) (a b : Tid)
    (ha : is_int32 (s.threads a).priority) (hb : is_int32 (s.threads b).priority) :
    compare_thread_priority s a b = true ↔
      ((s.threads a).priority < 0 ∧ 0 ≤ (s.threads b).priority) ∨
      ((0 ≤ (s.threads a).priority ↔ 0 ≤ (s.threads b).priority) ∧
        (s.threads a).priority > (s.threads b).priority) := by
  unfold is_int32 at ha hb
  unfold compare_thread_priority
  rw [decide_eq_true_eq]
  by_cases ha0 : 0 ≤ (s.threads a).priority <;> by_cases hb0 : 0 ≤ (s.threads b).priority
  · rw [int_to_pointer_nonneg _ ha0 (by omega), int_to_pointer_nonneg _ hb0 (by omega)]
    omega
  · rw [int_to_pointer_nonneg _ ha0 (by omega), int_to_pointer_neg _ hb.1 (by omega)]
    omega
  · rw [int_to_pointer_neg _ ha.1 (by omega), int_to_pointer_nonneg _ hb0 (by omega)]
    omega
  · rw [int_to_pointer_neg _ ha.1 (by omega), int_to_pointer_neg _ hb.1 (by omega)]
    omega

/-- C28 on a negative priority: in `negative_running_state` thread `0` has the
priority `-1` and thread `3` the priority `0`, both 32-bit integers;
`compare_thread_priority` of thread `0` and thread `3` returns true although
`-1 > 0` is false, and of thread `3` and thread `0` false although `0 > -1` is
true: the pointer `-1` converts to is the highest address. -/
theorem compare_thread_priority_negative :
    is_int32 (negative_running_state.threads 0).priority ∧
    is_int32 (negative_running_state.threads 3).priority ∧
    (negative_running_state.threads 0).priority = -1 ∧
    (negative_running_state.threads 3).priority = 0 ∧
    int_to_pointer (negative_running_state.threads 0).priority = 2 ^ 64 - 1 ∧
    compare_thread_priority negative_running_state 0 3 = true ∧
    ¬ ((negative_running_state.threads 0).priority >
        (negative_running_state.threads 3).priority) ∧
    compare_thread_priority negative_running_state 3 0 = false ∧
    (negative_running_state.threads 3).priority >
      (negative_running_state.threads 0).priority := by
  decide

/-! ## Termination of `donate_priority_thread` -/

/-- More fuel does not change the result of the loop of
`donate_priority_thread`. -/
theorem donate_priority_thread_loop_fuel :
    ∀ (fuel depth : Nat) (t : Tid) (s s1 : State),
      donate_priority_thread_loop fuel depth t s = some s1 →
      ∀ k, donate_priority_thread_loop (fuel + k) depth t s = some s1 := by
  intro fuel
  induction fuel with
  | zero => intro depth t s s1 h; simp [donate_priority_thread_loop] at h
  | succ fuel ih =>
    intro depth t s s1 h k
    have e : fuel + 1 + k = (fuel + k) + 1 := by omega
    rw [e]
    unfold donate_priority_thread_loop at h ⊢
    cases hw : (s.threads t).wait_on_lock with
    | none => rw [hw] at h; exact h
    | some l =>
      rw [hw] at h
      simp only at h ⊢
      by_cases hd : depth < 8
      · rw [if_pos hd] at h ⊢
        cases hh : (s.locks l).holder with
        | none => rw [hh] at h; exact h
        | some holder =>
          rw [hh] at h
          exact ih _ _ _ _ h k
      · rw [if_neg hd] at h ⊢
        exact h

/-- The loop of `donate_priority_thread`, entered with `depth ≤ 8`, enters its
body at most `8 - depth` more times: the count it ends with is at most 8. -/
theorem donate_priority_thread_iterations_le :
    ∀ (fuel depth : Nat) (t : Tid) (s : State), 0 < fuel → 8 < fuel + depth → depth ≤ 8 →
      ∃ n, donate_priority_thread_iterations fuel depth t s = some n ∧ depth ≤ n ∧ n ≤ 8 := by
  intro fuel
  induction fuel with
  | zero => intro depth t s h0; omega
  | succ fuel ih =>
    intro depth t s _ hf hd8
    unfold donate_priority_thread_iterations
    cases (s.threads t).wait_on_lock with
    | none => exact ⟨depth, rfl, le_refl _, hd8⟩
    | some l =>
      simp only
      by_cases hd : depth < 8
      · rw [if_pos hd]
        cases (s.locks l).holder with
        | none => exact ⟨depth + 1, rfl, by omega, by omega⟩
        | some holder =>
          obtain ⟨n, hn, h1, h2⟩ := ih (depth + 1) holder _ (by omega) (by omega) (by omega)
          exact ⟨n, hn, by omega, h2⟩
      · rw [if_neg hd]
        exact ⟨depth, rfl, le_refl _, hd8⟩

/-- C29: `donate_priority_thread (t)` returns in every state and for every
thread `t`, whatever the wait-for graph: nine evaluations of the loop condition
are enough, more change nothing, and the body of the loop is entered at most 8
times.  In `deadlock_state`, where the wait chain of thread `0` returns to
thread `0` after two links, the loop stops after 8 entries. -/
theorem donate_priority_thread_terminates (s : State) (t : Tid) (k : Nat) :
    (∃ s1 n, donate_priority_thread 9 s t = some s1 ∧
      donate_priority_thread (9 + k) s t = some s1 ∧
      donate_priority_thread_iterations (9 + k) 0 t s = some n ∧ n ≤ 8) ∧
    nth_holder deadlock_state 0 2 = some 0 ∧
    (donate_priority_thread 9 deadlock_state 0).isSome = true ∧
    donate_priority_thread_iterations 9 0 0 deadlock_state = some 8 := by
  refine ⟨?_, by decide, by decide, by decide⟩
  obtain ⟨s1, h1⟩ := donate_priority_thread_loop_some 9 0 t s (by omega) (by omega)
  obtain ⟨n, hn, -, h8⟩ :=
    donate_priority_thread_iterations_le (9 + k) 0 t s (by omega) (by omega) (by omega)
  exact ⟨s1, n, h1, donate_priority_thread_loop_fuel 9 0 t s s1 h1 k, hn, h8⟩

/-! ## The destruction list -/

/-- What `schedule` does to the destruction list: it appends the outgoing thread
when that thread is dying, is not the initial thread and is not the thread
chosen to run next, and leaves the list as it is otherwise.  The initial thread
pointer is not changed. -/
theorem schedule_destruction (s s1 : State) (h : schedule s = some s1) :
    s1.initial_thread = s.initial_thread ∧
    (((s.threads s.running).status = THREAD_DYING ∧ some s.running ≠ s.initial_thread ∧
        s.running ≠ s1.running) →
      s1.destruction_req = s.destruction_req ++ [s.running]) ∧
    (¬ ((s.threads s.running).status = THREAD_DYING ∧ some s.running ≠ s.initial_thread ∧
        s.running ≠ s1.running) →
      s1.destruction_req = s.destruction_req) := by
  unfold schedule at h
  have key : ∀ (next : Tid) (s0 : State), s0.threads = s.threads →
      s0.destruction_req = s.destruction_req → s0.initial_thread = s.initial_thread →
      s0.running = s.running →
      (if (s0.threads s.running).status = THREAD_RUNNING then none
        else
          if s.running ≠ next then
            some { (if ({ store_status s0 next THREAD_RUNNING with thread_ticks := 0 }.threads
                    s.running).status = THREAD_DYING ∧
                  some s.running ≠
                    { store_status s0 next THREAD_RUNNING with thread_ticks := 0 }.initial_thread
                then
                  { { store_status s0 next THREAD_RUNNING with thread_ticks := 0 } with
                    destruction_req :=
                      { store_status s0 next THREAD_RUNNING with
                        thread_ticks := 0 }.destruction_req ++ [s.running] }
                else { store_status s0 next THREAD_RUNNING with thread_ticks := 0 }) with
              running := next }
          else some { store_status s0 next THREAD_RUNNING with thread_ticks := 0 }) = some s1 →
      s1.initial_thread = s.initial_thread ∧
      (((s.threads s.running).status = THREAD_DYING ∧ some s.running ≠ s.initial_thread ∧
          s.running ≠ s1.running) →
        s1.destruction_req = s.destruction_req ++ [s.running]) ∧
      (¬ ((s.threads s.running).status = THREAD_DYING ∧ some s.running ≠ s.initial_thread ∧
          s.running ≠ s1.running) →
        s1.destruction_req = s.destruction_req) := by
    intro next s0 ht hd hi hrun h
    by_cases hr : (s0.threads s.running).status = THREAD_RUNNING
    · rw [if_pos hr] at h
      cases h
    · rw [if_neg hr] at h
      by_cases hn : s.running ≠ next
      · rw [if_pos hn] at h
        have hst : ({ store_status s0 next THREAD_RUNNING with thread_ticks := 0 }.threads
            s.running).status = (s.threads s.running).status := by
          simp [store_status, hn, ht]
        rw [hst] at h
        have hin : { store_status s0 next THREAD_RUNNING with thread_ticks := 0 }.initial_thread
            = s.initial_thread := hi
        rw [hin] at h
        by_cases hc : (s.threads s.running).status = THREAD_DYING ∧
            some s.running ≠ s.initial_thread
        · rw [if_pos hc] at h
          have e := (Option.some.inj h).symm
          subst e
          refine ⟨hi, fun _ => ?_, fun hnot => ?_⟩
          · simp [store_status, hd]
          · exact absurd ⟨hc.1, hc.2, hn⟩ hnot
        · rw [if_neg hc] at h
          have e := (Option.some.inj h).symm
          subst e
          refine ⟨hi, fun hyes => ?_, fun _ => ?_⟩
          · exact absurd ⟨hyes.1, hyes.2.1⟩ hc
          · simp [store_status, hd]
      · rw [if_neg hn] at h
        have e := (Option.some.inj h).symm
        subst e
        refine ⟨hi, fun hyes => ?_, fun _ => ?_⟩
        · exact absurd hrun.symm hyes.2.2
        · simp [store_status, hd]
  unfold next_thread_to_run at h
  cases hl : s.ready_list with
  | nil =>
    rw [hl] at h
    simp only at h
    cases hidle : s.idle_thread with
    | none => rw [hidle] at h; cases h
    | some idle =>
      rw [hidle] at h
      exact key idle s rfl rfl rfl rfl h
  | cons front rest =>
    rw [hl] at h
    exact key front { s with ready_list := rest } rfl rfl rfl rfl h

/-- The function `thread_block` leaves the destruction list as it finds it: it calls
`schedule` without going through `do_schedule`, and a blocked thread is not
queued. -/
theorem thread_block_destruction (s s1 : State) (h : thread_block s = some s1) :
    s1.initial_thread = s.initial_thread ∧ s1.destruction_req = s.destruction_req := by
  have hcur := (scheduling_entry_running s).1 s1 h
  rw [thread_block_unfold s hcur] at h
  obtain ⟨hi, -, hno⟩ := schedule_destruction _ s1 h
  refine ⟨hi, hno ?_⟩
  rintro ⟨hd, -⟩
  simp [store_status] at hd

/-- The function `thread_yield` empties the destruction list and queues nothing. -/
theorem thread_yield_destruction (s s1 : State) (h : thread_yield s = some s1) :
    s1.initial_thread = s.initial_thread ∧ s1.destruction_req = [] := by
  have hcur := (scheduling_entry_running s).2.2 s1 h
  rw [thread_yield_unfold s hcur] at h
  obtain ⟨hi, -, hno⟩ := schedule_destruction _ s1 h
  refine ⟨hi, hno ?_⟩
  rintro ⟨hd, -⟩
  simp [store_status] at hd

/-- The function `thread_exit` empties the destruction list and then queues at most the
exiting thread, and only when it is not the initial thread. -/
theorem thread_exit_destruction (s s1 : State) (h : thread_exit s = some s1) :
    s1.initial_thread = s.initial_thread ∧
    ((s1.destruction_req = [s.running] ∧ some s.running ≠ s.initial_thread) ∨
      s1.destruction_req = []) := by
  obtain ⟨-, h, -⟩ := thread_exit_returns s s1 h
  obtain ⟨hi, hyes, hno⟩ := schedule_destruction _ s1 h
  refine ⟨hi, ?_⟩
  by_cases hc : some s.running ≠ s.initial_thread ∧ s.running ≠ s1.running
  · left
    refine ⟨?_, hc.1⟩
    have := hyes ⟨by simp [store_status], hc.1, hc.2⟩
    simpa [store_status] using this
  · right
    apply hno
    rintro ⟨-, h1, h2⟩
    exact hc ⟨h1, h2⟩

/-- C22: `schedule ()` appends the outgoing thread to the destruction list if and
only if the status of that thread is `THREAD_DYING`, it is not the initial
thread, and it is not the thread chosen to run next; otherwise it leaves the
list as it is.  So an initial thread that is not on the destruction list is not
on it after `schedule`, `thread_block`, `thread_yield` or `thread_exit`, and
the `thread_exit` of the initial thread ends with an empty destruction list
when the thread chosen to run next is another thread; when it is the initial
thread itself, `thread_exit` panics in `NOT_REACHED`. -/
theorem initial_thread_not_destroyed (s : State) :
    (∀ s1, schedule s = some s1 →
      (s1.destruction_req = s.destruction_req ++ [s.running] ↔
        ((s.threads s.running).status = THREAD_DYING ∧ some s.running ≠ s.initial_thread ∧
          s.running ≠ s1.running)) ∧
      (s1.destruction_req = s.destruction_req ++ [s.running] ∨
        s1.destruction_req = s.destruction_req)) ∧
    (∀ i, s.initial_thread = some i → i ∉ s.destruction_req →
      (∀ s1, schedule s = some s1 → s1.initial_thread = some i ∧ i ∉ s1.destruction_req) ∧
      (∀ s1, thread_block s = some s1 → s1.initial_thread = some i ∧ i ∉ s1.destruction_req) ∧
      (∀ s1, thread_yield s = some s1 → s1.initial_thread = some i ∧ i ∉ s1.destruction_req) ∧
      (∀ s1, thread_exit s = some s1 → s1.initial_thread = some i ∧ i ∉ s1.destruction_req)) ∧
    (s.initial_thread = some s.running → (s.threads s.running).status = THREAD_RUNNING →
      (s.ready_list ≠ [] ∨ s.idle_thread ≠ none) →
      ((next_thread_to_run s).1 ≠ some s.running →
        ∃ s1, thread_exit s = some s1 ∧ s1.initial_thread = some s.running ∧
          s1.destruction_req = []) ∧
      ((next_thread_to_run s).1 = some s.running → thread_exit s = none)) := by
  refine ⟨fun s1 h => ?_, fun i hi hni => ⟨fun s1 h => ?_, fun s1 h => ?_, fun s1 h => ?_,
    fun s1 h => ?_⟩, fun hi hcur hnext => ⟨fun hnot => ?_, thread_exit_not_reached s⟩⟩
  · obtain ⟨-, hyes, hno⟩ := schedule_destruction s s1 h
    by_cases hc : (s.threads s.running).status = THREAD_DYING ∧
        some s.running ≠ s.initial_thread ∧ s.running ≠ s1.running
    · exact ⟨⟨fun _ => hc, hyes⟩, Or.inl (hyes hc)⟩
    · refine ⟨⟨fun he => ?_, fun hyes1 => absurd hyes1 hc⟩, Or.inr (hno hc)⟩
      rw [hno hc] at he
      simp at he
  · obtain ⟨hi1, hyes, hno⟩ := schedule_destruction s s1 h
    refine ⟨hi1.trans hi, ?_⟩
    by_cases hc : (s.threads s.running).status = THREAD_DYING ∧
        some s.running ≠ s.initial_thread ∧ s.running ≠ s1.running
    · rw [hyes hc]
      simp only [List.mem_append, List.mem_singleton, not_or]
      refine ⟨hni, fun he => hc.2.1 ?_⟩
      rw [hi, he]
    · rw [hno hc]
      exact hni
  · obtain ⟨hi1, hd⟩ := thread_block_destruction s s1 h
    rw [hd]
    exact ⟨hi1.trans hi, hni⟩
  · obtain ⟨hi1, hd⟩ := thread_yield_destruction s s1 h
    rw [hd]
    exact ⟨hi1.trans hi, List.not_mem_nil i⟩
  · obtain ⟨hi1, hd⟩ := thread_exit_destruction s s1 h
    refine ⟨hi1.trans hi, ?_⟩
    rcases hd with ⟨hd, hne⟩ | hd
    · rw [hd]
      simp only [List.mem_singleton]
      intro he
      apply hne
      rw [hi, he]
    · rw [hd]
      exact List.not_mem_nil i
  · obtain ⟨s1, h1, -⟩ := thread_exit_some s hcur hnext hnot
    obtain ⟨hi1, hd⟩ := thread_exit_destruction s s1 h1
    refine ⟨s1, h1, hi1.trans hi, ?_⟩
    rcases hd with ⟨-, hne⟩ | hd
    · exact absurd hi.symm hne
    · exact hd

/-- Witness of C22: in `example_state` the running thread `0` is the initial
thread; its `thread_exit` returns with an empty destruction list. -/
theorem initial_thread_not_destroyed_witness :
    example_state.initial_thread = some example_state.running ∧
    ∃ s1, thread_exit example_state = some s1 ∧
      s1.initial_thread = some example_state.running ∧ s1.destruction_req = [] :=
  ⟨by decide,
    ((initial_thread_not_destroyed example_state).2.2 (by decide) (by decide)
      (Or.inl (by decide))).1 (by decide)⟩

/-- The functions `thread_yield` and `thread_exit` free every thread that waits on the
destruction list when they are entered: afterwards the list holds at most the
thread that has just exited. -/
theorem do_schedule_drains (s s1 : State)
    (h : thread_yield s = some s1 ∨ thread_exit s = some s1) :
    ∀ u ∈ s1.destruction_req, u = s.running := by
  intro u hu
  rcases h with h | h
  · rw [(thread_yield_destruction s s1 h).2] at hu
    cases hu
  · rcases (thread_exit_destruction s s1 h).2 with ⟨hd, -⟩ | hd
    · rw [hd] at hu
      simpa using hu
    · rw [hd] at hu
      cases hu

/-- C27 on `thread_block`: in `pending_destruction_state` the dying thread `4`
waits on the destruction list.  After `thread_block` of the running thread the
next thread `1` has been selected and runs, and thread `4` is still on the
destruction list: `thread_block` calls `schedule ()` directly, and the loop that
frees the queued threads is in `do_schedule`.  After `thread_yield` and after
`thread_exit` the list is empty. -/
theorem thread_block_keeps_destruction_req :
    pending_destruction_state.destruction_req = [4] ∧
    (pending_destruction_state.threads 4).status = THREAD_DYING ∧
    (thread_block pending_destruction_state).map (fun s => (s.running, s.destruction_req)) =
      some (1, [4]) ∧
    (thread_yield pending_destruction_state).map (fun s => (s.running, s.destruction_req)) =
      some (1, []) ∧
    (thread_exit pending_destruction_state).map (fun s => (s.running, s.destruction_req)) =
      some (1, []) := by
  decide

/-! ## The range of the priorities -/

/-- A store of a priority in range keeps every priority in range. -/
theorem store_priority_range (s : State) (t : Tid) (p : Int)
    (hr : priorities_in_range s) (hp : PRI_MIN ≤ p ∧ p ≤ PRI_MAX) :
    priorities_in_range (store_priority s t p) := by
  intro u
  by_cases hu : u = t
  · subst hu
    simpa [store_priority] using ⟨hp, (hr u).2⟩
  · simpa [store_priority, hu] using hr u

/-- A store of a base priority in range keeps every priority in range. -/
theorem store_init_priority_range (s : State) (t : Tid) (p : Int)
    (hr : priorities_in_range s) (hp : PRI_MIN ≤ p ∧ p ≤ PRI_MAX) :
    priorities_in_range (store_init_priority s t p) := by
  intro u
  by_cases hu : u = t
  · subst hu
    simpa [store_init_priority] using ⟨(hr u).1, hp⟩
  · simpa [store_init_priority, hu] using hr u

/-- Threads that differ in their status only have the same priorities. -/
theorem priorities_in_range_of_same_status (s s1 : State)
    (h : ∀ u, same_but_status (s1.threads u) (s.threads u)) (hr : priorities_in_range s) :
    priorities_in_range s1 := by
  intro u
  obtain ⟨h1, h2, -⟩ := h u
  rw [h1, h2]
  exact hr u

/-- The function `init_thread` returns exactly when the priority is in range; the new
thread then has this priority as `priority` and as `init_priority`, is blocked,
waits for no lock and has no donors, and nothing else is changed. -/
theorem init_thread_eq (s : State) (t : Tid) (q : Int) :
    (∀ s1, init_thread s t q = some s1 → PRI_MIN ≤ q ∧ q ≤ PRI_MAX) ∧
    (PRI_MIN ≤ q ∧ q ≤ PRI_MAX →
      ∃ s1, init_thread s t q = some s1 ∧
        (s1.threads t).priority = q ∧ (s1.threads t).init_priority = q ∧
        (s1.threads t).status = THREAD_BLOCKED ∧ (s1.threads t).wait_on_lock = none ∧
        (s1.threads t).donations = [] ∧
        (∀ u, u ≠ t → s1.threads u = s.threads u) ∧
        s1.ready_list = s.ready_list ∧ s1.running = s.running ∧
        s1.idle_thread = s.idle_thread ∧ s1.initial_thread = s.initial_thread ∧
        s1.sleep_list = s.sleep_list ∧ s1.destruction_req = s.destruction_req ∧
        s1.locks = s.locks) := by
  constructor
  · intro s1 h
    by_contra hc
    simp [init_thread, hc] at h
  · intro hq
    unfold init_thread
    rw [if_pos hq]
    refine ⟨_, rfl, ?_, ?_, ?_, ?_, ?_, ?_, rfl, rfl, rfl, rfl, rfl, rfl, rfl⟩
    all_goals simp
    intro u hu
    simp [hu]

/-- The function `refresh_priority` keeps every priority in range. -/
theorem refresh_priority_range (s s1 : State) (h : refresh_priority s = some s1)
    (hr : priorities_in_range s) : priorities_in_range s1 := by
  unfold refresh_priority at h
  cases hc : thread_current s with
  | none => rw [hc] at h; cases h
  | some cur =>
    rw [hc] at h
    simp only at h
    have h1 : priorities_in_range (store_priority s cur (s.threads cur).init_priority) :=
      store_priority_range s cur _ hr (hr cur).2
    cases hd : ((store_priority s cur (s.threads cur).init_priority).threads cur).donations with
    | nil =>
      rw [hd] at h
      have e := (Option.some.inj h).symm
      subst e
      exact h1
    | cons front rest =>
      rw [hd] at h
      simp only at h
      split at h
      · have e := (Option.some.inj h).symm
        subst e
        exact store_priority_range _ cur _ h1 (h1 front).1
      · have e := (Option.some.inj h).symm
        subst e
        exact h1

/-- The function `thread_preemption` changes nothing but statuses. -/
theorem thread_preemption_frame (s s1 : State) (h : thread_preemption s = some s1) :
    ∀ u, same_but_status (s1.threads u) (s.threads u) := by
  by_cases hcur : (s.threads s.running).status = THREAD_RUNNING
  · obtain ⟨s2, h2, hf⟩ := thread_preemption_some s hcur
    have e : s2 = s1 := Option.some.inj (h2.symm.trans h)
    subst e
    exact hf
  · unfold thread_preemption thread_preemption_test thread_current at h
    cases hl : s.ready_list with
    | nil =>
      rw [hl] at h
      simp only at h
      have e := (Option.some.inj h).symm
      subst e
      exact fun u => ⟨rfl, rfl, rfl, rfl, rfl⟩
    | cons top rest =>
      rw [hl] at h
      simp [hcur] at h

/-- The function `thread_set_priority` with an argument in range keeps every priority
in range. -/
theorem thread_set_priority_range (s s1 : State) (p : Int)
    (h : thread_set_priority s p = some s1)
    (hr : priorities_in_range s) (hp : PRI_MIN ≤ p ∧ p ≤ PRI_MAX) :
    priorities_in_range s1 := by
  unfold thread_set_priority at h
  cases h1 : thread_set_priority_store s p with
  | none => rw [h1] at h; cases h
  | some s2 =>
    rw [h1] at h
    simp only at h
    refine priorities_in_range_of_same_status s2 s1 (thread_preemption_frame s2 s1 h) ?_
    unfold thread_set_priority_store at h1
    cases hc : thread_current s with
    | none => rw [hc] at h1; cases h1
    | some cur =>
      rw [hc] at h1
      exact refresh_priority_range _ s2 h1
        (store_init_priority_range _ cur p (store_priority_range s cur p hr hp) hp)

/-- The loop of `donate_priority` keeps every priority in range. -/
theorem donate_priority_loop_range :
    ∀ (fuel count : Nat) (holder : Option Tid) (s s1 : State),
      donate_priority_loop fuel count holder s = some s1 →
      priorities_in_range s → priorities_in_range s1 := by
  intro fuel
  induction fuel with
  | zero =>
    intro count holder s s1 h hr
    cases holder with
    | none =>
      simp only [donate_priority_loop, Option.some.injEq] at h
      subst h
      exact hr
    | some x => simp [donate_priority_loop] at h
  | succ fuel ih =>
    intro count holder s s1 h hr
    cases holder with
    | none =>
      simp only [donate_priority_loop, Option.some.injEq] at h
      subst h
      exact hr
    | some x =>
      unfold donate_priority_loop at h
      cases hc : thread_current s with
      | none => rw [hc] at h; cases h
      | some cur =>
        rw [hc] at h
        simp only at h
        have h1 : priorities_in_range (store_priority s x (s.threads cur).priority) :=
          store_priority_range s x _ hr (hr cur).1
        split at h
        · have e := (Option.some.inj h).symm
          subst e
          exact h1
        · split at h
          · have e := (Option.some.inj h).symm
            subst e
            exact h1
          · exact ih _ _ _ _ h h1

/-- The loop of `donate_priority` returns when `fuel` allows for the stores that
are left up to the count 9. -/
theorem donate_priority_loop_some :
    ∀ (fuel count : Nat) (holder : Option Tid) (s : State),
      (s.threads s.running).status = THREAD_RUNNING → 0 < fuel → 8 < fuel + count →
      ∃ s1, donate_priority_loop fuel count holder s = some s1 := by
  intro fuel
  induction fuel with
  | zero => intro count holder s _ h0; omega
  | succ fuel ih =>
    intro count holder s hcur _ hf
    cases holder with
    | none => exact ⟨s, by simp [donate_priority_loop]⟩
    | some x =>
      unfold donate_priority_loop
      have hc : thread_current s = some s.running := by
        unfold thread_current
        rw [if_pos hcur]
      rw [hc]
      simp only
      by_cases h8 : count + 1 > 8
      · rw [if_pos h8]
        exact ⟨_, rfl⟩
      · rw [if_neg h8]
        cases ((store_priority s x (s.threads s.running).priority).threads x).wait_on_lock with
        | none => exact ⟨_, rfl⟩
        | some l =>
          simp only
          refine ih _ _ _ ?_ (by omega) (by omega)
          by_cases hx : s.running = x
          · simp [store_priority, hx] at hcur ⊢
            exact hcur
          · simp [store_priority, hx]
            exact hcur

/-- The loop of `donate_priority_thread` keeps every priority in range. -/
theorem donate_priority_thread_loop_range :
    ∀ (fuel depth : Nat) (t : Tid) (s s1 : State),
      donate_priority_thread_loop fuel depth t s = some s1 →
      priorities_in_range s → priorities_in_range s1 := by
  intro fuel
  induction fuel with
  | zero => intro depth t s s1 h; simp [donate_priority_thread_loop] at h
  | succ fuel ih =>
    intro depth t s s1 h hr
    unfold donate_priority_thread_loop at h
    cases hw : (s.threads t).wait_on_lock with
    | none =>
      rw [hw] at h
      have e := (Option.some.inj h).symm
      subst e
      exact hr
    | some l =>
      rw [hw] at h
      simp only at h
      by_cases hd : depth < 8
      · rw [if_pos hd] at h
        cases hh : (s.locks l).holder with
        | none =>
          rw [hh] at h
          have e := (Option.some.inj h).symm
          subst e
          exact hr
        | some holder =>
          rw [hh] at h
          simp only at h
          refine ih _ _ _ _ h ?_
          split
          · exact store_priority_range s holder _ hr (hr t).1
          · exact hr
      · rw [if_neg hd] at h
        have e := (Option.some.inj h).symm
        subst e
        exact hr

/-- Every priority of `example_state` is in range. -/
theorem example_state_priorities_in_range : priorities_in_range example_state := by
  intro t
  unfold example_state example_thread PRI_MIN PRI_MAX
  simp only
  split <;> decide

/-- C23 on an argument out of range: every priority and base priority of
`example_state` is in `[0, 63]`, and `thread_set_priority (100)` returns with
the priority and the base priority of the running thread `0` at 100, above
`PRI_MAX`; `thread_set_priority (-1)` leaves them at `-1`, below `PRI_MIN`.
The function `init_thread` asserts the range of its argument,
`thread_set_priority` stores its argument as it is. -/
theorem thread_set_priority_out_of_range :
    priorities_in_range example_state ∧
    (∃ s1, thread_set_priority example_state 100 = some s1 ∧
      (s1.threads 0).priority = 100 ∧ (s1.threads 0).init_priority = 100 ∧
      ¬ priorities_in_range s1) ∧
    (∃ s1, thread_set_priority example_state (-1) = some s1 ∧
      (s1.threads 0).priority = -1 ∧ (s1.threads 0).init_priority = -1 ∧
      ¬ priorities_in_range s1) := by
  refine ⟨example_state_priorities_in_range, ?_, ?_⟩
  · have hm : (thread_set_priority example_state 100).map
        (fun s => ((s.threads 0).priority, (s.threads 0).init_priority)) = some (100, 100) := by
      decide
    cases h : thread_set_priority example_state 100 with
    | none => rw [h] at hm; cases hm
    | some s1 =>
      rw [h] at hm
      simp only [Option.map_some', Option.some.injEq, Prod.mk.injEq] at hm
      refine ⟨s1, rfl, hm.1, hm.2, fun hr => ?_⟩
      have := (hr 0).1.2
      rw [hm.1] at this
      exact absurd this (by decide)
  · have hm : (thread_set_priority example_state (-1)).map
        (fun s => ((s.threads 0).priority, (s.threads 0).init_priority)) = some (-1, -1) := by
      decide
    cases h : thread_set_priority example_state (-1) with
    | none => rw [h] at hm; cases hm
    | some s1 =>
      rw [h] at hm
      simp only [Option.map_some', Option.some.injEq, Prod.mk.injEq] at hm
      refine ⟨s1, rfl, hm.1, hm.2, fun hr => ?_⟩
      have := (hr 0).1.1
      rw [hm.1] at this
      exact absurd this (by decide)

/-- The range invariant for arguments in range: `init_thread` returns only for a
priority in `[PRI_MIN, PRI_MAX]` and stores it in `priority` and
`init_priority`; and if the priority and the base priority of every thread are
in `[PRI_MIN, PRI_MAX]`, they still are after `init_thread`, after
`thread_set_priority (p)` for every argument `p` in `[PRI_MIN, PRI_MAX]`, after
`refresh_priority`, after `donate_priority` and after `donate_priority_thread`.
Each of these calls returns: the ones on the current thread when the running
thread is marked running, `donate_priority` when in addition it waits for a
lock. -/
theorem priorities_in_range_of_range (s : State) (hr : priorities_in_range s) :
    (∀ t q s1, init_thread s t q = some s1 → PRI_MIN ≤ q ∧ q ≤ PRI_MAX) ∧
    (∀ t q, PRI_MIN ≤ q → q ≤ PRI_MAX →
      ∃ s1, init_thread s t q = some s1 ∧ (s1.threads t).priority = q ∧
        (s1.threads t).init_priority = q ∧ priorities_in_range s1) ∧
    (∀ p, PRI_MIN ≤ p → p ≤ PRI_MAX → (s.threads s.running).status = THREAD_RUNNING →
      ∃ s1, thread_set_priority s p = some s1 ∧ priorities_in_range s1) ∧
    ((s.threads s.running).status = THREAD_RUNNING →
      ∃ s1, refresh_priority s = some s1 ∧ priorities_in_range s1) ∧
    (∀ fuel, 8 < fuel → (s.threads s.running).status = THREAD_RUNNING →
      (s.threads s.running).wait_on_lock ≠ none →
      ∃ s1, donate_priority fuel s = some s1 ∧ priorities_in_range s1) ∧
    (∀ fuel t, 8 < fuel →
      ∃ s1, donate_priority_thread fuel s t = some s1 ∧ priorities_in_range s1) := by
  refine ⟨fun t q s1 h => (init_thread_eq s t q).1 s1 h, fun t q h0 h1 => ?_,
    fun p h0 h1 hcur => ?_, fun hcur => ?_, fun fuel hf hcur hw => ?_, fun fuel t hf => ?_⟩
  · obtain ⟨s1, h, hp, hi, -, -, -, hframe, -⟩ := (init_thread_eq s t q).2 ⟨h0, h1⟩
    refine ⟨s1, h, hp, hi, fun u => ?_⟩
    by_cases hu : u = t
    · subst hu
      rw [hp, hi]
      exact ⟨⟨h0, h1⟩, ⟨h0, h1⟩⟩
    · rw [hframe u hu]
      exact hr u
  · obtain ⟨s1, h1s, hrun, -, hst, -⟩ := thread_set_priority_store_eq s p hcur
    obtain ⟨s2, h2, -⟩ := thread_preemption_some s1 (by rw [hrun]; exact hst)
    have h : thread_set_priority s p = some s2 := by
      unfold thread_set_priority
      rw [h1s]
      exact h2
    exact ⟨s2, h, thread_set_priority_range s s2 p h hr ⟨h0, h1⟩⟩
  · obtain ⟨s1, h, -⟩ := refresh_priority_eq s hcur
    exact ⟨s1, h, refresh_priority_range s s1 h hr⟩
  · have hc : thread_current s = some s.running := by
      unfold thread_current
      rw [if_pos hcur]
    cases hl : (s.threads s.running).wait_on_lock with
    | none => exact absurd hl hw
    | some l =>
      obtain ⟨s1, h1⟩ := donate_priority_loop_some fuel 0 (s.locks l).holder s hcur
        (by omega) (by omega)
      have h : donate_priority fuel s = some s1 := by
        unfold donate_priority
        rw [hc]
        simp only
        rw [hl]
        exact h1
      exact ⟨s1, h, donate_priority_loop_range _ _ _ _ _ h1 hr⟩
  · obtain ⟨s1, h1⟩ := donate_priority_thread_loop_some fuel 0 t s (by omega) (by omega)
    exact ⟨s1, h1, donate_priority_thread_loop_range _ _ _ _ _ h1 hr⟩

/-- In `example_state` every priority is in range, and `thread_set_priority
(40)` returns with every priority in range. -/
theorem priorities_in_range_example :
    priorities_in_range example_state ∧
    ∃ s1, thread_set_priority example_state 40 = some s1 ∧ priorities_in_range s1 :=
  ⟨example_state_priorities_in_range,
    (priorities_in_range_of_range example_state example_state_priorities_in_range).2.2.1 40
      (by decide) (by decide) (by decide)⟩

/-! ## `thread_yield` among equals -/

/-- Ordered insertion by `compare_thread_priority` into a list ordered by
priority, with priorities in range: the new thread goes after every thread of
at least its priority and before every thread of lower priority. -/
theorem list_insert_ordered_of_range (s : State) (t : Tid) (l : List Tid)
    (hord : priority_ordered s l)
    (ht : priority_in_range s t) (hr : ∀ u ∈ l, priority_in_range s u) :
    ∃ p q, l = p ++ q ∧
      list_insert_ordered l t (compare_thread_priority s) = p ++ t :: q ∧
      (∀ e ∈ p, (s.threads e).priority ≥ (s.threads t).priority) ∧
      (∀ e ∈ q, (s.threads e).priority < (s.threads t).priority) := by
  obtain ⟨p, q, -, hl, hins, hp, hhead⟩ :=
    list_insert_ordered_split (compare_thread_priority s) t l
  have hmem : ∀ e, e ∈ p ∨ e ∈ q → priority_in_range s e := by
    intro e he
    apply hr
    rw [hl]
    exact List.mem_append.2 he
  have hpw : (p ++ q).Pairwise
      (fun a b => (s.threads a).priority ≥ (s.threads b).priority) := by
    rw [← hl]; exact hord
  rw [List.pairwise_append] at hpw
  obtain ⟨-, hqq, -⟩ := hpw
  refine ⟨p, q, hl, by simpa using hins, ?_, ?_⟩
  · intro e he
    have h1 := hp e he
    have h2 := compare_thread_priority_of_range s t e ht (hmem e (Or.inl he))
    rw [h1] at h2
    simp only [Bool.false_eq_true, gt_iff_lt, false_iff, not_lt] at h2
    exact h2
  · intro e he
    cases q with
    | nil => cases he
    | cons a q =>
      have ha : (s.threads a).priority < (s.threads t).priority :=
        (compare_thread_priority_of_range s t a ht
          (hmem a (Or.inr (List.mem_cons_self _ _)))).1 (hhead a rfl)
      rcases List.mem_cons.1 he with rfl | he
      · exact ha
      · exact lt_of_le_of_lt ((List.pairwise_cons.1 hqq).1 e he) ha

/-- The function `thread_yield` with priorities in range, called by a thread `c` that
is not the idle thread and is not on the ready list, which is ordered by
priority.  If some ready thread has at least the priority of `c`, the front of
the ready list runs and `c` is ready, queued after every thread of at least its
priority and before every thread of lower priority.  If every ready thread has
a lower priority, `c` runs again and the ready list is as it was. -/
theorem thread_yield_of_range (s : State)
    (hcur : (s.threads s.running).status = THREAD_RUNNING)
    (hnidle : some s.running ≠ s.idle_thread)
    (hnr : s.running ∉ s.ready_list)
    (hord : priority_ordered s s.ready_list)
    (hc : priority_in_range s s.running)
    (hr : ∀ u ∈ s.ready_list, priority_in_range s u) :
    ∃ s1, thread_yield s = some s1 ∧
      (∀ u, u ≠ s.running → u ≠ s1.running → s1.threads u = s.threads u) ∧
      ((∃ e ∈ s.ready_list, (s.threads e).priority ≥ (s.threads s.running).priority) →
        ∃ front p q, s.ready_list = front :: (p ++ q) ∧
          s1.running = front ∧ (s1.threads front).status = THREAD_RUNNING ∧
          (s1.threads s.running).status = THREAD_READY ∧
          s1.ready_list = p ++ s.running :: q ∧
          (∀ e ∈ front :: p, (s.threads e).priority ≥ (s.threads s.running).priority) ∧
          (∀ e ∈ q, (s.threads e).priority < (s.threads s.running).priority)) ∧
      ((∀ e ∈ s.ready_list, (s.threads e).priority < (s.threads s.running).priority) →
        s1.running = s.running ∧ (s1.threads s.running).status = THREAD_RUNNING ∧
        s1.ready_list = s.ready_list) := by
  have hent : thread_yield s =
      schedule (store_status
        { s with
          ready_list := list_insert_ordered s.ready_list s.running (compare_thread_priority s)
          destruction_req := [] } s.running THREAD_READY) := by
    rw [thread_yield_unfold s hcur, if_pos hnidle]
  obtain ⟨p, q, hl, hins, hp1, hq1⟩ :=
    list_insert_ordered_of_range s s.running s.ready_list hord hc hr
  have hnot : ((store_status
        { s with
          ready_list := list_insert_ordered s.ready_list s.running (compare_thread_priority s)
          destruction_req := [] } s.running THREAD_READY).threads
      (store_status
        { s with
          ready_list := list_insert_ordered s.ready_list s.running (compare_thread_priority s)
          destruction_req := [] } s.running THREAD_READY).running).status ≠ THREAD_RUNNING := by
    simp [store_status]
  cases p with
  | nil =>
    simp only [List.nil_append] at hl hins
    obtain ⟨s1, h1, hrun, hrl, hst, hframe, -⟩ := schedule_cons _ s.running q
      (by simp [store_status, hins]) hnot
    rw [← hent] at h1
    refine ⟨s1, h1, ?_, ?_, ?_⟩
    · intro u hu _
      rw [hframe u hu]
      simp [store_status, hu]
    · rintro ⟨e, he, hge⟩
      rw [hl] at he
      exact absurd (hq1 e he) (not_lt.2 hge)
    · intro _
      exact ⟨hrun, hst, by rw [hrl, hl]⟩
  | cons front p =>
    have hfront : front ∈ s.ready_list := by
      rw [hl]
      simp
    have hne : s.running ≠ front := fun h => hnr (h ▸ hfront)
    obtain ⟨s1, h1, hrun, hrl, hst, hframe, -⟩ := schedule_cons _ front (p ++ s.running :: q)
      (by simp [store_status, hins]) hnot
    rw [← hent] at h1
    refine ⟨s1, h1, ?_, ?_, ?_⟩
    · intro u hu hu1
      rw [hrun] at hu1
      rw [hframe u hu1]
      simp [store_status, hu]
    · intro _
      refine ⟨front, p, q, by simpa using hl, hrun, hst, ?_, hrl, hp1, hq1⟩
      rw [hframe _ hne]
      simp [store_status]
    · intro hall
      exact absurd (hall front hfront) (not_lt.2 (hp1 front (List.mem_cons_self _ _)))

/-- C24 on a negative priority: in `negative_yield_state` the running thread `0`
has the priority `-1`, is not the idle thread and is not on the ready list
`[1]`, which is ordered; thread `1` is ready at priority 5, at least the
priority of thread `0`.  The comparator puts thread `0` before thread `1`, so
after `thread_yield` thread `0` runs again and thread `1` is still ready at the
front of the ready list: the head of the ready queue has not become
running. -/
theorem thread_yield_negative_priority :
    thread_current negative_yield_state = some 0 ∧
    some 0 ≠ negative_yield_state.idle_thread ∧
    0 ∉ negative_yield_state.ready_list ∧
    priority_ordered negative_yield_state negative_yield_state.ready_list ∧
    negative_yield_state.ready_list = [1] ∧
    (negative_yield_state.threads 1).priority ≥ (negative_yield_state.threads 0).priority ∧
    compare_thread_priority negative_yield_state 0 1 = true ∧
    (thread_yield negative_yield_state).map
      (fun s => (s.running, s.ready_list, (s.threads 0).status, (s.threads 1).status)) =
      some (0, [1], THREAD_RUNNING, THREAD_READY) := by
  decide

/-! ## `thread_create` -/

/-- The function `thread_create` with priorities in range, called by a thread that is
not the idle thread, on a fresh page `t`, in a state whose ready list is ordered
and holds no thread above the creator.  It returns `t`; with a priority above
the creator the new thread runs and the creator is ready on the ready list;
with a priority of at most the creator the creator still runs and the new
thread is ready on the ready list. -/
theorem thread_create_of_range (s : State) (t : Tid) (q : Int)
    (hcur : (s.threads s.running).status = THREAD_RUNNING)
    (hnidle : some s.running ≠ s.idle_thread)
    (hnr : s.running ∉ s.ready_list)
    (hfresh : t ≠ s.running ∧ t ∉ s.ready_list)
    (hord : priority_ordered s s.ready_list)
    (hrange : ∀ u, priority_in_range s u)
    (hq : PRI_MIN ≤ q ∧ q ≤ PRI_MAX)
    (hle : ∀ u ∈ s.ready_list, (s.threads u).priority ≤ (s.threads s.running).priority) :
    ∃ s3, thread_create s (some t) q = some (some t, s3) ∧
      (s3.threads t).priority = q ∧
      (s3.threads s.running).priority = (s.threads s.running).priority ∧
      (q > (s.threads s.running).priority →
        s3.running = t ∧ (s3.threads t).status = THREAD_RUNNING ∧
        (s3.threads s.running).status = THREAD_READY ∧ s.running ∈ s3.ready_list ∧
        ∃ p r, s.ready_list = p ++ r ∧ s3.ready_list = p ++ s.running :: r) ∧
      (q ≤ (s.threads s.running).priority →
        s3.running = s.running ∧ (s3.threads s.running).status = THREAD_RUNNING ∧
        (s3.threads t).status = THREAD_READY ∧ t ∈ s3.ready_list ∧
        ∃ p r, s.ready_list = p ++ r ∧ s3.ready_list = p ++ t :: r) := by
  obtain ⟨s1, h1, hp1, -, hb1, -, -, hfr1, hrl1, hrun1, hidle1, -⟩ := (init_thread_eq s t q).2 hq
  have hmem_ne : ∀ u ∈ s.ready_list, u ≠ t := fun u hu he => hfresh.2 (he ▸ hu)
  have hrange1 : ∀ u, priority_in_range s1 u := by
    intro u
    unfold priority_in_range
    by_cases hu : u = t
    · rw [hu, hp1]
      exact hq
    · rw [hfr1 u hu]
      exact hrange u
  have hord1 : priority_ordered s1 s1.ready_list := by
    rw [hrl1]
    unfold priority_ordered at hord ⊢
    refine hord.imp_of_mem ?_
    intro a b ha hb hab
    rw [hfr1 a (hmem_ne a ha), hfr1 b (hmem_ne b hb)]
    exact hab
  obtain ⟨s2, h2, hst2, ⟨p, r, hl2, hins2, hpge, -⟩, hord2, hsame2, hfr2, hrun2, -, -, hidle2, -⟩ :=
    thread_unblock_of_range s1 t hb1 hord1 (hrange1 t) (fun u _ => hrange1 u)
  rw [hrl1] at hl2
  have hrunning2 : s2.running = s.running := hrun2.trans hrun1
  have hthr2 : ∀ u, u ≠ t → s2.threads u = s.threads u := by
    intro u hu
    rw [hfr2 u hu, hfr1 u hu]
  have hprio2 : (s2.threads t).priority = q := by
    rw [(hsame2 t).1, hp1]
  have hrange2 : ∀ u, priority_in_range s2 u := by
    intro u
    unfold priority_in_range
    rw [(hsame2 u).1]
    exact hrange1 u
  have hcur2 : (s2.threads s2.running).status = THREAD_RUNNING := by
    rw [hrunning2, hthr2 _ (Ne.symm hfresh.1)]
    exact hcur
  have htest := thread_preemption_test_of_range s2 hcur2 (hrange2 _) (fun u _ => hrange2 u)
  have hcreate : ∀ s3, thread_preemption s2 = some s3 →
      thread_create s (some t) q = some (some t, s3) := by
    intro s3 h3
    unfold thread_create
    simp only
    rw [h1]
    simp only
    rw [h2]
    simp only
    rw [h3]
  have hpge1 : ∀ e ∈ p, q ≤ (s.threads e).priority := by
    intro e he
    have hes : e ∈ s.ready_list := by
      rw [hl2]
      exact List.mem_append_left _ he
    have := hpge e he
    rw [hp1, hfr1 e (hmem_ne e hes)] at this
    exact this
  by_cases hgt : q > (s.threads s.running).priority
  · have hpnil : p = [] := by
      cases p with
      | nil => rfl
      | cons e p =>
        have hes : e ∈ s.ready_list := by
          rw [hl2]
          simp
        have h1 := hpge1 e (List.mem_cons_self _ _)
        have h2 := hle e hes
        omega
    subst hpnil
    simp only [List.nil_append] at hl2 hins2
    have hyield : thread_preemption s2 = thread_yield s2 := by
      unfold thread_preemption
      rw [htest, hins2]
      simp only
      have : decide ((s2.threads t).priority > (s2.threads s2.running).priority) = true := by
        rw [decide_eq_true_eq, hprio2, hrunning2, hthr2 _ (Ne.symm hfresh.1)]
        exact hgt
      rw [this]
    have hnr2 : s2.running ∉ s2.ready_list := by
      rw [hrunning2, hins2, ← hl2]
      simp only [List.mem_cons, not_or]
      exact ⟨Ne.symm hfresh.1, hnr⟩
    obtain ⟨s3, h3, -, hA, -⟩ := thread_yield_of_range s2 hcur2
      (by rw [hrunning2, hidle2, hidle1]; exact hnidle) hnr2 hord2 (hrange2 _)
      (fun u _ => hrange2 u)
    rw [← hyield] at h3
    have hframe3 := thread_preemption_frame s2 s3 h3
    obtain ⟨front, p', q', hl3, hrun3, hst3, hready3, hrl3, -, -⟩ := hA ⟨t, by
      rw [hins2]
      exact List.mem_cons_self _ _, by
      rw [hprio2, hrunning2, hthr2 _ (Ne.symm hfresh.1)]
      exact le_of_lt hgt⟩
    rw [hins2] at hl3
    obtain ⟨hft, hrest⟩ := List.cons.inj hl3
    subst hft
    rw [hrunning2] at hready3 hrl3
    refine ⟨s3, hcreate s3 h3, ?_, ?_, fun _ => ⟨hrun3, hst3, hready3, ?_, p', q', ?_, hrl3⟩,
      fun hle2 => absurd hgt (not_lt.2 hle2)⟩
    · rw [(hframe3 t).1, hprio2]
    · rw [(hframe3 _).1, hthr2 _ (Ne.symm hfresh.1)]
    · rw [hrl3]
      simp
    · rw [hl2, hrest]
  · have hqle : q ≤ (s.threads s.running).priority := not_lt.1 hgt
    have hnone : thread_preemption s2 = some s2 := by
      unfold thread_preemption
      rw [htest, hins2]
      cases p with
      | nil =>
        simp only [List.nil_append]
        have : decide ((s2.threads t).priority > (s2.threads s2.running).priority) = false := by
          rw [decide_eq_false_iff_not, hprio2, hrunning2, hthr2 _ (Ne.symm hfresh.1)]
          exact hgt
        rw [this]
      | cons e p =>
        have hes : e ∈ s.ready_list := by
          rw [hl2]
          simp
        simp only [List.cons_append]
        have : decide ((s2.threads e).priority > (s2.threads s2.running).priority) = false := by
          rw [decide_eq_false_iff_not, hrunning2, hthr2 _ (Ne.symm hfresh.1),
            hthr2 e (hmem_ne e hes)]
          exact not_lt.2 (hle e hes)
        rw [this]
    refine ⟨s2, hcreate s2 hnone, hprio2, ?_, fun h => absurd h hgt,
      fun _ => ⟨hrunning2, ?_, hst2, ?_, p, r, hl2, hins2⟩⟩
    · rw [hthr2 _ (Ne.symm hfresh.1)]
    · rw [hthr2 _ (Ne.symm hfresh.1)]
      exact hcur
    · rw [hins2]
      simp

/-- Every priority of `main_state` is in range. -/
theorem main_state_in_range : ∀ t, priority_in_range main_state t := by
  intro t
  unfold priority_in_range main_state example_thread PRI_MIN PRI_MAX
  simp only
  split <;> decide

/-- Scenario S1 in `main_state`: `main` (thread `0`, priority 31) creates `A` on
the page `4`.  At priority 32 the new thread runs and `main` is ready on the
ready list; at priority 31 `main` still runs and the new thread is ready on the
ready list. -/
theorem thread_create_main_example :
    (∃ s3, thread_create main_state (some 4) 32 = some (some 4, s3) ∧
      s3.running = 4 ∧ (s3.threads 4).status = THREAD_RUNNING ∧
      (s3.threads 0).status = THREAD_READY ∧ 0 ∈ s3.ready_list) ∧
    (∃ s3, thread_create main_state (some 4) 31 = some (some 4, s3) ∧
      s3.running = 0 ∧ (s3.threads 0).status = THREAD_RUNNING ∧
      (s3.threads 4).status = THREAD_READY ∧ 4 ∈ s3.ready_list) := by
  constructor
  · obtain ⟨s3, h, -, -, hgt, -⟩ := thread_create_of_range main_state 4 32 (by decide)
      (by decide) (by decide) (by decide) (by decide) main_state_in_range (by decide)
      (by decide)
    obtain ⟨a, b, c, d, -⟩ := hgt (by decide)
    exact ⟨s3, h, a, b, c, d⟩
  · obtain ⟨s3, h, -, -, -, hle⟩ := thread_create_of_range main_state 4 31 (by decide)
      (by decide) (by decide) (by decide) (by decide) main_state_in_range (by decide)
      (by decide)
    obtain ⟨a, b, c, d, -⟩ := hle (by decide)
    exact ⟨s3, h, a, b, c, d⟩

/-- C21 on a negative priority: in `negative_running_state` the running thread
`0` has the priority `p = -1`, is not the idle thread, and the ready list is
empty, so it is ordered and holds no thread above `p`.  The call `thread_create`
with the fresh page `7` and the priority `q = 5 > p` returns the new thread,
and the creator is still running while the new thread waits on the ready list:
the comparator of `thread_preemption` finds `5 > -1` false. -/
theorem thread_create_negative_priority :
    thread_current negative_running_state = some 0 ∧
    some 0 ≠ negative_running_state.idle_thread ∧
    (negative_running_state.threads 0).priority = -1 ∧
    negative_running_state.ready_list = [] ∧
    (negative_running_state.threads 7).status = THREAD_BLOCKED ∧
    (thread_create negative_running_state (some 7) 5).map
      (fun r => (r.1, r.2.running, r.2.ready_list)) = some (some 7, 0, [7]) ∧
    (thread_create negative_running_state (some 7) 5).map
      (fun r => ((r.2.threads 0).status, (r.2.threads 7).status, (r.2.threads 7).priority)) =
      some (THREAD_RUNNING, THREAD_READY, 5) := by
  decide

/-! ## Donation and the ready list -/

/-- The loop of `donate_priority` changes priorities only. -/
theorem donate_priority_loop_same :
    ∀ (fuel count : Nat) (holder : Option Tid) (s s1 : State),
      donate_priority_loop fuel count holder s = some s1 → same_but_priorities s1 s := by
  intro fuel
  induction fuel with
  | zero =>
    intro count holder s s1 h
    cases holder with
    | none =>
      simp only [donate_priority_loop, Option.some.injEq] at h
      subst h
      exact same_but_priorities_refl _
    | some x => simp [donate_priority_loop] at h
  | succ fuel ih =>
    intro count holder s s1 h
    cases holder with
    | none =>
      simp only [donate_priority_loop, Option.some.injEq] at h
      subst h
      exact same_but_priorities_refl _
    | some x =>
      unfold donate_priority_loop at h
      cases hc : thread_current s with
      | none => rw [hc] at h; cases h
      | some cur =>
        rw [hc] at h
        simp only at h
        have h1 := store_priority_same s x (s.threads cur).priority
        split at h
        · have e := (Option.some.inj h).symm
          subst e
          exact h1
        · split at h
          · have e := (Option.some.inj h).symm
            subst e
            exact h1
          · exact same_but_priorities_trans (ih _ _ _ _ h) h1

/-- A list ordered by priority is still ordered in a state in which its threads
have the priorities they had. -/
theorem priority_ordered_of_same (s s1 : State) (l : List Tid)
    (hord : priority_ordered s l)
    (h : ∀ u ∈ l, (s1.threads u).priority = (s.threads u).priority) :
    priority_ordered s1 l := by
  unfold priority_ordered at hord ⊢
  refine hord.imp_of_mem ?_
  intro a b ha hb hab
  rw [h a ha, h b hb]
  exact hab

/-- Counterexample to C25: in `ready_holder_state` the ready list `[1, 0]` is
ordered (priorities 35 and 31); thread `0` is ready, holds the lock the running
thread `2` (priority 40) waits for, and sits behind thread `1`.  After
`donate_priority_thread (2)`, and after `donate_priority ()`, thread `0` has
the priority 40 and is still behind thread `1`: the ready list is the same list
and is no longer ordered. -/
theorem donation_unordered_ready_counterexample :
    priority_ordered ready_holder_state ready_holder_state.ready_list ∧
    ready_holder_state.ready_list = [1, 0] ∧
    (ready_holder_state.threads 0).status = THREAD_READY ∧
    lock_holder ready_holder_state 2 = some 0 ∧
    (donate_priority_thread 9 ready_holder_state 2).map
      (fun s => (s.ready_list, (s.threads 1).priority, (s.threads 0).priority)) =
      some ([1, 0], 35, 40) ∧
    (donate_priority_thread 9 ready_holder_state 2).map
      (fun s => decide (priority_ordered s s.ready_list)) = some false ∧
    (donate_priority 9 ready_holder_state).map
      (fun s => (s.ready_list, (s.threads 1).priority, (s.threads 0).priority)) =
      some ([1, 0], 35, 40) ∧
    (donate_priority 9 ready_holder_state).map
      (fun s => decide (priority_ordered s s.ready_list)) = some false := by
  decide

/-- C25, amended: `donate_priority_thread (t)` and `donate_priority ()`, the
latter called by a running thread that waits for a lock, return and leave the
ready list itself as it is, the same threads in the same positions.  So a ready
list that was ordered by current priority is still ordered afterwards if the
call has changed the priority of no thread on it, in particular, for
`donate_priority_thread (t)`, if none of the first 8 holders on the wait chain
of `t` is on the ready list. -/
theorem donation_keeps_ready_list (s : State)
    (hord : priority_ordered s s.ready_list) :
    (∀ fuel t, 8 < fuel →
      ∃ s1, donate_priority_thread fuel s t = some s1 ∧ s1.ready_list = s.ready_list ∧
        ((∀ u ∈ s.ready_list, (s1.threads u).priority = (s.threads u).priority) →
          priority_ordered s1 s1.ready_list) ∧
        ((∀ u ∈ s.ready_list, ∀ k, k ≤ 8 → 1 ≤ k → nth_holder s t k ≠ some u) →
          priority_ordered s1 s1.ready_list)) ∧
    (∀ fuel, 8 < fuel → (s.threads s.running).status = THREAD_RUNNING →
      (s.threads s.running).wait_on_lock ≠ none →
      ∃ s1, donate_priority fuel s = some s1 ∧ s1.ready_list = s.ready_list ∧
        ((∀ u ∈ s.ready_list, (s1.threads u).priority = (s.threads u).priority) →
          priority_ordered s1 s1.ready_list)) := by
  constructor
  · intro fuel t hf
    obtain ⟨s1, h1⟩ := donate_priority_thread_loop_some fuel 0 t s (by omega) (by omega)
    obtain ⟨hsame, -, -, hother⟩ := donate_priority_thread_loop_spec fuel 0 t s s1 h1
    have hrl : s1.ready_list = s.ready_list := hsame.2.2.1
    refine ⟨s1, h1, hrl, fun hp => ?_, fun hno => ?_⟩
    · rw [hrl]
      exact priority_ordered_of_same s s1 _ hord hp
    · rw [hrl]
      refine priority_ordered_of_same s s1 _ hord (fun u hu => hother u ?_)
      intro k hk hk8
      exact hno u hu k (by omega) hk
  · intro fuel hf hcur hw
    have hc : thread_current s = some s.running := by
      unfold thread_current
      rw [if_pos hcur]
    cases hl : (s.threads s.running).wait_on_lock with
    | none => exact absurd hl hw
    | some l =>
      obtain ⟨s1, h1⟩ := donate_priority_loop_some fuel 0 (s.locks l).holder s hcur
        (by omega) (by omega)
      have h : donate_priority fuel s = some s1 := by
        unfold donate_priority
        rw [hc]
        simp only
        rw [hl]
        exact h1
      have hrl : s1.ready_list = s.ready_list := (donate_priority_loop_same _ _ _ _ _ h1).2.2.1
      refine ⟨s1, h, hrl, fun hp => ?_⟩
      rw [hrl]
      exact priority_ordered_of_same s s1 _ hord hp

/-- Witness of C25, amended: in `blocked_holder_state` the ready list `[1, 4]` is
ordered and the holder `0` on the wait chain of thread `2` is asleep, not on the
ready list; after `donate_priority_thread (2)` the ready list is the same and is
ordered. -/
theorem donation_keeps_ready_list_witness :
    priority_ordered blocked_holder_state blocked_holder_state.ready_list ∧
    ∃ s1, donate_priority_thread 9 blocked_holder_state 2 = some s1 ∧
      s1.ready_list = [1, 4] ∧ priority_ordered s1 s1.ready_list := by
  obtain ⟨s1, h, hrl, -, hno⟩ :=
    (donation_keeps_ready_list blocked_holder_state (by decide)).1 9 2 (by decide)
  exact ⟨by decide, s1, h, hrl, hno (by decide)⟩

/-! ## The priorities along the wait chain -/

/-- After the conditional store of `donate_priority_thread` the holder has the
maximum of its priority and the priority of `t`. -/
theorem donate_step_max (s : State) (t holder : Tid) :
    ((if (s.threads holder).priority < (s.threads t).priority then
        store_priority s holder (s.threads t).priority else s).threads holder).priority =
      max (s.threads holder).priority (s.threads t).priority := by
  by_cases hlt : (s.threads holder).priority < (s.threads t).priority
  · rw [if_pos hlt, store_priority_priority, if_pos rfl, max_eq_right (le_of_lt hlt)]
  · rw [if_neg hlt, max_eq_left (not_lt.1 hlt)]

/-- A thread reached by `k + 1` links has a predecessor reached by `k` links. -/
theorem nth_holder_prev (s : State) :
    ∀ (k : Nat) (t h : Tid), nth_holder s t (k + 1) = some h →
      ∃ g, nth_holder s t k = some g := by
  intro k
  induction k with
  | zero => intro t h _; exact ⟨t, rfl⟩
  | succ k ih =>
    intro t h hh
    cases hl : lock_holder s t with
    | none => simp [nth_holder, hl] at hh
    | some x =>
      rw [nth_holder_succ s t x (k + 1) hl] at hh
      obtain ⟨g, hg⟩ := ih x h hh
      exact ⟨g, by rw [nth_holder_succ s t x k hl]; exact hg⟩

/-- Two thread structures that agree on every member are equal. -/
theorem thread_eq_of_same (a b : thread) (h : same_but_priority a b)
    (hp : a.priority = b.priority) : a = b := by
  obtain ⟨h1, h2, h3, h4, h5⟩ := h
  cases a
  cases b
  simp only at h1 h2 h3 h4 h5 hp
  subst h1 h2 h3 h4 h5 hp
  rfl

/-- The loop of `donate_priority_thread` on a wait chain that visits no thread
twice within the remaining depth: `t` keeps its priority, and every holder
reached within the remaining depth ends with the maximum of its old priority
and the priority its predecessor on the chain ends with. -/
theorem donate_priority_thread_loop_chain :
    ∀ (fuel depth : Nat) (t : Tid) (s s2 : State),
      donate_priority_thread_loop fuel depth t s = some s2 →
      chain_distinct s t (8 - depth) →
      (s2.threads t).priority = (s.threads t).priority ∧
      (∀ j g h, depth + j + 1 ≤ 8 → nth_holder s t j = some g →
        nth_holder s t (j + 1) = some h →
        (s2.threads h).priority = max (s.threads h).priority (s2.threads g).priority) := by
  intro fuel
  induction fuel with
  | zero => intro depth t s s2 h; simp [donate_priority_thread_loop] at h
  | succ fuel ih =>
    intro depth t s s2 h hd
    obtain ⟨-, -, -, hother⟩ := donate_priority_thread_loop_spec (fuel + 1) depth t s s2 h
    have ht : (s2.threads t).priority = (s.threads t).priority := by
      apply hother t
      intro k hk hdk hn
      rcases hd k (by omega) 0 (by omega) with h0 | h0
      · rw [h0] at hn
        cases hn
      · apply h0
        rw [hn]
        rfl
    refine ⟨ht, ?_⟩
    intro j g h0 hj hg hh
    unfold donate_priority_thread_loop at h
    cases hw : (s.threads t).wait_on_lock with
    | none => simp [nth_holder, lock_holder, hw] at hh
    | some l =>
      rw [hw] at h
      simp only at h
      have hd8 : depth < 8 := by omega
      rw [if_pos hd8] at h
      cases hhold : (s.locks l).holder with
      | none => simp [nth_holder, lock_holder, hw, hhold] at hh
      | some x =>
        rw [hhold] at h
        simp only at h
        have hl : lock_holder s t = some x := by simp [lock_holder, hw, hhold]
        obtain ⟨hsame1, -, -, hother1⟩ := donate_step s t x
        have hd1 : chain_distinct
            (if (s.threads x).priority < (s.threads t).priority then
              store_priority s x (s.threads t).priority else s) x (8 - (depth + 1)) := by
          intro j1 hj1 i hi
          have := hd (j1 + 1) (by omega) (i + 1) (by omega)
          rw [nth_holder_succ s t x _ hl, nth_holder_succ s t x _ hl] at this
          rw [nth_holder_congr hsame1, nth_holder_congr hsame1]
          exact this
        obtain ⟨hx, hrel⟩ := ih (depth + 1) x _ s2 h hd1
        cases j with
        | zero =>
          simp only [nth_holder, Option.some.injEq] at hg
          rw [nth_holder_succ s t x 0 hl] at hh
          simp only [nth_holder, Option.some.injEq] at hh
          subst hg hh
          rw [hx, donate_step_max, ht]
        | succ j =>
          rw [nth_holder_succ s t x _ hl] at hg hh
          have hne : h0 ≠ x := by
            intro he
            have := hd (j + 2) (by omega) 1 (by omega)
            rw [nth_holder_succ s t x _ hl, nth_holder_succ s t x _ hl, hh] at this
            rcases this with h1 | h1
            · cases h1
            · apply h1
              rw [he]
              rfl
          rw [← nth_holder_congr hsame1] at hg hh
          rw [hrel j g h0 (by omega) hg hh, hother1 h0 hne]

/-- Counterexample to C26: in `uneven_chain_state` thread `0` (priority 10)
waits for a lock of thread `1` (priority 30), which waits for a lock of thread
`2` (priority 25); the chain visits no thread twice.  After
`donate_priority_thread (0)` thread `2` has the priority 30, not `max 25 10`.
In `deadlock_state`, where thread `0` is the second holder on its own chain,
the call changes the priority of thread `0` itself from 10 to 30. -/
theorem donate_priority_thread_chain_counterexample :
    (List.range 4).map (nth_holder uneven_chain_state 0) = [some 0, some 1, some 2, none] ∧
    chain_distinct uneven_chain_state 0 8 ∧
    (List.range 3).map (fun u => (uneven_chain_state.threads u).priority) = [10, 30, 25] ∧
    (donate_priority_thread 9 uneven_chain_state 0).map
      (fun s => (List.range 3).map (fun u => (s.threads u).priority)) = some [10, 30, 30] ∧
    max (uneven_chain_state.threads 2).priority (uneven_chain_state.threads 0).priority = 25 ∧
    (List.range 3).map (nth_holder deadlock_state 0) = [some 0, some 1, some 0] ∧
    (deadlock_state.threads 0).priority = 10 ∧
    (donate_priority_thread 9 deadlock_state 0).map (fun s => (s.threads 0).priority) =
      some 30 := by
  decide

/-- C26, amended: for a thread `t` whose wait chain visits no thread twice
within its first 8 links, `donate_priority_thread (t)` returns and sets the
priority of each of the first (at most 8) holders on the chain to the maximum
of its old priority and the priority its predecessor on the chain has after the
call, which for the first holder is the priority of `t`.  So a holder gets the
maximum of its old priority and the priority of `t` when no holder before it
on the chain had a priority above that of `t`.  Every other thread, `t` and the
holders beyond depth 8 included, is unchanged. -/
theorem donate_priority_thread_chain (s : State) (t : Tid) (fuel : Nat) (hf : 8 < fuel)
    (hd : chain_distinct s t 8) :
    ∃ s2, donate_priority_thread fuel s t = some s2 ∧
      s2.threads t = s.threads t ∧
      (∀ j g h, j < 8 → nth_holder s t j = some g → nth_holder s t (j + 1) = some h →
        (s2.threads h).priority = max (s.threads h).priority (s2.threads g).priority) ∧
      (∀ h, lock_holder s t = some h →
        (s2.threads h).priority = max (s.threads h).priority (s.threads t).priority) ∧
      (∀ k h, 1 ≤ k → k ≤ 8 → nth_holder s t k = some h →
        (∀ i g, 1 ≤ i → i < k → nth_holder s t i = some g →
          (s.threads g).priority ≤ (s.threads t).priority) →
        (s2.threads h).priority = max (s.threads h).priority (s.threads t).priority) ∧
      (∀ u, (∀ k, 1 ≤ k → k ≤ 8 → nth_holder s t k ≠ some u) → s2.threads u = s.threads u) ∧
      same_but_priorities s2 s := by
  obtain ⟨s2, h2⟩ := donate_priority_thread_loop_some fuel 0 t s (by omega) (by omega)
  obtain ⟨hsame, -, -, hother⟩ := donate_priority_thread_loop_spec fuel 0 t s s2 h2
  obtain ⟨ht, hrel⟩ := donate_priority_thread_loop_chain fuel 0 t s s2 h2 hd
  have hrel8 : ∀ j g h, j < 8 → nth_holder s t j = some g → nth_holder s t (j + 1) = some h →
      (s2.threads h).priority = max (s.threads h).priority (s2.threads g).priority :=
    fun j g h hj hg hh => hrel j g h (by omega) hg hh
  have hclosed : ∀ k h, 1 ≤ k → k ≤ 8 → nth_holder s t k = some h →
      (∀ i g, 1 ≤ i → i < k → nth_holder s t i = some g →
        (s.threads g).priority ≤ (s.threads t).priority) →
      (s2.threads h).priority = max (s.threads h).priority (s.threads t).priority := by
    intro k
    induction k with
    | zero => intro h hk; omega
    | succ k ih =>
      intro h _ hk8 hh hbelow
      obtain ⟨g, hg⟩ := nth_holder_prev s k t h hh
      rw [hrel8 k g h (by omega) hg hh]
      cases k with
      | zero =>
        simp only [nth_holder, Option.some.injEq] at hg
        subst hg
        rw [ht]
      | succ k =>
        have hgp := ih g (by omega) (by omega) hg
          (fun i g1 hi hik hg1 => hbelow i g1 hi (by omega) hg1)
        rw [hgp, max_eq_right (hbelow (k + 1) g (by omega) (by omega) hg)]
  refine ⟨s2, h2, thread_eq_of_same _ _ (hsame.1 t) ht, hrel8, ?_, hclosed, ?_, hsame⟩
  · intro h hl
    have h1 : nth_holder s t 1 = some h := by
      rw [nth_holder_succ s t h 0 hl]
      rfl
    have := hrel8 0 t h (by omega) rfl h1
    rw [this, ht]
  · intro u hu
    exact thread_eq_of_same _ _ (hsame.1 u) (hother u (fun k hk hk8 => hu k hk (by omega)))

/-- Witness of C26, amended: in `uneven_chain_state` the wait chain of thread `0`
visits no thread twice; after `donate_priority_thread (0)` the first holder,
thread `1`, has the priority `max 30 10`, and thread `0` is unchanged. -/
theorem donate_priority_thread_chain_witness :
    chain_distinct uneven_chain_state 0 8 ∧
    ∃ s2, donate_priority_thread 9 uneven_chain_state 0 = some s2 ∧
      s2.threads 0 = uneven_chain_state.threads 0 ∧
      (s2.threads 1).priority = max 30 10 := by
  obtain ⟨s2, h2, ht, -, hfirst, -⟩ :=
    donate_priority_thread_chain uneven_chain_state 0 9 (by decide) (by decide)
  exact ⟨by decide, s2, h2, ht, hfirst 1 (by decide)⟩

end Pintos
